import Mathlib

/-!
Verification development for the plan-compiler core of the citeseer (WWT)
repository: the TOON notation parser and serializer, the plan validator and
the Grafana dashboard generator.  All definitions are shallow embeddings of
the Python sources in src/WWT/src (toon/parser.py, toon/serializer.py,
compiler/validator.py, grafana/generator.py).  Machine strings are modeled
as Lean strings and lists of characters; Python dictionaries are modeled as
insertion-ordered association lists; functions that raise exceptions are
modeled in the Except monad; the only nondeterministic inputs (uuid-derived
panel ids and dashboard uids) are modeled as explicit parameters.
-/

namespace WWT

/-! ## Character classes and small string utilities -/

/-- ASCII word character, the fragment of the regex class backslash-w that the
repository's inputs use. -/
def isWordChar (c : Char) : Bool :=
  (('a' ≤ c && c ≤ 'z') || ('A' ≤ c && c ≤ 'Z') || ('0' ≤ c && c ≤ '9') || c = '_')

/-- The explicit whitespace set used by the parser's scanning loops
(the Python literal is the four characters space, tab, newline, carriage
return). -/
def isLoopWS (c : Char) : Bool :=
  c = ' ' || c = '\t' || c = '\n' || c = '\r'

/-- ASCII fragment of the regex class backslash-s (space, tab, newline,
carriage return, form feed, vertical tab). -/
def isReWS (c : Char) : Bool :=
  c = ' ' || c = '\t' || c = '\n' || c = '\r' || c = Char.ofNat 12 || c = Char.ofNat 11

/-- ASCII whitespace stripped by the Python str.strip method. -/
def isStripWS (c : Char) : Bool := isReWS c

/-- The single-quote character, written by code point. -/
def squoteC : Char := Char.ofNat 39

/-- A one-character string holding a single quote. -/
def squote : String := String.mk [squoteC]

/-- Model of Python str.strip with no arguments: remove ASCII whitespace from
both ends. -/
def pyStrip (cs : List Char) : List Char :=
  ((cs.dropWhile isStripWS).reverse.dropWhile isStripWS).reverse

/-- A run of n space characters. -/
def spaces (n : Nat) : List Char := List.replicate n ' '

/-- Join chunks with a separator, as Python str.join does. -/
def intercalateL (sep : List Char) : List (List Char) → List Char
  | [] => []
  | [x] => x
  | x :: rest => x ++ sep ++ intercalateL sep rest

/-- Whether pat occurs as a contiguous substring of cs (Python in operator on
strings). -/
def containsSub (pat : List Char) : List Char → Bool
  | [] => pat.isPrefixOf []
  | c :: rest => pat.isPrefixOf (c :: rest) || containsSub pat rest

/-- Case-insensitive prefix test over ASCII, for regexes compiled with the
ignore-case flag. -/
def isPrefixCI : List Char → List Char → Bool
  | [], _ => true
  | _ :: _, [] => false
  | p :: ps, c :: cs => (p.toLower = c.toLower) && isPrefixCI ps cs

/-- Model of Python str.upper over the ASCII fragment. -/
def pyUpper (cs : List Char) : List Char := cs.map Char.toUpper

/-- Model of Python str.lower over the ASCII fragment. -/
def pyLower (cs : List Char) : List Char := cs.map Char.toLower

/-- Lower-case a Lean string character-wise (Python str.lower). -/
def pyLowerS (s : String) : String := String.mk (pyLower s.data)

/-! ## The generic value tree

Python values flowing through the TOON parser, the serializer and the
generator are None, bool, int, float, str, list and dict.  Dictionaries are
modeled as insertion-ordered association lists (Python 3.7 dict order).
Floats are carried as their literal token: the repository never computes
with float values, it only moves literals between texts, so the IEEE value
itself is not modeled. -/

inductive ToonVal where
  | vnull
  | vbool (b : Bool)
  | vint (n : Int)
  | vfloat (lit : String)
  | vstr (s : String)
  | varr (items : List ToonVal)
  | vobj (fields : List (String × ToonVal))

/-- Association-list object, the model of one Python dict. -/
abbrev Obj := List (String × ToonVal)


/-- Model of Python dict item assignment d[k] = v: replace in place if the
key exists (its position is kept), else append at the end. -/
def insertOrReplace : Obj → String → ToonVal → Obj
  | [], k, v => [(k, v)]
  | (k', v') :: rest, k, v =>
      if k' = k then (k, v) :: rest else (k', v') :: insertOrReplace rest k v

/-- Model of Python dict.get: first binding of the key, if any. -/
def lookupVal : Obj → String → Option ToonVal
  | [], _ => none
  | (k', v') :: rest, k => if k' = k then some v' else lookupVal rest k

/-- Remove every binding of a key, keeping the order of the rest (Python
dict.pop and dict-comprehension filtering). -/
def removeKey : Obj → String → Obj
  | [], _ => []
  | (k', v') :: rest, k =>
      if k' = k then removeKey rest k else (k', v') :: removeKey rest k

/-! ## Python scalar coercions used by the parser -/

def isDigitC (c : Char) : Bool := '0' ≤ c && c ≤ '9'

def digitVal (c : Char) : Nat := c.toNat - '0'.toNat

/-- Digits possibly separated by single underscores (Python numeric literal
grammar for the int constructor), continuing an already-started number. -/
def digitsCore (acc : Nat) : List Char → Option Nat
  | [] => some acc
  | c :: rest =>
      if isDigitC c then digitsCore (acc * 10 + digitVal c) rest
      else if c = '_' then
        match rest with
        | d :: rest2 =>
            if isDigitC d then digitsCore (acc * 10 + digitVal d) rest2 else none
        | [] => none
      else none

/-- An unsigned digit run (underscore-separated), value if accepted. -/
def digitsStart : List Char → Option Nat
  | d :: rest => if isDigitC d then digitsCore (digitVal d) rest else none
  | [] => none

/-- Model of Python int(s) for the whitespace-free tokens the parser feeds it:
an optional sign followed by an underscore-separated digit run. -/
def pyStrToInt (cs : List Char) : Option Int :=
  match cs with
  | '+' :: rest => (digitsStart rest).map Int.ofNat
  | '-' :: rest => (digitsStart rest).map (fun n => -(n : Int))
  | _ => (digitsStart cs).map Int.ofNat

/-- An underscore-separated digit run with no value needed. -/
def isUDigits (cs : List Char) : Bool := (digitsStart cs).isSome

/-- Mantissa of a Python float literal: digits, digits dot, digits dot digits,
or dot digits. -/
def floatMantissa (cs : List Char) : Bool :=
  match cs.splitOn '.' with
  | [m] => isUDigits m
  | [m, f] =>
      (isUDigits m && (f = [] || isUDigits f)) || (m = [] && isUDigits f)
  | _ => false

/-- Split a float token at the exponent marker, if present. -/
def splitExp (cs : List Char) : List Char × Option (List Char) :=
  match cs.splitOn 'e' with
  | [m] =>
      match cs.splitOn 'E' with
      | [m'] => (m', none)
      | [m', x] => (m', some x)
      | _ => (m, some ['!'])
  | [m, x] => (m, some x)
  | _ => (cs, some ['!'])

/-- Exponent part: optional sign then digits. -/
def floatExp (cs : List Char) : Bool :=
  match cs with
  | '+' :: rest => isUDigits rest
  | '-' :: rest => isUDigits rest
  | _ => isUDigits cs

/-- Model of Python float(s) acceptance for whitespace-free tokens: an
optional sign, then inf, infinity or nan (case-insensitive) or a decimal
mantissa with optional exponent. -/
def pyFloatAccepts (cs : List Char) : Bool :=
  let body :=
    match cs with
    | '+' :: rest => rest
    | '-' :: rest => rest
    | _ => cs
  (pyLower body = "inf".data) || (pyLower body = "infinity".data) ||
  (pyLower body = "nan".data) ||
  (match splitExp body with
   | (m, none) => floatMantissa m
   | (m, some x) => floatMantissa m && floatExp x)

/-- Model of the parser's _parse_value: strip, then try the boolean literals,
the null literals, int, float, else keep the raw text as a string. -/
def pyParseScalar (cs : List Char) : ToonVal :=
  let raw := pyStrip cs
  if raw = "true".data then .vbool true
  else if raw = "false".data then .vbool false
  else if raw = "null".data || raw = "none".data then .vnull
  else
    match pyStrToInt raw with
    | some n => .vint n
    | none =>
        if pyFloatAccepts raw then .vfloat (String.mk raw)
        else .vstr (String.mk raw)


/-! ## Escape processing for quoted strings

The serializer escapes with two sequential single-character replaces
(backslash then double quote); the parser unescapes with two sequential
two-character replaces.  Each Python str.replace is global, leftmost and
non-overlapping, which for these patterns is the one-pass scan written
here. -/

/-- One global single-character replace (Python str.replace with a
one-character pattern). -/
def replChar (pat : Char) (rep : List Char) : List Char → List Char
  | [] => []
  | c :: rest => (if c = pat then rep else [c]) ++ replChar pat rep rest

/-- One global two-character-pattern replace (Python str.replace with a
two-character pattern, leftmost and non-overlapping). -/
def replPair (p1 p2 rep : Char) : List Char → List Char
  | [] => []
  | [c] => [c]
  | a :: b :: rest =>
      if a = p1 && b = p2 then rep :: replPair p1 p2 rep rest
      else a :: replPair p1 p2 rep (b :: rest)

/-- Serializer escaping: replace backslash by double backslash, then double
quote by backslash double quote. -/
def escDq (cs : List Char) : List Char :=
  replChar '"' ['\\', '"'] (replChar '\\' ['\\', '\\'] cs)

/-- Parser unescaping for a double-quoted span: replace backslash-quote by
quote, then double backslash by backslash. -/
def unescDq (cs : List Char) : List Char :=
  replPair '\\' '\\' '\\' (replPair '\\' '"' '"' cs)

/-- The image of a string under the serializer's first escaping pass:
backslashes doubled, double quotes still bare.  Used to factor the
escape/unescape round-trip argument. -/
def escBS : List Char → List Char
  | [] => []
  | c :: rest => (if c = '\\' then ['\\', '\\'] else [c]) ++ escBS rest

/-- Parser unescaping for a single-quoted span. -/
def unescSq (cs : List Char) : List Char :=
  replPair '\\' '\\' '\\' (replPair '\\' squoteC squoteC cs)

/-! ## Integer printing (Python str on int) -/

def digitChar (d : Nat) : Char := Char.ofNat ('0'.toNat + d)

/-- Decimal digits of n, least-significant first; the fuel argument only
drives structural recursion and n itself is always enough. -/
def natDigitsRev : Nat → Nat → List Char
  | 0, n => [digitChar n]
  | fuel + 1, n =>
      if n < 10 then [digitChar n]
      else digitChar (n % 10) :: natDigitsRev fuel (n / 10)

def natToStr (n : Nat) : List Char := (natDigitsRev n n).reverse

/-- Model of Python str on an int. -/
def pyIntToStr (n : Int) : List Char :=
  if n < 0 then '-' :: natToStr n.natAbs else natToStr n.natAbs

/-! ## The TOON parser (src/WWT/src/toon/parser.py)

Python scans a fixed string by index; every access is forward-only, so the
embedding threads the remaining character list instead of an index.  The
three scanning helpers are structurally recursive; the mutually recursive
value/object/array parsers take a fuel argument that the top-level entry
point instantiates with a value larger than the input length, which the
lemmas below show is always sufficient. -/

/-- Model of _find_string_end: the input starts just after the opening quote;
returns the raw span (escapes unprocessed) and the text after the closing
quote, or none when the string is unterminated (Python raises
ToonParseError). -/
def findStringEnd (q : Char) : List Char → Option (List Char × List Char)
  | [] => none
  | c :: rest =>
      if c = '\\' then
        match rest with
        | c2 :: rest2 =>
            (findStringEnd q rest2).map (fun p => (c :: c2 :: p.1, p.2))
        | [] => none
      else if c = q then some ([], rest)
      else (findStringEnd q rest).map (fun p => (c :: p.1, p.2))

/-- Quote-aware delimiter scan shared by _find_matching_brace and
_find_matching_bracket: the input starts just after the opening delimiter
(depth starts at 1), inStr tracks the active quote; returns the inner span
and the text after the matching closer. -/
def scanDelim (opn cls : Char) : Nat → Option Char → List Char → Option (List Char × List Char)
  | _, _, [] => none
  | depth, some q, c :: rest =>
      if c = '\\' then
        match rest with
        | c2 :: rest2 =>
            (scanDelim opn cls depth (some q) rest2).map (fun p => (c :: c2 :: p.1, p.2))
        | [] => none
      else if c = q then
        (scanDelim opn cls depth none rest).map (fun p => (c :: p.1, p.2))
      else (scanDelim opn cls depth (some q) rest).map (fun p => (c :: p.1, p.2))
  | depth, none, c :: rest =>
      if c = '"' || c = squoteC then
        (scanDelim opn cls depth (some c) rest).map (fun p => (c :: p.1, p.2))
      else if c = opn then
        (scanDelim opn cls (depth + 1) none rest).map (fun p => (c :: p.1, p.2))
      else if c = cls then
        if depth = 1 then some ([], rest)
        else (scanDelim opn cls (depth - 1) none rest).map (fun p => (c :: p.1, p.2))
      else (scanDelim opn cls depth none rest).map (fun p => (c :: p.1, p.2))

/-- Model of _find_matching_brace, applied to the text just after the opening
brace. -/
def findMatchingBrace (cs : List Char) : Option (List Char × List Char) :=
  scanDelim '\x7b' '\x7d' 1 none cs

/-- Model of _find_matching_bracket, applied to the text just after the
opening bracket. -/
def findMatchingBracket (cs : List Char) : Option (List Char × List Char) :=
  scanDelim '[' ']' 1 none cs

/-- Text that both delimiter scanners pass through without returning and
without a state change: scanning it prepends it to whatever the rest of the
scan yields.  Serialized values have this property, which is what makes the
quote-aware matchers find the closing delimiter of a serialized object or
array. -/
def ScanNeutral (content : List Char) : Prop :=
  ∀ (opn cls : Char) (d : Nat) (rest : List Char),
    ((opn = '\x7b' ∧ cls = '\x7d') ∨ (opn = '[' ∧ cls = ']')) → 1 ≤ d →
    scanDelim opn cls d none (content ++ rest) =
      (scanDelim opn cls d none rest).map (fun p => (content ++ p.1, p.2))

/-- Skip the explicit scanning-loop whitespace set. -/
def skipLoopWS (cs : List Char) : List Char := cs.dropWhile isLoopWS

/-- Skip whitespace and commas after a parsed member or element. -/
def skipLoopWSComma (cs : List Char) : List Char :=
  cs.dropWhile (fun c => isLoopWS c || c = ',')

/-- The unquoted-token class: one or more characters that are not regex
whitespace, comma, closing brace or closing bracket. -/
def isTokenChar (c : Char) : Bool :=
  !(isReWS c || c = ',' || c = '\x7d' || c = ']')

/-- The unquoted-token tail of _parse_value_at: cs0 is the original input
(returned unchanged when the token is empty, since Python reports zero
consumed characters), cs the whitespace-skipped input. -/
def parseToken (cs0 cs : List Char) : Except String (ToonVal × List Char) :=
  let tok := cs.takeWhile isTokenChar
  match tok with
  | [] => .ok (.vnull, cs0)
  | _ :: _ => .ok (pyParseScalar tok, cs.drop tok.length)

mutual

/-- Model of _parse_value_at in the rest-of-input style: returns the parsed
value and the unconsumed suffix.  When no value can start here the Python
function returns None with zero consumed characters, modeled by returning
the original input unchanged. -/
def parseValueAt : Nat → List Char → Except String (ToonVal × List Char)
  | 0, _ => .error "fuel"
  | fuel + 1, cs0 =>
      let cs := skipLoopWS cs0
      match cs with
      | [] => .ok (.vnull, [])
      | c :: rest =>
          if c = '@' then
            -- the anchored regex for a tagged object: at-sign, word, optional
            -- whitespace, opening brace
            let w := rest.takeWhile isWordChar
            let afterTag := (rest.drop w.length).dropWhile isReWS
            match w, afterTag with
            | _ :: _, '\x7b' :: body0 =>
                match findMatchingBrace body0 with
                | some (inner, rest2) => do
                    let obj ← parseObjLoop fuel (pyStrip inner) []
                    .ok (.vobj (insertOrReplace obj "_type" (.vstr (String.mk w))), rest2)
                | none => .error "Unmatched brace"
            | _, _ => parseToken cs0 cs
          else if c = '\x7b' then
            match findMatchingBrace rest with
            | some (inner, rest2) => do
                let obj ← parseObjLoop fuel (pyStrip inner) []
                .ok (.vobj obj, rest2)
            | none => .error "Unmatched brace"
          else if c = '[' then
            match findMatchingBracket rest with
            | some (inner, rest2) => do
                let items ← parseArrLoop fuel (pyStrip inner) []
                .ok (.varr items, rest2)
            | none => .error "Unmatched bracket"
          else if c = '"' then
            match findStringEnd '"' rest with
            | some (raw, rest2) => .ok (.vstr (String.mk (unescDq raw)), rest2)
            | none => .error "Unterminated string"
          else if c = squoteC then
            match findStringEnd squoteC rest with
            | some (raw, rest2) => .ok (.vstr (String.mk (unescSq raw)), rest2)
            | none => .error "Unterminated string"
          else parseToken cs0 cs

/-- The member-scanning loop of _parse_object_content: skip whitespace, try
the anchored key regex (word, optional whitespace, colon), on failure skip a
single character, on success parse a value and store it. -/
def parseObjLoop : Nat → List Char → Obj → Except String Obj
  | 0, _, _ => .error "fuel"
  | fuel + 1, cs, acc =>
      let cs1 := skipLoopWS cs
      match cs1 with
      | [] => .ok acc
      | _ :: rest =>
          let w := cs1.takeWhile isWordChar
          let afterKey := (cs1.drop w.length).dropWhile isReWS
          match w, afterKey with
          | _ :: _, ':' :: afterColon => do
              let (v, rest2) ← parseValueAt fuel (skipLoopWS afterColon)
              parseObjLoop fuel (skipLoopWSComma rest2)
                (insertOrReplace acc (String.mk w) v)
          | _, _ => parseObjLoop fuel rest acc

/-- The element-scanning loop of _parse_array. -/
def parseArrLoop : Nat → List Char → List ToonVal → Except String (List ToonVal)
  | 0, _, _ => .error "fuel"
  | fuel + 1, cs, acc =>
      let cs1 := skipLoopWS cs
      match cs1 with
      | [] => .ok acc
      | _ :: _ => do
          let (v, rest) ← parseValueAt fuel cs1
          if rest.length < cs1.length then
            parseArrLoop fuel (skipLoopWSComma rest) (acc ++ [v])
          else
            parseArrLoop fuel (skipLoopWSComma cs1.tail) acc

end

/-- Model of _parse_object_content: Python strips the content, then runs the
member-scanning loop on an empty accumulator. -/
def parseObjectContent (fuel : Nat) (cs : List Char) : Except String Obj :=
  parseObjLoop fuel (pyStrip cs) []

/-- Model of _parse_array: strip, then run the element loop; a zero-length
value parse appends nothing and skips one character. -/
def parseArray (fuel : Nat) (cs : List Char) : Except String (List ToonVal) :=
  parseArrLoop fuel (pyStrip cs) []

/-- The anchored top-level regex for a tagged document: at-sign, word,
optional whitespace, opening brace, nonempty content, closing brace,
trailing whitespace only.  The greedy dot-all group ends at the last closing
brace followed only by whitespace. -/
def tryTagged (cs : List Char) : Option (String × List Char) :=
  match cs with
  | '@' :: rest =>
      let w := rest.takeWhile isWordChar
      if w = [] then none
      else
        match (rest.drop w.length).dropWhile isReWS with
        | '\x7b' :: body0 =>
            match (body0.reverse.dropWhile isReWS) with
            | '\x7d' :: revContent =>
                if revContent = [] then none
                else some (String.mk w, revContent.reverse)
            | _ => none
        | _ => none
  | _ => none

/-- Model of parse_toon: strip, try the tagged-object wrapper, then the bare
object wrapper, else coerce the whole text as a single scalar under the key
value. -/
def parse_toon (text : String) : Except String Obj :=
  let cs := pyStrip text.data
  match tryTagged cs with
  | some (w, content) => do
      let obj ← parseObjectContent (cs.length + 8) content
      .ok (insertOrReplace obj "_type" (.vstr w))
  | none =>
      if cs.head? = some '\x7b' && cs.getLast? = some '\x7d' && cs.length ≥ 2 then
        parseObjectContent (cs.length + 8) (cs.drop 1 |>.dropLast)
      else
        .ok [("value", pyParseScalar cs)]



/-! ## The TOON serializer (src/WWT/src/toon/serializer.py) -/

/-- The string-quoting test of _serialize_value: quote when the string
contains a space, newline, colon, brace, bracket or double quote, equals a
boolean or null literal token, or is empty. -/
def quoteTriggered (s : String) : Bool :=
  s.data.any (fun c =>
    c = ' ' || c = '\n' || c = ':' || c = '\x7b' || c = '\x7d' ||
    c = '[' || c = ']' || c = '"') ||
  s = "true" || s = "false" || s = "null" || s = ""

/-- Python truthiness for the modeled value universe.  A float is truthy when
its literal has a nonzero digit. -/
def pyTruthy : ToonVal → Bool
  | .vnull => false
  | .vbool b => b
  | .vint n => n ≠ 0
  | .vfloat lit => lit.data.any (fun c => '1' ≤ c && c ≤ '9')
  | .vstr s => s ≠ ""
  | .varr items => !items.isEmpty
  | .vobj fields => !fields.isEmpty

/-- Rendering of a value interpolated into the at-tag position of an
f-string.  Scalars follow Python str; the container reprs are not modeled
(no theorem below reaches them, since a container-valued type tag is
pathological). -/
def tagString : ToonVal → List Char
  | .vstr s => s.data
  | .vint n => pyIntToStr n
  | .vbool b => if b then "True".data else "False".data
  | .vnull => "None".data
  | .vfloat lit => lit.data
  | .varr _ => []
  | .vobj _ => []

/-- Whether an array element counts as complex for layout purposes. -/
def isComplexVal : ToonVal → Bool
  | .varr _ => true
  | .vobj _ => true
  | _ => false

mutual

/-- Model of _serialize_value.  For a nested dictionary Python serializes the
dictionary with the _type binding removed; the member loop here skips _type
bindings instead, which renders the same members in the same order. -/
def serializeValue : ToonVal → Nat → Bool → List Char
  | .vnull, _, _ => "null".data
  | .vbool b, _, _ => if b then "true".data else "false".data
  | .vint n, _, _ => pyIntToStr n
  | .vfloat lit, _, _ => lit.data
  | .vstr s, _, _ =>
      if quoteTriggered s then '"' :: (escDq s.data ++ ['"']) else s.data
  | .varr items, indent, compact =>
      if items.isEmpty then "[]".data
      else if compact || !(items.any isComplexVal) then
        '[' :: (intercalateL [','] (serializeArrItems items indent) ++ [']'])
      else
        '[' :: '\n' :: (intercalateL [',', '\n']
          (serializeArrItemsIndented items (indent + 2)) ++
          '\n' :: (spaces indent ++ [']']))
  | .vobj fields, indent, compact =>
      match lookupVal fields "_type" with
      | some tv =>
          if pyTruthy tv then
            if compact then
              '@' :: (tagString tv ++ '\x7b' :: intercalateL [' '] (serializeObjParts fields (indent + 2) true) ++ ['\x7d'])
            else
              '@' :: (tagString tv ++ '\x7b' :: '\n' :: intercalateL ['\n'] (serializeObjParts fields (indent + 2) false) ++
                '\n' :: (spaces indent ++ ['\x7d']))
          else
            if compact then
              '\x7b' :: (intercalateL [' '] (serializeObjParts fields (indent + 2) true) ++ ['\x7d'])
            else
              '\x7b' :: '\n' :: (intercalateL ['\n'] (serializeObjParts fields (indent + 2) false) ++
                '\n' :: (spaces indent ++ ['\x7d']))
      | none =>
          if compact then
            '\x7b' :: (intercalateL [' '] (serializeObjParts fields (indent + 2) true) ++ ['\x7d'])
          else
            '\x7b' :: '\n' :: (intercalateL ['\n'] (serializeObjParts fields (indent + 2) false) ++
              '\n' :: (spaces indent ++ ['\x7d']))

/-- The member parts of _serialize_object, each already carrying the inner
indent prefix in pretty mode; members bound to None and the _type binding
(removed by every caller in Python) are dropped. -/
def serializeObjParts : List (String × ToonVal) → Nat → Bool → List (List Char)
  | [], _, _ => []
  | (k, v) :: rest, innerIndent, compact =>
      if k = "_type" then serializeObjParts rest innerIndent compact
      else
        match v with
        | .vnull => serializeObjParts rest innerIndent compact
        | _ =>
            (if compact then k.data ++ ':' :: serializeValue v innerIndent compact
             else spaces innerIndent ++ (k.data ++ ':' :: serializeValue v innerIndent compact))
              :: serializeObjParts rest innerIndent compact

/-- Array items in the inline rendering (Python serializes each with compact
set). -/
def serializeArrItems : List ToonVal → Nat → List (List Char)
  | [], _ => []
  | v :: rest, indent => serializeValue v indent true :: serializeArrItems rest indent

/-- Array items in the one-per-line rendering, each prefixed by its indent. -/
def serializeArrItemsIndented : List ToonVal → Nat → List (List Char)
  | [], _ => []
  | v :: rest, innerIndent =>
      (spaces innerIndent ++ serializeValue v innerIndent false)
        :: serializeArrItemsIndented rest innerIndent

end

/-- Model of _serialize_array as a standalone function (the body of the
varr case above). -/
def serializeArray (items : List ToonVal) (indent : Nat) (compact : Bool) : List Char :=
  serializeValue (.varr items) indent compact


/-- Model of serialize_toon as a call: Python pops the top-level _type key
out of the caller's dictionary, so the call returns both the output text and
the dictionary as the caller sees it afterwards. -/
def serialize_toon_call (data : Obj) (indent : Nat) (compact : Bool) : List Char × Obj :=
  let tname := lookupVal data "_type"
  let rest := removeKey data "_type"
  match tname with
  | some tv =>
      if pyTruthy tv then
        (if compact then
          '@' :: (tagString tv ++ '\x7b' :: intercalateL [' '] (serializeObjParts rest (indent + 2) true) ++ ['\x7d'])
        else
          '@' :: (tagString tv ++ '\x7b' :: '\n' :: intercalateL ['\n'] (serializeObjParts rest (indent + 2) false) ++
            '\n' :: (spaces indent ++ ['\x7d'])), rest)
      else
        (if compact then
          '\x7b' :: (intercalateL [' '] (serializeObjParts rest (indent + 2) true) ++ ['\x7d'])
        else
          '\x7b' :: '\n' :: (intercalateL ['\n'] (serializeObjParts rest (indent + 2) false) ++
            '\n' :: (spaces indent ++ ['\x7d'])), rest)
  | none =>
      (if compact then
        '\x7b' :: (intercalateL [' '] (serializeObjParts data (indent + 2) true) ++ ['\x7d'])
      else
        '\x7b' :: '\n' :: (intercalateL ['\n'] (serializeObjParts data (indent + 2) false) ++
          '\n' :: (spaces indent ++ ['\x7d'])), data)

/-- The output text of serialize_toon on a dictionary, viewed as a pure
function of the value of the argument. -/
def serialize_toon (data : Obj) (compact : Bool) : String :=
  String.mk (serialize_toon_call data 0 compact).1



/-! ## The plan validator (src/WWT/src/compiler/validator.py)

Error identity is modeled structurally rather than by message text: the
Python messages interpolate a set in iteration order, which is not a
function of the input. -/

inductive ValidationErr where
  | forbiddenKeyword (kw : String)
  | invalidVizType (t : String)
  | missingAxis (t : String)
  deriving DecidableEq

/-- The write-operation keyword list, in source order. -/
def writeKeywords : List String :=
  ["INSERT", "UPDATE", "DELETE", "DROP", "CREATE", "ALTER", "TRUNCATE", "REPLACE", "MERGE"]

/-- Whether the keyword occurs in cs at a word boundary: the occurrence is
preceded and followed by nothing or a non-word character.  All keywords are
alphabetic, so this is exactly the regex word-boundary pattern. -/
def wbFrom (kw : List Char) (prev : Option Char) : List Char → Bool
  | [] => false
  | c :: rest =>
      ((match prev with | none => true | some p => !isWordChar p) &&
        kw.isPrefixOf (c :: rest) &&
        (match (c :: rest).drop kw.length with
         | [] => true
         | c2 :: _ => !isWordChar c2)) ||
      wbFrom kw (some c) rest

def wordBoundaryOccurs (kw : List Char) (cs : List Char) : Bool :=
  wbFrom kw none cs

/-- First keyword of the list occurring at a word boundary in the
upper-cased SQL, if any (the loop order of validate_sql_readonly). -/
def firstForbidden : List String → List Char → Option String
  | [], _ => none
  | kw :: rest, up =>
      if wordBoundaryOccurs kw.data up then some kw else firstForbidden rest up

/-- Model of validate_sql_readonly: upper-case the SQL and reject on the
first write keyword found at a word boundary. -/
def validate_sql_readonly (sql : String) : Except ValidationErr Unit :=
  match firstForbidden writeKeywords (pyUpper sql.data) with
  | some kw => .error (.forbiddenKeyword kw)
  | none => .ok ()

/-- Remove the leftmost non-overlapping quoted spans for one quote character
(the regex quote, any non-quote characters, quote, replaced by nothing).
The fuel argument drives structural recursion; the input length is always
enough. -/
def stripQuoteSpans (q : Char) : Nat → List Char → List Char
  | 0, cs => cs
  | fuel + 1, cs =>
      match cs with
      | [] => []
      | c :: rest =>
          if c = q then
            match rest.splitOn q with
            | [_] => c :: stripQuoteSpans q fuel rest
            | [] => c :: stripQuoteSpans q fuel rest
            | _ :: after0 :: later =>
                stripQuoteSpans q fuel (intercalateL [q] (after0 :: later))
          else c :: stripQuoteSpans q fuel rest

/-- The claimed quote stripping (present in validate_column_references, and
attributed by the specification to the read-only check): drop single-quoted
spans, then double-quoted spans. -/
def stripQuotedSpans (cs : List Char) : List Char :=
  stripQuoteSpans '"' cs.length (stripQuoteSpans squoteC cs.length cs)

/-- The read-only policy exactly as the claim words it: strip quoted spans
first, then scan the upper-cased remainder for write keywords at word
boundaries.  Modelled from the specification for comparison with the code;
the code itself does not strip. -/
def claimReadonlyRejects (sql : String) : Bool :=
  writeKeywords.any (fun kw =>
    wordBoundaryOccurs kw.data (pyUpper (stripQuotedSpans sql.data)))

/-- The visualization types accepted by validate_visualization. -/
def valid_types : List String := ["bar", "line", "stat", "table", "pie", "gauge"]

/-- Truthiness of an optional lookup result (Python dict.get returning None
for a missing key). -/
def pyTruthyOpt : Option ToonVal → Bool
  | none => false
  | some v => pyTruthy v

/-- The declared type of a visualization: the lower-cased string value of the
type key, defaulting to the empty string when absent.  A non-string type
value raises TypeError in Python and is outside the modeled domain. -/
def vizTypeOf (viz : Obj) : String :=
  match lookupVal viz "type" with
  | some (.vstr s) => pyLowerS s
  | _ => ""

/-- Model of validate_visualization.  The sql argument is unused, as in the
source; the stat branch is a documented no-op. -/
def validate_visualization (viz : Obj) (sql : String) : Except ValidationErr Unit :=
  let _ := sql
  let t := vizTypeOf viz
  if t ≠ "" && ¬ (t ∈ valid_types) then .error (.invalidVizType t)
  else if (t = "bar" || t = "line" || t = "pie") &&
      !pyTruthyOpt (lookupVal viz "x") && !pyTruthyOpt (lookupVal viz "y") then
    .error (.missingAxis t)
  else .ok ()



/-! ## The dashboard generator (src/WWT/src/grafana/generator.py)

The two textual rewrites and the x-column extraction are backtracking
regexes; they are modeled here by specialised matchers that enumerate the
quantifier splits in the engine's preference order (greedy, leftmost).
Panel ids and dashboard uids come from uuid4 in Python and are explicit
parameters here. -/

/-- Candidate counts hi, hi-1, ..., lo for a greedy quantifier. -/
def rangeDown (hi lo : Nat) : List Nat :=
  (List.range (hi + 1 - lo)).map (fun i => hi - i)

/-- First success over a candidate list. -/
def firstSomeNat (f : Nat → Option α) : List Nat → Option α
  | [] => none
  | n :: rest =>
      match f n with
      | some x => some x
      | none => firstSomeNat f rest

/-- The scan of re.sub and re.search: try the anchored matcher at each start
position from the left; returns the text before the match and the match
data. -/
def searchSub (f : List Char → Option α) : List Char → Option (List Char × α)
  | [] => (f []).map (fun r => ([], r))
  | c :: rest =>
      match f (c :: rest) with
      | some r => some ([], r)
      | none => (searchSub f rest).map (fun p => (c :: p.1, p.2))

/-- A whitespace run followed by one comma-or-whitespace character, with the
run greedy: the tail group of both rewrite patterns.  Returns the matched
span and the remainder. -/
def matchWsPunct (cs : List Char) : Option (List Char × List Char) :=
  let w := (cs.takeWhile isReWS).length
  firstSomeNat (fun k =>
    match cs.drop k with
    | c :: rest => if c = ',' || isReWS c then some (cs.take (k + 1), rest) else none
    | [] => none) (rangeDown w 0)

/-- Anchored matcher for the simple rewrite pattern: the word select
(ignoring case), whitespace, the column, then whitespace and a comma or
whitespace character.  Returns the select-plus-whitespace span, the column
text as matched, the tail span and the remainder. -/
def matchSelCol (x : List Char) (cs : List Char) : Option (List Char × List Char × List Char × List Char) :=
  if isPrefixCI "select".data cs then
    let after6 := cs.drop 6
    let wsMax := (after6.takeWhile isReWS).length
    firstSomeNat (fun wsLen =>
      if wsLen = 0 then none
      else
        let g1 := cs.take (6 + wsLen)
        let rem := cs.drop (6 + wsLen)
        if isPrefixCI x rem then
          (matchWsPunct (rem.drop x.length)).map
            (fun p => (g1, rem.take x.length, p.1, p.2))
        else none) (rangeDown wsMax 1)
  else none

/-- The character class of the optional middle group of the first rewrite
pattern: word characters, whitespace, comma, dot, parentheses, both quotes
and the asterisk. -/
def p1Class (c : Char) : Bool :=
  isWordChar c || isReWS c || c = ',' || c = '.' || c = '(' || c = ')' ||
  c = squoteC || c = '"' || c = '*'

/-- The present-group alternative of the first rewrite pattern after the
select prefix: a nonempty class run ending in a comma and optional
whitespace, then the column, then the tail group.  Greedy on the class run
and the whitespace. -/
def matchG2Then (x : List Char) (rem : List Char) : Option (List Char × List Char × List Char × List Char) :=
  let xMax := (rem.takeWhile p1Class).length
  firstSomeNat (fun xLen =>
    if xLen = 0 then none
    else
      match rem.drop xLen with
      | ',' :: afterComma =>
          let wsMax2 := (afterComma.takeWhile isReWS).length
          firstSomeNat (fun ws2 =>
            let g2 := rem.take (xLen + 1 + ws2)
            let rem2 := rem.drop (xLen + 1 + ws2)
            if isPrefixCI x rem2 then
              (matchWsPunct (rem2.drop x.length)).map
                (fun p => (g2, rem2.take x.length, p.1, p.2))
            else none) (rangeDown wsMax2 0)
      | _ => none) (rangeDown xMax 1)

/-- Anchored matcher for the first rewrite pattern of
normalize_time_columns, with the optional middle group tried present-first
as the engine does.  Returns select span, middle span (possibly empty),
column text, tail span and remainder. -/
def matchP1 (x : List Char) (cs : List Char) : Option (List Char × List Char × List Char × List Char × List Char) :=
  if isPrefixCI "select".data cs then
    let after6 := cs.drop 6
    let wsMax := (after6.takeWhile isReWS).length
    firstSomeNat (fun wsLen =>
      if wsLen = 0 then none
      else
        let g1 := cs.take (6 + wsLen)
        let rem := cs.drop (6 + wsLen)
        match matchG2Then x rem with
        | some (g2, col, g4, rest) => some (g1, g2, col, g4, rest)
        | none =>
            if isPrefixCI x rem then
              (matchWsPunct (rem.drop x.length)).map
                (fun p => (g1, [], rem.take x.length, p.1, p.2))
            else none) (rangeDown wsMax 1)
  else none

/-- The strftime wrapping text around a matched column. -/
def strftimeWrap (col : List Char) : List Char :=
  "strftime(".data ++ col ++ ", ".data ++ squote.data ++ "%Y-%m-%d".data ++
    squote.data ++ ") AS ".data ++ col

/-- One-replacement substitution with the first rewrite pattern. -/
def subP1 (x cs : List Char) : List Char :=
  match searchSub (matchP1 x) cs with
  | some (pre, (g1, g2, col, g4, rest)) => pre ++ g1 ++ g2 ++ strftimeWrap col ++ g4 ++ rest
  | none => cs

/-- One-replacement substitution with the second rewrite pattern. -/
def subP2 (x cs : List Char) : List Char :=
  match searchSub (matchSelCol x) cs with
  | some (pre, (g1, col, g3, rest)) => pre ++ g1 ++ strftimeWrap col ++ g3 ++ rest
  | none => cs

/-- One-replacement substitution casting the column to VARCHAR (the bar
branch of generate_panel). -/
def subCast (x cs : List Char) : List Char :=
  match searchSub (matchSelCol x) cs with
  | some (pre, (g1, col, g3, rest)) =>
      pre ++ g1 ++ "CAST(".data ++ col ++ " AS VARCHAR) AS ".data ++ col ++ g3 ++ rest
  | none => cs

/-- The lexical time-column keyword set. -/
def time_keywords : List String :=
  ["date", "time", "created", "updated", "at", "timestamp", "datetime", "when"]

/-- Model of normalize_time_columns. -/
def normalize_time_columns (sql : String) (x_column : Option String) : String :=
  match x_column with
  | none => sql
  | some x =>
      if sql = "" || x = "" then sql
      else
        let xl := pyLowerS x
        if !(time_keywords.any fun kw => containsSub kw.data xl.data) then sql
        else if containsSub ("strftime(".data ++ x.data) (pyLower sql.data) ||
            containsSub ("strftime( ".data ++ x.data) (pyLower sql.data) then sql
        else
          let r1 := subP1 x.data sql.data
          if r1 = sql.data then String.mk (subP2 x.data sql.data) else String.mk r1

/-- The x-column extraction regex of the bar branch: the word select
(ignoring case), whitespace, then a word; first occurrence from the left. -/
def trySelWord (cs : List Char) : Option String :=
  if isPrefixCI "select".data cs then
    let after := cs.drop 6
    let ws := (after.takeWhile isReWS).length
    if ws = 0 then none
    else
      match (after.drop ws).takeWhile isWordChar with
      | [] => none
      | w => some (String.mk w)
  else none

def searchSelectWord : List Char → Option String
  | [] => none
  | c :: rest =>
      match trySelWord (c :: rest) with
      | some w => some w
      | none => searchSelectWord rest



/-- The query-target list of a panel. -/
def mkTargets (sql : String) : ToonVal :=
  .varr [.vobj [("queryText", .vstr sql), ("rawQueryText", .vstr sql),
                ("refId", .vstr "A"), ("format", .vstr "table")]]

/-- The fields of the base panel structure after the leading id binding, with
the final query text of the targets already in place (the bar branch
rewrites both query fields in place, which leaves the dictionary order
unchanged). -/
def basePanelRest (panel_spec : Obj) (grid_pos : Obj) (ds : String) (sql : String) : Obj :=
  [("title", (lookupVal panel_spec "title").getD (.vstr "Panel")),
   ("description", (lookupVal panel_spec "description").getD (.vstr "")),
   ("gridPos", .vobj grid_pos),
   ("datasource", .vobj [("type", .vstr "frser-sqlite-datasource"), ("uid", .vstr ds)]),
   ("targets", mkTargets sql)]

def legendBottom : String × ToonVal :=
  ("legend", .vobj [("displayMode", .vstr "list"), ("placement", .vstr "bottom")])

def tooltipSingle : String × ToonVal :=
  ("tooltip", .vobj [("mode", .vstr "single")])

def paletteColor : String × ToonVal :=
  ("color", .vobj [("mode", .vstr "palette-classic")])

def thresholdsColor : String × ToonVal :=
  ("color", .vobj [("mode", .vstr "thresholds")])

def fcPalette : String × ToonVal :=
  ("fieldConfig", .vobj [("defaults", .vobj [paletteColor]), ("overrides", .varr [])])

def reduceOpts (values : Bool) : String × ToonVal :=
  ("reduceOptions", .vobj [("calcs", .varr [.vstr "lastNotNull"]),
    ("fields", .vstr ""), ("values", .vbool values)])

def gyrSteps : String × ToonVal :=
  ("thresholds", .vobj [("mode", .vstr "absolute"),
    ("steps", .varr [.vobj [("color", .vstr "green"), ("value", .vnull)],
      .vobj [("color", .vstr "yellow"), ("value", .vint 50)],
      .vobj [("color", .vstr "red"), ("value", .vint 80)]])])

/-- The final SQL of the bar branch: the x column is the truthy x field or
the first word after select; the query is time-normalized, then cast to
VARCHAR when nothing was rewritten and no wrapping is already present. -/
def barFinalSql (panel_spec : Obj) (sql : String) : Option String × String :=
  let x_col0 : Option String :=
    match lookupVal panel_spec "x" with
    | some (.vstr s) => if s = "" then none else some s
    | _ => none
  let x_col : Option String :=
    match x_col0 with
    | some s => some s
    | none => searchSelectWord sql.data
  match x_col with
  | none => (none, sql)
  | some x =>
      let normalized := normalize_time_columns sql (some x)
      if pyLowerS x ≠ "strftime" then
        if !containsSub ("CAST(".data ++ x.data) normalized.data &&
            !containsSub ("strftime(".data ++ x.data) (pyLower normalized.data) then
          if normalized = sql then (some x, String.mk (subCast x.data sql.data))
          else (some x, normalized)
        else (some x, normalized)
      else (some x, normalized)

/-- The trailing bindings of the bar branch: type, options (with the
x-field when known) and field config. -/
def barTail (panel_spec : Obj) (sql : String) : Obj :=
      [("type", .vstr "barchart"),
       ("options", .vobj ([legendBottom, tooltipSingle] ++
         (match (barFinalSql panel_spec sql).1 with
          | some x => [("xField", .vstr x)]
          | none => []))),
       fcPalette]


/-- The trailing bindings of the line branch. -/
def lineTail : Obj :=
      [("type", .vstr "timeseries"),
       ("options", .vobj [legendBottom, tooltipSingle]),
       ("fieldConfig", .vobj [("defaults", .vobj [paletteColor,
          ("custom", .vobj [("lineWidth", .vint 2), ("fillOpacity", .vint 10),
            ("pointSize", .vint 5)])]),
         ("overrides", .varr [])])]


/-- The trailing bindings of the stat branch. -/
def statTail : Obj :=
      [("type", .vstr "stat"),
       ("options", .vobj [("colorMode", .vstr "value"), ("graphMode", .vstr "area"),
         ("justifyMode", .vstr "auto"), ("textMode", .vstr "auto"), reduceOpts false]),
       ("fieldConfig", .vobj [("defaults", .vobj [thresholdsColor]), ("overrides", .varr [])])]


/-- The trailing bindings of the table branch. -/
def tableTail : Obj :=
      [("type", .vstr "table"),
       ("options", .vobj [("showHeader", .vbool true), ("sortBy", .varr [])]),
       ("fieldConfig", .vobj [("defaults", .vobj []), ("overrides", .varr [])])]


/-- The trailing bindings of the pie branch. -/
def pieTail : Obj :=
      [("type", .vstr "piechart"),
       ("options", .vobj [("legend", .vobj [("displayMode", .vstr "list"),
          ("placement", .vstr "right")]), ("pieType", .vstr "pie"), reduceOpts true]),
       fcPalette]


/-- The trailing bindings of the gauge branch. -/
def gaugeTail : Obj :=
      [("type", .vstr "gauge"),
       ("options", .vobj [reduceOpts false, ("showThresholdLabels", .vbool false),
         ("showThresholdMarkers", .vbool true)]),
       ("fieldConfig", .vobj [("defaults", .vobj [thresholdsColor, gyrSteps]),
         ("overrides", .varr [])])]


/-- The trailing bindings of the heatmap branch. -/
def heatmapTail : Obj :=
      [("type", .vstr "heatmap"),
       ("options", .vobj [("calculate", .vbool false), ("cellGap", .vint 1),
         ("color", .vobj [("mode", .vstr "scheme"), ("scheme", .vstr "Oranges"),
           ("steps", .vint 64)]),
         ("legend", .vobj [("show", .vbool true)]),
         ("tooltip", .vobj [("show", .vbool true), ("yHistogram", .vbool false)]),
         ("yAxis", .vobj [("unit", .vstr "short")])]),
       ("fieldConfig", .vobj [("defaults", .vobj [("custom", .vobj [("hideFrom",
          .vobj [("legend", .vbool false), ("tooltip", .vbool false),
            ("viz", .vbool false)])])]),
         ("overrides", .varr [])])]


/-- The trailing bindings of the histogram branch. -/
def histogramTail : Obj :=
      [("type", .vstr "histogram"),
       ("options", .vobj [("bucketCount", .vint 30), ("bucketSize", .vnull),
         ("combine", .vbool false), legendBottom, tooltipSingle]),
       ("fieldConfig", .vobj [("defaults", .vobj [paletteColor,
          ("custom", .vobj [("fillOpacity", .vint 80), ("lineWidth", .vint 1)])]),
         ("overrides", .varr [])])]


/-- The trailing bindings of the state_timeline branch. -/
def stateTimelineTail : Obj :=
      [("type", .vstr "state-timeline"),
       ("options", .vobj [("alignValue", .vstr "left"), legendBottom,
         ("mergeValues", .vbool true), ("rowHeight", .vfloat "0.9"),
         ("showValue", .vstr "auto"), tooltipSingle]),
       ("fieldConfig", .vobj [("defaults", .vobj [paletteColor,
          ("custom", .vobj [("fillOpacity", .vint 70), ("lineWidth", .vint 0)])]),
         ("overrides", .varr [])])]


/-- The trailing bindings of the status_history branch. -/
def statusHistoryTail : Obj :=
      [("type", .vstr "status-history"),
       ("options", .vobj [("colWidth", .vfloat "0.9"), legendBottom,
         ("rowHeight", .vfloat "0.9"), ("showValue", .vstr "auto"), tooltipSingle]),
       ("fieldConfig", .vobj [("defaults", .vobj [thresholdsColor,
          ("custom", .vobj [("fillOpacity", .vint 70)]),
          ("thresholds", .vobj [("mode", .vstr "absolute"),
            ("steps", .varr [.vobj [("color", .vstr "green"), ("value", .vnull)],
              .vobj [("color", .vstr "red"), ("value", .vint 1)]])])]),
         ("overrides", .varr [])])]


/-- The trailing bindings of the candlestick branch. -/
def candlestickTail : Obj :=
      [("type", .vstr "candlestick"),
       ("options", .vobj [("colors", .vobj [("down", .vstr "red"),
          ("flat", .vstr "gray"), ("up", .vstr "green")]),
         ("includeAllFields", .vbool false), legendBottom]),
       ("fieldConfig", .vobj [("defaults", .vobj [paletteColor,
          ("custom", .vobj [("axisCenteredZero", .vbool false),
            ("axisPlacement", .vstr "auto")])]),
         ("overrides", .varr [])])]


/-- The trailing bindings of the trend branch. -/
def trendTail : Obj :=
      [("type", .vstr "trend"),
       ("options", .vobj [legendBottom, tooltipSingle]),
       ("fieldConfig", .vobj [("defaults", .vobj [paletteColor,
          ("custom", .vobj [("lineWidth", .vint 2), ("fillOpacity", .vint 10),
            ("pointSize", .vint 5)])]),
         ("overrides", .varr [])])]


/-- The trailing bindings of the xy branch. -/
def xyTail : Obj :=
      [("type", .vstr "xychart"),
       ("options", .vobj [("dims", .vobj [("x", .vnull), ("y", .vnull)]), legendBottom,
         ("series", .varr [.vobj [("pointSize", .vobj [("fixed", .vint 5)]),
           ("showPoints", .vstr "always")]]),
         tooltipSingle]),
       fcPalette]


/-- The trailing bindings of the bar_gauge branch. -/
def barGaugeTail : Obj :=
      [("type", .vstr "bargauge"),
       ("options", .vobj [("displayMode", .vstr "gradient"),
         ("minVizHeight", .vint 10), ("minVizWidth", .vint 0),
         ("orientation", .vstr "horizontal"), reduceOpts false,
         ("showUnfilled", .vbool true)]),
       ("fieldConfig", .vobj [("defaults", .vobj [thresholdsColor, gyrSteps]),
         ("overrides", .varr [])])]


/-- The trailing bindings of the default table fallback. -/
def fallbackTail : Obj :=
      [("type", .vstr "table"),
       ("options", .vobj [("showHeader", .vbool true)])]

/-- The branch table of generate_panel keyed by the declared type string
(Python compares the type value against each name; a non-string value never
compares equal and falls to the table default).  Every branch is the base
panel followed by its trailing bindings; the bar branch places its rewritten
query into the base panel's targets. -/
def generate_panel_branch (ds : String) (panel_spec : Obj) (sql : String) (grid_pos : Obj) (s : String) : Obj :=
  basePanelRest panel_spec grid_pos ds
    (if s = "bar" then (barFinalSql panel_spec sql).2 else sql) ++
  (if s = "bar" then barTail panel_spec sql
   else if s = "line" then lineTail
   else if s = "stat" then statTail
   else if s = "table" then tableTail
   else if s = "pie" then pieTail
   else if s = "gauge" then gaugeTail
   else if s = "heatmap" then heatmapTail
   else if s = "histogram" then histogramTail
   else if s = "state_timeline" then stateTimelineTail
   else if s = "status_history" then statusHistoryTail
   else if s = "candlestick" then candlestickTail
   else if s = "trend" then trendTail
   else if s = "xy" then xyTail
   else if s = "bar_gauge" then barGaugeTail
   else fallbackTail)

/-- Every binding of DashboardGenerator.generate_panel after the leading id. -/
def generate_panel_rest (ds : String) (panel_spec : Obj) (sql : String) (grid_pos : Obj) : Obj :=
  match (lookupVal panel_spec "type").getD (.vstr "bar") with
  | .vstr s => generate_panel_branch ds panel_spec sql grid_pos s
  | _ => basePanelRest panel_spec grid_pos ds sql ++ fallbackTail


/-- Model of DashboardGenerator.generate_panel.  The panel id (Python draws
it from uuid4 inside the call) is the pid parameter; ds is the generator's
datasource name. -/
def generate_panel (ds : String) (pid : Int) (panel_spec : Obj) (sql : String) (grid_pos : Obj) : Obj :=
  ("id", .vint pid) :: generate_panel_rest ds panel_spec sql grid_pos

/-- The fourteen type names with dedicated generator branches. -/
def generatorTypes : List String :=
  ["bar", "line", "stat", "table", "pie", "gauge", "heatmap", "histogram",
   "state_timeline", "status_history", "candlestick", "trend", "xy", "bar_gauge"]



/-- A grid-position dictionary in the source's key order. -/
def gridObj (x y w h : Int) : Obj :=
  [("x", .vint x), ("y", .vint y), ("w", .vint w), ("h", .vint h)]

/-- The visualization of a multi-panel spec entry: its viz member if that is
a dictionary, else the entry itself (a non-dictionary viz value raises in
Python and is outside the modeled domain). -/
def vizOfSpec (spec : Obj) : Obj :=
  match lookupVal spec "viz" with
  | some (.vobj o) => o
  | _ => spec

/-- The sql member of a spec entry, defaulting to empty (a non-string value
raises later in Python and is outside the modeled domain). -/
def sqlOfSpec (spec : Obj) : String :=
  match lookupVal spec "sql" with
  | some (.vstr s) => s
  | _ => ""

/-- The declared panel type value, defaulting to bar. -/
def panelTypeName (viz : Obj) : ToonVal :=
  (lookupVal viz "type").getD (.vstr "bar")

/-- Whether the layout loop gives this panel the full row width. -/
def isFullWidth (t : ToonVal) : Bool :=
  match t with
  | .vstr s => s = "table" || s = "line"
  | _ => false

/-- The panel-building loop of generate_multi_panel_dashboard: i is the
enumeration index and y the running row offset. -/
def multiPanels (ds : String) (pids : Nat → Int) : Nat → Nat → List Obj → List Obj
  | _, _, [] => []
  | i, y, spec :: rest =>
      let viz := vizOfSpec spec
      let sql := sqlOfSpec spec
      if isFullWidth (panelTypeName viz) then
        generate_panel ds (pids i) viz sql (gridObj 0 y 24 8) ::
          multiPanels ds pids (i + 1) (y + 8) rest
      else
        let col := i % 2
        generate_panel ds (pids i) viz sql (gridObj (12 * col) y 12 8) ::
          multiPanels ds pids (i + 1) (if col = 1 then y + 8 else y) rest

/-- Model of generate_multi_panel_dashboard; uid and the panel ids are the
uuid draws, passed explicitly. -/
def generate_multi_panel_dashboard (ds uid : String) (pids : Nat → Int)
    (panels : List Obj) (title : ToonVal) : Obj :=
  [("uid", .vstr uid), ("title", title),
   ("tags", .varr [.vstr "auto-generated", .vstr "analytics", .vstr "overview"]),
   ("timezone", .vstr "browser"), ("schemaVersion", .vint 38), ("version", .vint 1),
   ("refresh", .vstr "30s"),
   ("time", .vobj [("from", .vstr "now-24h"), ("to", .vstr "now")]),
   ("panels", .varr ((multiPanels ds pids 0 0 panels).map .vobj))]

/-- Python slicing to the first fifty items, for the title; only strings and
lists support it. -/
def pyTake50 : ToonVal → ToonVal
  | .vstr s => .vstr (String.mk (s.data.take 50))
  | .varr l => .varr (l.take 50)
  | v => v

/-- The plan's primary sql string (a non-string value raises later in Python
and is outside the modeled domain). -/
def planSql (plan : Obj) : String :=
  match lookupVal plan "sql" with
  | some (.vstr s) => s
  | _ => ""

/-- The plan's viz member, defaulting to an empty dictionary. -/
def planViz (plan : Obj) : ToonVal :=
  (lookupVal plan "viz").getD (.vobj [])

/-- The plan's question, from the q key, else the question key, else the
default title. -/
def planQuestion (plan : Obj) : ToonVal :=
  (lookupVal plan "q").getD ((lookupVal plan "question").getD (.vstr "Analytics Dashboard"))

/-- The computed dashboard title: for a nonempty panel list the clipped
question, for a dictionary viz its title member, else the clipped question
(an empty panel list also falls through to the clipped question). -/
def dashTitleAuto (viz question : ToonVal) : ToonVal :=
  match viz with
  | .varr (_ :: _) => pyTake50 question
  | .vobj o => (lookupVal o "title").getD (pyTake50 question)
  | _ => pyTake50 question

/-- The dashboard title including the optional override. -/
def dashTitleOf (title0 : Option String) (plan : Obj) : ToonVal :=
  match title0 with
  | some t => if t ≠ "" then .vstr t else dashTitleAuto (planViz plan) (planQuestion plan)
  | none => dashTitleAuto (planViz plan) (planQuestion plan)

/-- One panel of a multi-panel plan, with the plan's primary sql filled in
when the panel's own sql member is falsy (a non-dictionary panel raises in
Python and is outside the modeled domain). -/
def enrichPanel (sql : String) (p : ToonVal) : Obj :=
  match p with
  | .vobj o =>
      if pyTruthyOpt (lookupVal o "sql") then o
      else insertOrReplace o "sql" (.vstr sql)
  | _ => []

/-- Model of generate_dashboard.  title0 is the optional title override. -/
def generate_dashboard (ds uid : String) (pids : Nat → Int) (plan : Obj)
    (title0 : Option String) : Obj :=
  match planViz plan with
  | .varr l =>
      generate_multi_panel_dashboard ds uid pids
        (l.map (enrichPanel (planSql plan))) (dashTitleOf title0 plan)
  | _ =>
      [("uid", .vstr uid), ("title", dashTitleOf title0 plan),
       ("tags", .varr [.vstr "auto-generated", .vstr "analytics"]),
       ("timezone", .vstr "browser"), ("schemaVersion", .vint 38), ("version", .vint 1),
       ("refresh", .vstr "5s"),
       ("time", .vobj [("from", .vstr "now-1h"), ("to", .vstr "now")]),
       ("panels", .varr
         (if pyTruthy (planViz plan) && planSql plan ≠ "" then
            match planViz plan with
            | .vobj o => [.vobj (generate_panel ds (pids 0) o (planSql plan) (gridObj 0 0 24 12))]
            | _ => []
          else []))]

/-- The grid position member of a generated panel. -/
def gridPosOf (panel : Obj) : Option ToonVal := lookupVal panel "gridPos"

/-- The type member of a generated panel. -/
def panelTypeField (panel : Obj) : Option ToonVal := lookupVal panel "type"

/-- The options member of a generated panel. -/
def panelOptionsField (panel : Obj) : Option ToonVal := lookupVal panel "options"

/-- The half-width grid slot that the layout loop computes for overall index
j when every panel is half width. -/
def halfGridAt (j : Nat) : Obj :=
  gridObj (12 * (j % 2 : Nat)) (8 * (j / 2 : Nat)) 12 8

/-- The full-width grid slot for overall index j when every panel is full
width. -/
def fullGridAt (j : Nat) : Obj := gridObj 0 (8 * j) 24 8

/-- Open-interval overlap of two grid rectangles. -/
def rectsOverlapB (x1 y1 w1 h1 x2 y2 w2 h2 : Int) : Prop :=
  x1 < x2 + w2 ∧ x2 < x1 + w1 ∧ y1 < y2 + h2 ∧ y2 < y1 + h1

/-- Replace the uid value and every panel id value by null: the residue of a
dashboard under erasure of its uuid-derived fields. -/
def scrubPanelIds (v : ToonVal) : ToonVal :=
  match v with
  | .varr panels => .varr (panels.map (fun p =>
      match p with
      | .vobj fields => .vobj (fields.map (fun kv =>
          if kv.1 = "id" then ("id", ToonVal.vnull) else kv))
      | other => other))
  | other => other

def scrubDashboard (d : Obj) : Obj :=
  d.map (fun kv =>
    if kv.1 = "uid" then ("uid", ToonVal.vnull)
    else if kv.1 = "panels" then ("panels", scrubPanelIds kv.2)
    else kv)



/-! ## The value class on which the round-trip law holds

The counterexamples below show that the round trip fails for strings that
re-coerce when emitted unquoted (such as the token none or a numeric-looking
string), for strings whose unquoted emission is cut short (tab, carriage
return or comma characters, or a leading single quote), and for a type tag
that is not the last key.  The safe class excludes exactly those, together
with explicit nulls (whose members the serializer drops) and floats (whose
printing is not modeled). -/

/-- A string whose unquoted emission re-parses to itself wherever it can
occur: no whitespace, comma or single-quote characters (a single quote
starts a quoted span for the parser and for the delimiter scanners), and no
coercion to a boolean, null, integer or float. -/
def safeUnquoted (s : String) : Bool :=
  s.data.all (fun c => !(isReWS c || c = ',' || c = squoteC)) &&
  !s.data.isEmpty &&
  s ≠ "none" && (pyStrToInt s.data).isNone && !pyFloatAccepts s.data

/-- A safe string value: quoted emission is always faithful, unquoted
emission needs safeUnquoted. -/
def isSafeStr (s : String) : Bool :=
  quoteTriggered s || safeUnquoted s

/-- A nonempty all-word-character string, the shape of parser-produced keys
and type tags. -/
def isWordStr (s : String) : Bool :=
  !s.data.isEmpty && s.data.all isWordChar

/-- Whether an object already binds the key. -/
def hasKeyB : List (String × ToonVal) → String → Bool
  | [], _ => false
  | (k', _) :: rest, k => k' = k || hasKeyB rest k

mutual

/-- Safe values: no nulls, no floats, safe strings, and objects with
word-shaped distinct keys whose type tag, if any, is the last binding. -/
def isSafeVal : ToonVal → Bool
  | .vnull => false
  | .vbool _ => true
  | .vint _ => true
  | .vfloat _ => false
  | .vstr s => isSafeStr s
  | .varr items => isSafeItems items
  | .vobj fields => isSafeObj fields

def isSafeItems : List ToonVal → Bool
  | [] => true
  | v :: rest => isSafeVal v && isSafeItems rest

def isSafeObj : List (String × ToonVal) → Bool
  | [] => true
  | (k, v) :: rest =>
      if k = "_type" then
        (match v with
         | .vstr t => isWordStr t
         | _ => false) && rest.isEmpty
      else
        isWordStr k && isSafeVal v && !hasKeyB rest k && isSafeObj rest

end

/-- Safe top-level documents: a safe object that, when tagged, has at least
one other member (the compact serialization of an empty tagged object does
not re-parse as an object). -/
def isSafeTop (fields : Obj) : Bool :=
  isSafeObj fields &&
  (!hasKeyB fields "_type" || !(removeKey fields "_type").isEmpty)

/-! ## Bodies interleaving members with garbage, for the leniency law -/

/-- A garbage character: anything that cannot start a key.  Such characters
are skipped one at a time by the member-scanning loop. -/
def isGarbageChar (c : Char) : Bool := !isWordChar c

def isGarbageStr (g : String) : Bool := g.data.all isGarbageChar

/-- One member rendered as the compact serializer would. -/
def renderPair (p : String × ToonVal) : List Char :=
  p.1.data ++ ':' :: serializeValue p.2 0 true

/-- A body text carrying the members in order, with one garbage segment
before each member and one after the last, all blank-separated. -/
def interleaveBody : List String → List (String × ToonVal) → List Char
  | [g], [] => g.data
  | g :: gs, p :: ps => g.data ++ ' ' :: (renderPair p ++ ' ' :: interleaveBody gs ps)
  | _, _ => []




/-- A body text carrying the members in order with one garbage segment
between consecutive members, all blank-separated: pair, garbage, pair,
garbage, ..., pair. -/
def betweenBody : List (String × ToonVal) → List String → List Char
  | [], _ => []
  | [p], _ => renderPair p
  | p :: ps, g :: gs => renderPair p ++ ' ' :: (g.data ++ ' ' :: betweenBody ps gs)
  | p :: _, [] => renderPair p

/-- The member separator the serializer puts between object members. -/
def objSepL (cm : Bool) : List Char := if cm then [' '] else ['\n']

/-- The text between the braces of a serialized object. -/
def objBodyL (core : Obj) (ind : Nat) (cm : Bool) : List Char :=
  intercalateL (objSepL cm) (serializeObjParts core ind cm)

/-- The text between the brackets of a serialized nonempty array. -/
def arrBodyL (items : List ToonVal) (ind : Nat) (cm : Bool) : List Char :=
  if cm then intercalateL [','] (serializeArrItems items ind)
  else intercalateL [',', '\n'] (serializeArrItemsIndented items ind)



/-- The boundary condition under which an unquoted scalar token stops exactly
at the end of the serialized value: the following text must not start with a
token character, and its first non-whitespace character must not be an
opening brace (which could extend an at-word token into a tagged object). -/
def BoundaryRest (rest : List Char) : Prop :=
  (∀ c, rest.head? = some c → isTokenChar c = false) ∧
  (∀ c, (rest.dropWhile isReWS).head? = some c → c ≠ '\x7b')


/-! # Lemmas and claim theorems -/

theorem firstForbidden_eq_none_iff (l : List String) (up : List Char) :
    firstForbidden l up = none ↔ ∀ kw ∈ l, wordBoundaryOccurs kw.data up = false := by
  induction l with
  | nil => simp [firstForbidden]
  | cons kw rest ih =>
      by_cases h : wordBoundaryOccurs kw.data up = true
      · simp [firstForbidden, h]
      · simp only [Bool.not_eq_true] at h
        simp [firstForbidden, h, ih]

/-- C1, counterexample.  The claim says the read-only check strips quoted
spans first and therefore accepts a SELECT whose only write keyword lies
inside a string literal; the code does not strip, and rejects the query
SELECT 'update' FROM t naming UPDATE, while the claimed stripped check
accepts it. -/
theorem c1_counterexample :
    claimReadonlyRejects ("SELECT " ++ squote ++ "update" ++ squote ++ " FROM t") = false ∧
    validate_sql_readonly ("SELECT " ++ squote ++ "update" ++ squote ++ " FROM t") =
      .error (.forbiddenKeyword "UPDATE") :=
  ⟨rfl, rfl⟩

/-- C1, amended.  validate_sql_readonly rejects exactly the SQL texts whose
upper-cased form contains one of the nine write keywords at a word boundary,
with no stripping of quoted literal spans; in particular it rejects DROP
TABLE x in any casing and accepts a pure SELECT query with no such keyword
anywhere, including inside string literals. -/
theorem c1_amended :
    (∀ sql : String, validate_sql_readonly sql = .ok () ↔
      ∀ kw ∈ writeKeywords, wordBoundaryOccurs kw.data (pyUpper sql.data) = false) ∧
    validate_sql_readonly "DROP TABLE x" = .error (.forbiddenKeyword "DROP") ∧
    validate_sql_readonly "drop table x" = .error (.forbiddenKeyword "DROP") ∧
    validate_sql_readonly "Drop Table x" = .error (.forbiddenKeyword "DROP") ∧
    validate_sql_readonly "SELECT origin FROM shipments" = .ok () := by
  refine ⟨fun sql => ?_, rfl, rfl, rfl, rfl⟩
  rw [← firstForbidden_eq_none_iff]
  unfold validate_sql_readonly
  cases h : firstForbidden writeKeywords (pyUpper sql.data) <;> simp [h]

/-- C1, witness for the amended theorem at a concrete query. -/
theorem c1_amended_witness : validate_sql_readonly "SELECT 1" = .ok () :=
  (c1_amended.1 "SELECT 1").mpr (by decide)

/-- C3, counterexample.  heatmap is one of the fourteen enum values the claim
says must pass the panel-type check, and it has a dedicated generator
branch, but validate_visualization rejects it. -/
theorem c3_counterexample :
    validate_visualization [("type", .vstr "heatmap"), ("x", .vstr "day")]
      "SELECT day, hour, count FROM activity_matrix" =
      .error (.invalidVizType "heatmap") := rfl

/-- C3, amended.  The validator's accepted set is the six types bar, line,
stat, table, pie, gauge (after lower-casing); a panel whose declared string
type is non-empty and outside that set fails the panel-type check with an
error naming the lower-cased type, and no other panel fails that check. -/
theorem c3_amended :
    ∀ (viz : Obj) (sql t : String), lookupVal viz "type" = some (.vstr t) →
      (validate_visualization viz sql = .error (.invalidVizType (pyLowerS t)) ↔
        (¬ pyLowerS t ∈ valid_types ∧ pyLowerS t ≠ "")) := by
  intro viz sql t h
  have ht : vizTypeOf viz = pyLowerS t := by simp [vizTypeOf, h]
  unfold validate_visualization
  rw [ht]
  by_cases h2 : pyLowerS t ∈ valid_types <;> by_cases h1 : pyLowerS t = "" <;>
    simp [h1, h2] <;> (try split) <;> simp_all

/-- C3, witness for the amended theorem: the type xy (a generator-supported
enum value) is rejected naming it. -/
theorem c3_amended_witness :
    validate_visualization [("type", .vstr "xy")] "SELECT weight, cost FROM shipments" =
      .error (.invalidVizType "xy") :=
  (c3_amended [("type", .vstr "xy")] "SELECT weight, cost FROM shipments" "xy" rfl).mpr
    (by decide)

/-- C4, counterexample.  When the time-like column does not occur in the
select list, the first rewrite pattern still matches an occurrence after a
comma elsewhere in the query, here inside GROUP BY, and wraps it: the
occurrence outside the select list is not left unchanged. -/
theorem c4_counterexample :
    normalize_time_columns "SELECT a FROM t GROUP BY b, ship_date LIMIT 5" (some "ship_date") =
      "SELECT a FROM t GROUP BY b, strftime(ship_date, " ++ squote ++ "%Y-%m-%d" ++ squote ++
        ") AS ship_date LIMIT 5" := rfl

/-- C4, amended.  On the specification's literal example the rewrite wraps
exactly the first select-list occurrence in a strftime call and leaves the
GROUP BY occurrence unchanged, both for normalize_time_columns itself and
for the query emitted into the generated bar panel's targets; but the match
is purely textual (select prefix, optional comma-terminated span, column,
comma or whitespace) and can wrap an occurrence outside the select list when
the column is absent from it. -/
theorem c4_amended :
    normalize_time_columns "SELECT ship_date, COUNT(*) FROM shipments GROUP BY ship_date"
        (some "ship_date") =
      "SELECT strftime(ship_date, " ++ squote ++ "%Y-%m-%d" ++ squote ++
        ") AS ship_date, COUNT(*) FROM shipments GROUP BY ship_date" ∧
    lookupVal (generate_panel "DuckDB" 1 [("type", .vstr "bar"), ("x", .vstr "ship_date")]
        "SELECT ship_date, COUNT(*) FROM shipments GROUP BY ship_date" (gridObj 0 0 12 8))
        "targets" =
      some (mkTargets ("SELECT strftime(ship_date, " ++ squote ++ "%Y-%m-%d" ++ squote ++
        ") AS ship_date, COUNT(*) FROM shipments GROUP BY ship_date")) :=
  ⟨rfl, rfl⟩

theorem lookupVal_removeKey_self (d : Obj) (k : String) :
    lookupVal (removeKey d k) k = none := by
  induction d with
  | nil => simp [removeKey, lookupVal]
  | cons kv rest ih =>
      by_cases h : kv.1 = k
      · simpa [removeKey, h] using ih
      · simp [removeKey, h, lookupVal, ih]

theorem lookupVal_removeKey_ne (d : Obj) (k k' : String) (h : k' ≠ k) :
    lookupVal (removeKey d k) k' = lookupVal d k' := by
  induction d with
  | nil => simp [removeKey]
  | cons kv rest ih =>
      have h2 : k ≠ k' := Ne.symm h
      by_cases hk : kv.1 = k
      · simp [removeKey, hk, lookupVal, h2, ih]
      · by_cases hk' : kv.1 = k'
        · simp [removeKey, hk, lookupVal, hk', h, h2]
        · simp [removeKey, hk, lookupVal, hk', ih]

theorem serialize_post_eq (d : Obj) (indent : Nat) (compact : Bool) (tag : ToonVal)
    (h : lookupVal d "_type" = some tag) :
    (serialize_toon_call d indent compact).2 = removeKey d "_type" := by
  unfold serialize_toon_call
  rw [h]
  by_cases ht : pyTruthy tag = true <;> simp [ht] <;> split <;> rfl

/-- C10.  serialize_toon pops the top-level _type binding out of the caller's
dictionary: after the call the key is gone, every other binding (hence every
nested dictionary with its own _type) is untouched, and serializing the
mutated dictionary again yields the untagged brace form instead of the
tagged form. -/
theorem c10_serialize_mutates :
    ∀ (d : Obj) (tag : ToonVal) (indent : Nat) (compact : Bool),
      lookupVal d "_type" = some tag →
      lookupVal (serialize_toon_call d indent compact).2 "_type" = none ∧
      (∀ k, k ≠ "_type" →
        lookupVal (serialize_toon_call d indent compact).2 k = lookupVal d k) ∧
      (serialize_toon_call (serialize_toon_call d indent compact).2 indent compact).1.head? =
        some '\x7b' := by
  intro d tag indent compact h
  have hpost := serialize_post_eq d indent compact tag h
  refine ⟨?_, ?_, ?_⟩
  · rw [hpost]; exact lookupVal_removeKey_self d "_type"
  · intro k hk; rw [hpost]; exact lookupVal_removeKey_ne d "_type" k hk
  · rw [hpost]
    unfold serialize_toon_call
    rw [lookupVal_removeKey_self d "_type"]
    cases compact <;> rfl

/-- C10, witness at a concrete tagged document. -/
theorem c10_witness :
    lookupVal (serialize_toon_call [("a", .vint 1), ("_type", .vstr "plan")] 0 true).2 "_type" =
      none :=
  (c10_serialize_mutates [("a", .vint 1), ("_type", .vstr "plan")] (.vstr "plan") 0 true rfl).1



theorem head_dropWhile_not (p : Char → Bool) (l : List Char) :
    ∀ c, (l.dropWhile p).head? = some c → p c = false := by
  induction l with
  | nil => simp
  | cons a rest ih =>
      intro c h
      by_cases ha : p a
      · rw [List.dropWhile_cons_of_pos ha] at h
        exact ih c h
      · rw [List.dropWhile_cons_of_neg ha] at h
        simp only [List.head?_cons, Option.some.injEq] at h
        subst h
        simpa using ha

theorem getLast_pyStrip_not_ws (cs : List Char) :
    ∀ c, (pyStrip cs).getLast? = some c → isStripWS c = false := by
  intro c h
  unfold pyStrip at h
  rw [List.getLast?_reverse] at h
  exact head_dropWhile_not _ _ c h

theorem getLast?_suffix {α : Type} {s l : List α} (h : s <:+ l) (hs : s ≠ []) :
    s.getLast? = l.getLast? := by
  obtain ⟨t, rfl⟩ := h
  rw [List.getLast?_append_of_ne_nil t hs]

theorem tryTagged_eq_none (cs : List Char)
    (hl : cs.getLast? ≠ some '\x7d')
    (hw : ∀ c, cs.getLast? = some c → isReWS c = false) :
    tryTagged cs = none := by
  unfold tryTagged
  split
  case h_2 => rfl
  case h_1 c rest =>
    by_cases hwe : rest.takeWhile isWordChar = []
    · simp [hwe]
    · simp only [hwe, if_false, Bool.false_eq_true, reduceIte]
      split
      next body0 heq =>
        have hsuff : '\x7b' :: body0 <:+ '@' :: rest := by
          rw [← heq]
          exact (List.dropWhile_suffix isReWS).trans
            ((List.drop_suffix _ rest).trans (List.suffix_cons '@' rest))
        have hlast : ('\x7b' :: body0).getLast? = ('@' :: rest).getLast? :=
          getLast?_suffix hsuff (by simp)
        split
        next revContent heq2 =>
          exfalso
          cases hb : body0 with
          | nil =>
              rw [hb] at heq2
              simp only [List.reverse_nil, List.dropWhile_nil] at heq2
              exact (List.cons_ne_nil _ _) heq2.symm
          | cons b bs =>
              obtain ⟨c0, hc0⟩ : ∃ c0, (b :: bs).getLast? = some c0 := by
                cases h' : (b :: bs).getLast? with
                | none => rw [List.getLast?_eq_none_iff] at h'; exact absurd h' (by simp)
                | some x => exact ⟨x, rfl⟩
              have hcs : ('@' :: rest).getLast? = some c0 := by
                rw [← hlast, hb, List.getLast?_cons_cons, hc0]
              have hnws : isReWS c0 = false := hw c0 hcs
              have hne : c0 ≠ '\x7d' := fun e => hl (e ▸ hcs)
              have hrev : (b :: bs).reverse.head? = some c0 := by
                rw [List.head?_reverse]; exact hc0
              rw [hb] at heq2
              cases hr : (b :: bs).reverse with
              | nil => rw [hr] at hrev; simp at hrev
              | cons r rs =>
                  rw [hr] at hrev
                  simp only [List.head?_cons, Option.some.injEq] at hrev
                  rw [hr, List.dropWhile_cons_of_neg (by simp [hrev, hnws])] at heq2
                  have : r = '\x7d' := List.head_eq_of_cons_eq heq2
                  rw [hrev] at this
                  exact hne this
        next => rfl
      next => rfl


/-- C5, counterexample.  The input has a brace opened at position 0 that is
never terminated, yet parse_toon silently returns a scalar tree instead of
raising: the whole text is coerced to a string under the key value. -/
theorem c5_counterexample :
    parse_toon "\x7ba:1" = .ok [("value", .vstr "\x7ba:1")] := rfl

/-- C5, amended.  Unterminated delimiters raise only when they are nested
inside a brace-closed wrapper: whenever the stripped input does not even end
with a closing brace (in particular when the outermost brace, bracket or
quote is the unterminated one), parse_toon never raises and returns the
scalar fallback tree; an unterminated quote, bracket or brace at a value
position inside a brace-closed object body does raise. -/
theorem c5_amended :
    (∀ t : String, (pyStrip t.data).getLast? ≠ some '\x7d' →
      parse_toon t = .ok [("value", pyParseScalar (pyStrip t.data))]) ∧
    (parse_toon "\x7ba:\"x\x7d").isOk = false ∧
    (parse_toon "\x7ba:[1\x7d").isOk = false ∧
    (parse_toon "\x7ba:\x7bb:1\x7d").isOk = false := by
  refine ⟨fun t h => ?_, rfl, rfl, rfl⟩
  unfold parse_toon
  show (match tryTagged (pyStrip t.data) with
    | some (w, content) => do
        let obj ← parseObjectContent ((pyStrip t.data).length + 8) content
        Except.ok (insertOrReplace obj "_type" (ToonVal.vstr w))
    | none =>
        if ((pyStrip t.data).head? = some '\x7b' &&
            (pyStrip t.data).getLast? = some '\x7d' &&
            (pyStrip t.data).length ≥ 2 : Bool) = true then
          parseObjectContent ((pyStrip t.data).length + 8)
            ((pyStrip t.data).drop 1).dropLast
        else Except.ok [("value", pyParseScalar (pyStrip t.data))]) = _
  rw [tryTagged_eq_none (pyStrip t.data) h
    (fun c hc => getLast_pyStrip_not_ws t.data c hc)]
  simp [h]

/-- C5, witness for the amended theorem: a plain scalar document parses to
the scalar tree without raising. -/
theorem c5_amended_witness :
    parse_toon "hello" = .ok [("value", .vstr "hello")] :=
  c5_amended.1 "hello" (by decide)




theorem lookupVal_append_right (l1 l2 : Obj) (k : String)
    (h : hasKeyB l1 k = false) : lookupVal (l1 ++ l2) k = lookupVal l2 k := by
  induction l1 with
  | nil => simp
  | cons kv rest ih =>
      simp only [hasKeyB, Bool.or_eq_false_iff, decide_eq_false_iff_not] at h
      simp [lookupVal, h.1, ih h.2]


/-- C6, counterexample.  A panel spec with no type field renders as a bar
chart (the source default is bar), not as the plain table the claim
specifies for unspecified types. -/
theorem c6_counterexample :
    panelTypeField (generate_panel "DuckDB" 1 [("title", .vstr "P")]
      "SELECT a FROM t" (gridObj 0 0 24 12)) = some (.vstr "barchart") := rfl

/-- C6, amended.  An absent type defaults to bar and renders as a bar chart;
only a present type outside the fourteen generator branch names falls back
to the plain table panel with headers shown. -/
theorem c6_amended :
    (∀ (ds : String) (pid : Int) (spec : Obj) (sql : String) (gp : Obj),
      lookupVal spec "type" = none →
      panelTypeField (generate_panel ds pid spec sql gp) = some (.vstr "barchart")) ∧
    (∀ (ds : String) (pid : Int) (spec : Obj) (sql : String) (gp : Obj) (t : String),
      lookupVal spec "type" = some (.vstr t) → ¬ t ∈ generatorTypes →
      panelTypeField (generate_panel ds pid spec sql gp) = some (.vstr "table") ∧
      panelOptionsField (generate_panel ds pid spec sql gp) =
        some (.vobj [("showHeader", .vbool true)])) := by
  constructor
  · intro ds pid spec sql gp h
    have hstep : panelTypeField (generate_panel ds pid spec sql gp) =
        lookupVal (generate_panel_rest ds spec sql gp) "type" := rfl
    rw [hstep]
    unfold generate_panel_rest
    rw [h]
    simp only [Option.getD_none]
    unfold generate_panel_branch
    have hb : ∀ (q : String) (tl : Obj),
        lookupVal (basePanelRest spec gp ds q ++ tl) "type" = lookupVal tl "type" :=
      fun q tl => lookupVal_append_right _ _ _ (by rfl)
    simp [hb, barTail, lookupVal]
  · intro ds pid spec sql gp t h ht
    simp only [generatorTypes, List.mem_cons, List.not_mem_nil, or_false,
      not_or] at ht
    obtain ⟨h1, h2, h3, h4, h5, h6, h7, h8, h9, h10, h11, h12, h13, h14⟩ := ht
    have hstep1 : panelTypeField (generate_panel ds pid spec sql gp) =
        lookupVal (generate_panel_rest ds spec sql gp) "type" := rfl
    have hstep2 : panelOptionsField (generate_panel ds pid spec sql gp) =
        lookupVal (generate_panel_rest ds spec sql gp) "options" := rfl
    rw [hstep1, hstep2]
    unfold generate_panel_rest
    rw [h]
    simp only [Option.getD_some]
    unfold generate_panel_branch
    simp only [if_neg h1, if_neg h2, if_neg h3, if_neg h4, if_neg h5, if_neg h6,
      if_neg h7, if_neg h8, if_neg h9, if_neg h10, if_neg h11, if_neg h12,
      if_neg h13, if_neg h14]
    have hbT : lookupVal (basePanelRest spec gp ds sql ++ fallbackTail) "type" =
        lookupVal fallbackTail "type" := lookupVal_append_right _ _ _ (by rfl)
    have hbO : lookupVal (basePanelRest spec gp ds sql ++ fallbackTail) "options" =
        lookupVal fallbackTail "options" := lookupVal_append_right _ _ _ (by rfl)
    rw [hbT, hbO]
    exact ⟨rfl, rfl⟩

/-- C6, witness for the amended theorem at a concrete typeless spec. -/
theorem c6_amended_witness :
    panelTypeField (generate_panel "DuckDB" 2 [("title", .vstr "W")]
      "SELECT b FROM u" (gridObj 0 0 12 8)) = some (.vstr "barchart") :=
  c6_amended.1 "DuckDB" 2 [("title", .vstr "W")] "SELECT b FROM u" (gridObj 0 0 12 8) rfl

/-- C9, counterexample.  Two calls of generate_panel on identical arguments
but distinct uuid-derived panel ids return different documents, so
generation is not a pure function of the panel spec, query and position
alone. -/
theorem c9_counterexample :
    generate_panel "DuckDB" 1 [("type", .vstr "stat")]
      "SELECT COUNT(*) as total FROM shipments" (gridObj 0 0 6 4) ≠
    generate_panel "DuckDB" 2 [("type", .vstr "stat")]
      "SELECT COUNT(*) as total FROM shipments" (gridObj 0 0 6 4) := by
  intro h
  have h2 := congrArg (fun l => lookupVal l "id") h
  simp [generate_panel, lookupVal] at h2


theorem scrub_multi_eq (ds : String) (p1 p2 : Nat → Int) :
    ∀ (specs : List Obj) (i y : Nat),
      scrubPanelIds (.varr ((multiPanels ds p1 i y specs).map .vobj)) =
        scrubPanelIds (.varr ((multiPanels ds p2 i y specs).map .vobj)) := by
  intro specs
  induction specs with
  | nil => intro i y; rfl
  | cons spec rest ih =>
      intro i y
      by_cases hf : isFullWidth (panelTypeName (vizOfSpec spec)) = true
      · simp only [multiPanels, hf, if_true, List.map_cons, scrubPanelIds,
          generate_panel, reduceIte]
        have := ih (i + 1) (y + 8)
        simp only [scrubPanelIds, ToonVal.varr.injEq] at this ⊢
        simp [this]
      · simp only [Bool.not_eq_true] at hf
        simp only [multiPanels, hf, Bool.false_eq_true, if_false, List.map_cons,
          scrubPanelIds, generate_panel, reduceIte]
        have := ih (i + 1) (if i % 2 = 1 then y + 8 else y)
        simp only [scrubPanelIds, ToonVal.varr.injEq] at this ⊢
        simp [this]

/-- C9, amended.  Generation is deterministic up to the uuid-derived
identifier fields: panels built from the same spec, query and position agree
on everything after the leading id binding, and dashboards built from the
same plan agree once the dashboard uid and every panel id are erased. -/
theorem c9_amended :
    (∀ (ds : String) (pid1 pid2 : Int) (spec : Obj) (sql : String) (gp : Obj),
      (generate_panel ds pid1 spec sql gp).tail = (generate_panel ds pid2 spec sql gp).tail) ∧
    (∀ (ds uid1 uid2 : String) (pids1 pids2 : Nat → Int) (plan : Obj),
      scrubDashboard (generate_dashboard ds uid1 pids1 plan none) =
        scrubDashboard (generate_dashboard ds uid2 pids2 plan none)) := by
  constructor
  · intro ds pid1 pid2 spec sql gp
    rfl
  · intro ds uid1 uid2 p1 p2 plan
    unfold generate_dashboard
    rcases hv : planViz plan with _ | _ | _ | _ | _ | l | o <;>
      simp only []
    case varr =>
      unfold generate_multi_panel_dashboard
      simp only [scrubDashboard, List.map_cons, List.map_nil]
      have := scrub_multi_eq ds p1 p2 (l.map (enrichPanel (planSql plan))) 0 0
      simp [this]
    all_goals
      simp only [scrubDashboard, List.map_cons, List.map_nil]
      try simp
      try (split <;> simp [scrubPanelIds, generate_panel])


theorem lookupVal_append_left (l1 l2 : Obj) (k : String) (v : ToonVal)
    (h : lookupVal l1 k = some v) : lookupVal (l1 ++ l2) k = some v := by
  induction l1 with
  | nil => simp [lookupVal] at h
  | cons kv rest ih =>
      by_cases hk : kv.1 = k
      · simpa [lookupVal, hk] using h
      · rw [lookupVal, if_neg hk] at h
        simpa [lookupVal, hk] using ih h

theorem gridPos_branch (ds : String) (spec : Obj) (sql : String) (gp : Obj) (s : String) :
    lookupVal (generate_panel_branch ds spec sql gp s) "gridPos" = some (.vobj gp) := by
  unfold generate_panel_branch
  exact lookupVal_append_left _ _ _ _ rfl

theorem gridPosOf_generate (ds : String) (pid : Int) (spec : Obj) (sql : String) (gp : Obj) :
    gridPosOf (generate_panel ds pid spec sql gp) = some (.vobj gp) := by
  have hbase : ∀ q : String, lookupVal (basePanelRest spec gp ds q) "gridPos" = some (.vobj gp) :=
    fun q => rfl
  show lookupVal (generate_panel_rest ds spec sql gp) "gridPos" = some (.vobj gp)
  unfold generate_panel_rest
  split
  · exact gridPos_branch ds spec sql gp _
  · exact lookupVal_append_left _ _ _ _ (hbase _)

theorem multi_half_grids (ds : String) (pids : Nat → Int) :
    ∀ (specs : List Obj) (i : Nat),
      (∀ s ∈ specs, isFullWidth (panelTypeName (vizOfSpec s)) = false) →
      (multiPanels ds pids i (8 * (i / 2)) specs).map gridPosOf =
        (List.range specs.length).map (fun j => some (.vobj (halfGridAt (i + j)))) := by
  intro specs
  induction specs with
  | nil => intro i h; simp [multiPanels]
  | cons spec rest ih =>
      intro i h
      have hs := h spec (List.mem_cons_self spec rest)
      have hy : (if i % 2 = 1 then 8 * (i / 2) + 8 else 8 * (i / 2)) = 8 * ((i + 1) / 2) := by
        rcases Nat.mod_two_eq_zero_or_one i with h0 | h1
        · rw [if_neg (by omega)]; omega
        · rw [if_pos h1]; omega
      have hrest : ∀ s ∈ rest, isFullWidth (panelTypeName (vizOfSpec s)) = false :=
        fun s hsr => h s (List.mem_cons_of_mem spec hsr)
      simp only [multiPanels, hs, Bool.false_eq_true, if_false, List.map_cons,
        List.length_cons, gridPosOf_generate, reduceIte]
      rw [List.range_succ_eq_map, List.map_cons, List.map_map, hy, ih (i + 1) hrest]
      congr 1
      all_goals
        try (apply List.map_congr_left; intro j _)
        simp only [Nat.add_zero, Function.comp_apply, Option.some.injEq,
          ToonVal.vobj.injEq, halfGridAt, gridObj, List.cons.injEq, Prod.mk.injEq,
          ToonVal.vint.injEq, and_true, true_and]
        first
        | rfl
        | omega

theorem multi_full_grids (ds : String) (pids : Nat → Int) :
    ∀ (specs : List Obj) (i : Nat),
      (∀ s ∈ specs, isFullWidth (panelTypeName (vizOfSpec s)) = true) →
      (multiPanels ds pids i (8 * i) specs).map gridPosOf =
        (List.range specs.length).map (fun j => some (.vobj (fullGridAt (i + j)))) := by
  intro specs
  induction specs with
  | nil => intro i h; simp [multiPanels]
  | cons spec rest ih =>
      intro i h
      have hs := h spec (List.mem_cons_self spec rest)
      have hrest : ∀ s ∈ rest, isFullWidth (panelTypeName (vizOfSpec s)) = true :=
        fun s hsr => h s (List.mem_cons_of_mem spec hsr)
      simp only [multiPanels, hs, List.map_cons, List.length_cons,
        gridPosOf_generate, reduceIte]
      have h8 : 8 * i + 8 = 8 * (i + 1) := by omega
      rw [List.range_succ_eq_map, List.map_cons, List.map_map, h8, ih (i + 1) hrest]
      congr 1
      all_goals
        try (apply List.map_congr_left; intro j _)
        simp only [Nat.add_zero, Function.comp_apply, Option.some.injEq,
          ToonVal.vobj.injEq, fullGridAt, gridObj, List.cons.injEq, Prod.mk.injEq,
          ToonVal.vint.injEq, and_true, true_and]
        first
        | rfl
        | omega

/-- C7, counterexample.  A half-width panel followed by a full-width panel:
the half panel at even index 0 does not advance the row offset, so the table
panel is placed at the same row origin and the two rectangles overlap,
refuting the no-overlap part of the claim (the placement is also by global
index parity, not by position within the row). -/
theorem c7_counterexample :
    (multiPanels "DuckDB" (fun i => Int.ofNat i) 0 0
      [[("type", .vstr "bar"), ("x", .vstr "a"), ("sql", .vstr "SELECT a FROM t")],
       [("type", .vstr "table")]]).map gridPosOf =
      [some (.vobj (gridObj 0 0 12 8)), some (.vobj (gridObj 0 0 24 8))] ∧
    rectsOverlapB 0 0 12 8 0 0 24 8 := by
  refine ⟨rfl, ?_⟩
  simp [rectsOverlapB]

/-- C7, amended.  Half-width panels are placed by the parity of their global
enumeration index (left for even, right for odd), the row offset advancing
after each odd index; when no panel is full width the grid positions are
exactly the half-grid family, which is pairwise non-overlapping, and when
every panel is full width they are the stacked full-width family, also
pairwise non-overlapping.  Mixing the two kinds can overlap, as the
counterexample shows. -/
theorem c7_amended :
    (∀ (ds : String) (pids : Nat → Int) (specs : List Obj),
      (∀ s ∈ specs, isFullWidth (panelTypeName (vizOfSpec s)) = false) →
      (multiPanels ds pids 0 0 specs).map gridPosOf =
        (List.range specs.length).map (fun j => some (.vobj (halfGridAt j)))) ∧
    (∀ (ds : String) (pids : Nat → Int) (specs : List Obj),
      (∀ s ∈ specs, isFullWidth (panelTypeName (vizOfSpec s)) = true) →
      (multiPanels ds pids 0 0 specs).map gridPosOf =
        (List.range specs.length).map (fun j => some (.vobj (fullGridAt j)))) ∧
    (∀ j k : Nat, j ≠ k →
      ¬ rectsOverlapB (12 * (j % 2 : Nat)) (8 * (j / 2 : Nat)) 12 8
        (12 * (k % 2 : Nat)) (8 * (k / 2 : Nat)) 12 8) ∧
    (∀ j k : Nat, j ≠ k →
      ¬ rectsOverlapB 0 (8 * j : Nat) 24 8 0 (8 * k : Nat) 24 8) := by
  refine ⟨?_, ?_, ?_, ?_⟩
  · intro ds pids specs h
    have := multi_half_grids ds pids specs 0 h
    simpa using this
  · intro ds pids specs h
    have := multi_full_grids ds pids specs 0 h
    simpa using this
  · intro j k hjk
    simp only [rectsOverlapB, not_and, not_lt]
    intro h1 h2 h3
    omega
  · intro j k hjk
    simp only [rectsOverlapB, not_and, not_lt]
    intro h1 h2 h3
    omega

/-- C7, witness for the amended theorem at two half-width panels. -/
theorem c7_amended_witness :
    (multiPanels "DuckDB" (fun i => Int.ofNat i) 0 0
      [[("type", .vstr "stat")], [("type", .vstr "gauge")]]).map gridPosOf =
      [some (.vobj (halfGridAt 0)), some (.vobj (halfGridAt 1))] := by
  have := c7_amended.1 "DuckDB" (fun i => Int.ofNat i)
    [[("type", .vstr "stat")], [("type", .vstr "gauge")]] (by decide)
  simpa using this



/-! ## List and whitespace lemmas for the round-trip development -/

theorem dropWhile_append_of_all {p : Char → Bool} (l1 l2 : List Char)
    (h : ∀ c ∈ l1, p c = true) : (l1 ++ l2).dropWhile p = l2.dropWhile p := by
  induction l1 with
  | nil => rfl
  | cons a t ih =>
      rw [List.cons_append, List.dropWhile_cons_of_pos (h a (by simp))]
      exact ih (fun c hc => h c (by simp [hc]))

theorem dropWhile_eq_self_of_head {p : Char → Bool} (l : List Char)
    (h : ∀ c, l.head? = some c → p c = false) : l.dropWhile p = l := by
  cases l with
  | nil => rfl
  | cons a t => exact List.dropWhile_cons_of_neg (by simp [h a rfl])

theorem takeWhile_append_run {p : Char → Bool} (t rest : List Char)
    (ht : ∀ c ∈ t, p c = true)
    (hr : ∀ c, rest.head? = some c → p c = false) :
    (t ++ rest).takeWhile p = t := by
  induction t with
  | nil =>
      cases rest with
      | nil => rfl
      | cons a r =>
          simpa using List.takeWhile_cons_of_neg (l := r) (by simp [hr a rfl])
  | cons a t ih =>
      rw [List.cons_append, List.takeWhile_cons_of_pos (ht a (by simp))]
      rw [ih (fun c hc => ht c (by simp [hc]))]

theorem pyStrip_sandwich (a b c : List Char)
    (ha : ∀ x ∈ a, isStripWS x = true) (hc : ∀ x ∈ c, isStripWS x = true)
    (hb1 : ∀ x, b.head? = some x → isStripWS x = false)
    (hb2 : ∀ x, b.getLast? = some x → isStripWS x = false)
    (hbne : b ≠ []) :
    pyStrip (a ++ b ++ c) = b := by
  unfold pyStrip
  rw [List.append_assoc, dropWhile_append_of_all a (b ++ c) ha]
  have hbc : (b ++ c).dropWhile isStripWS = b ++ c := by
    apply dropWhile_eq_self_of_head
    intro x hx
    cases b with
    | nil => exact absurd rfl hbne
    | cons y t =>
        simp only [List.cons_append, List.head?_cons, Option.some.injEq] at hx
        exact hx ▸ hb1 y rfl
  rw [hbc, List.reverse_append, dropWhile_append_of_all c.reverse b.reverse
    (fun x hx => hc x (List.mem_reverse.mp hx))]
  have hbr : b.reverse.dropWhile isStripWS = b.reverse := by
    apply dropWhile_eq_self_of_head
    intro x hx
    rw [List.head?_reverse] at hx
    exact hb2 x hx
  rw [hbr, List.reverse_reverse]

theorem pyStrip_eq_self (b : List Char)
    (hb1 : ∀ x, b.head? = some x → isStripWS x = false)
    (hb2 : ∀ x, b.getLast? = some x → isStripWS x = false) :
    pyStrip b = b := by
  cases hbe : b with
  | nil => rfl
  | cons y t =>
      have := pyStrip_sandwich [] (y :: t) [] (by simp) (by simp)
        (hbe ▸ hb1) (hbe ▸ hb2) (by simp)
      simpa using this

theorem skipLoopWS_cons_not (c : Char) (cs : List Char) (h : isLoopWS c = false) :
    skipLoopWS (c :: cs) = c :: cs :=
  List.dropWhile_cons_of_neg (by simp [h])

theorem skipLoopWS_ws_append (w cs : List Char) (hw : ∀ c ∈ w, isLoopWS c = true) :
    skipLoopWS (w ++ cs) = skipLoopWS cs :=
  dropWhile_append_of_all w cs hw

theorem skipLoopWS_spaces (n : Nat) (cs : List Char) :
    skipLoopWS (spaces n ++ cs) = skipLoopWS cs :=
  skipLoopWS_ws_append _ _ (by
    intro c hc
    simp only [spaces, List.mem_replicate] at hc
    simp [hc.2, isLoopWS])

theorem skipLoopWSComma_ws_append (w cs : List Char)
    (hw : ∀ c ∈ w, isLoopWS c = true ∨ c = ',') :
    skipLoopWSComma (w ++ cs) = skipLoopWSComma cs := by
  apply dropWhile_append_of_all
  intro c hc
  rcases hw c hc with h | h <;> simp [h]



/-! ## Integer printing and re-parsing -/

theorem digitVal_digitChar {d : Nat} (h : d < 10) :
    digitVal (digitChar d) = d ∧ isDigitC (digitChar d) = true := by
  interval_cases d <;> exact ⟨rfl, rfl⟩

theorem digitsCore_all_digits (ds : List Char) : ∀ acc, (∀ c ∈ ds, isDigitC c = true) →
    digitsCore acc ds = some (ds.foldl (fun a c => a * 10 + digitVal c) acc) := by
  induction ds with
  | nil => intro acc _; rfl
  | cons d t ih =>
      intro acc h
      have hd := h d (by simp)
      rw [digitsCore.eq_def]
      simp only [hd, if_true]
      exact ih _ (fun c hc => h c (by simp [hc]))

theorem natDigitsRev_spec : ∀ fuel n, n ≤ fuel →
    (∀ c ∈ natDigitsRev fuel n, isDigitC c = true) ∧
    natDigitsRev fuel n ≠ [] ∧
    ∀ acc, (natDigitsRev fuel n).reverse.foldl (fun a c => a * 10 + digitVal c) acc =
      acc * 10 ^ (natDigitsRev fuel n).length + n := by
  intro fuel
  induction fuel with
  | zero =>
      intro n hn
      have h0 : n = 0 := Nat.le_zero.mp hn
      subst h0
      refine ⟨?_, by simp [natDigitsRev], ?_⟩
      · intro c hc
        simp only [natDigitsRev, List.mem_singleton] at hc
        subst hc
        exact (digitVal_digitChar (by omega)).2
      · intro acc
        simp [natDigitsRev, (digitVal_digitChar (show 0 < 10 by omega)).1]
  | succ fuel ih =>
      intro n hn
      by_cases hlt : n < 10
      · refine ⟨?_, by simp [natDigitsRev, hlt], ?_⟩
        · intro c hc
          simp only [natDigitsRev, hlt, if_true, List.mem_singleton, reduceIte] at hc
          subst hc
          exact (digitVal_digitChar hlt).2
        · intro acc
          simp [natDigitsRev, hlt, (digitVal_digitChar hlt).1]
      · have hn10 : n / 10 ≤ fuel := by omega
        obtain ⟨ihd, ihne, ihv⟩ := ih (n / 10) hn10
        have hmod : n % 10 < 10 := Nat.mod_lt n (by omega)
        refine ⟨?_, by simp [natDigitsRev, hlt], ?_⟩
        · intro c hc
          simp only [natDigitsRev, hlt, if_false, List.mem_cons, reduceIte] at hc
          rcases hc with hc | hc
          · subst hc; exact (digitVal_digitChar hmod).2
          · exact ihd c hc
        · intro acc
          simp only [natDigitsRev, hlt, if_false, List.reverse_cons, reduceIte,
            List.foldl_append, List.foldl_cons, List.foldl_nil, List.length_cons,
            ihv acc, (digitVal_digitChar hmod).1]
          rw [pow_succ]
          have : 10 * (n / 10) + n % 10 = n := Nat.div_add_mod n 10
          ring_nf
          omega

theorem natToStr_facts (n : Nat) :
    (∀ c ∈ natToStr n, isDigitC c = true) ∧ natToStr n ≠ [] ∧
    digitsStart (natToStr n) = some n := by
  obtain ⟨hd, hne, hv⟩ := natDigitsRev_spec n n le_rfl
  have hdr : ∀ c ∈ natToStr n, isDigitC c = true := by
    intro c hc
    exact hd c (List.mem_reverse.mp hc)
  refine ⟨hdr, by simp [natToStr, hne], ?_⟩
  have hval : (natToStr n).foldl (fun a c => a * 10 + digitVal c) 0 = n := by
    have := hv 0
    simpa [natToStr] using this
  cases hcase : natToStr n with
  | nil => exact absurd hcase (by simp [natToStr, hne])
  | cons d t =>
      have hdall : ∀ c ∈ d :: t, isDigitC c = true := hcase ▸ hdr
      rw [digitsStart, if_pos (hdall d (by simp))]
      rw [digitsCore_all_digits t (digitVal d) (fun c hc => hdall c (by simp [hc]))]
      rw [hcase] at hval
      simp only [List.foldl_cons, Nat.zero_mul, Nat.zero_add] at hval
      rw [hval]

theorem digit_not_sign {c : Char} (h : isDigitC c = true) :
    c ≠ '+' ∧ c ≠ '-' ∧ c ≠ 't' ∧ c ≠ 'f' ∧ c ≠ 'n' ∧ isStripWS c = false := by
  simp only [isDigitC, Bool.and_eq_true, decide_eq_true_eq] at h
  obtain ⟨h1, h2⟩ := h
  refine ⟨?_, ?_, ?_, ?_, ?_, ?_⟩
  · intro he; subst he; exact absurd h1 (by decide)
  · intro he; subst he; exact absurd h1 (by decide)
  · intro he; subst he; exact absurd h2 (by decide)
  · intro he; subst he; exact absurd h2 (by decide)
  · intro he; subst he; exact absurd h2 (by decide)
  · by_contra hws
    have hws2 : isStripWS c = true := by
      cases hb : isStripWS c
      · exact absurd hb hws
      · rfl
    simp only [isStripWS, isReWS, Bool.or_eq_true, decide_eq_true_eq] at hws2
    rcases hws2 with ((((he | he) | he) | he) | he) | he <;> subst he <;>
      first
        | exact absurd h1 (by decide)
        | exact absurd h2 (by decide)

theorem pyStrToInt_not_sign (cs : List Char)
    (h1 : ∀ c, cs.head? = some c → c ≠ '+' ∧ c ≠ '-') :
    pyStrToInt cs = (digitsStart cs).map Int.ofNat := by
  unfold pyStrToInt
  split
  · rename_i rest
    exact absurd rfl (h1 '+' rfl).1
  · rename_i rest
    exact absurd rfl (h1 '-' rfl).2
  · rfl

theorem pyStrToInt_intToStr (n : Int) : pyStrToInt (pyIntToStr n) = some n := by
  obtain ⟨hd, hne, hv⟩ := natToStr_facts n.natAbs
  by_cases hneg : n < 0
  · rw [pyIntToStr, if_pos hneg]
    show (digitsStart (natToStr n.natAbs)).map (fun m => -(m : Int)) = some n
    rw [hv]
    show some (-(n.natAbs : Int)) = some n
    congr 1
    omega
  · rw [pyIntToStr, if_neg hneg]
    rw [pyStrToInt_not_sign _ ?_]
    · rw [hv]
      show some ((n.natAbs : Int)) = some n
      congr 1
      omega
    · intro c hc
      have hcm : c ∈ natToStr n.natAbs := by
        cases hcs : natToStr n.natAbs with
        | nil => rw [hcs] at hc; simp at hc
        | cons d t =>
            rw [hcs] at hc
            simp only [List.head?_cons, Option.some.injEq] at hc
            simp [hcs, hc]
      have := digit_not_sign (hd c hcm)
      exact ⟨this.1, this.2.1⟩




/-! ## Escape processing round-trip -/

theorem replChar_append (p : Char) (r a b : List Char) :
    replChar p r (a ++ b) = replChar p r a ++ replChar p r b := by
  induction a with
  | nil => rfl
  | cons c t ih => simp [replChar, ih]

theorem escDq_cons (c : Char) (t : List Char) :
    escDq (c :: t) =
      (if c = '\\' then ['\\', '\\'] else if c = '"' then ['\\', '"'] else [c]) ++
        escDq t := by
  unfold escDq
  rw [show replChar '\\' ['\\', '\\'] (c :: t) =
        (if c = '\\' then ['\\', '\\'] else [c]) ++ replChar '\\' ['\\', '\\'] t from rfl]
  rw [replChar_append]
  by_cases hb : c = '\\'
  · subst hb; rfl
  · rw [if_neg hb, if_neg hb]
    by_cases hq : c = '"'
    · subst hq; rfl
    · simp [replChar, hb, hq]

theorem escDq_ne_nil (c : Char) (t : List Char) : escDq (c :: t) ≠ [] := by
  rw [escDq_cons]
  by_cases hb : c = '\\' <;> by_cases hq : c = '"' <;> simp [hb, hq]

theorem escBS_ne_nil (c : Char) (t : List Char) : escBS (c :: t) ≠ [] := by
  by_cases hb : c = '\\' <;> simp [escBS, hb]

theorem escDq_head_ne_quote (s : List Char) :
    ∀ c, (escDq s).head? = some c → c ≠ '"' := by
  cases s with
  | nil => simp [escDq, replChar]
  | cons a t =>
      intro c hc
      rw [escDq_cons] at hc
      split_ifs at hc with h1 h2
      · simp only [List.cons_append, List.head?_cons, Option.some.injEq] at hc
        exact hc ▸ (show ('\\' : Char) ≠ '"' by decide)
      · simp only [List.cons_append, List.head?_cons, Option.some.injEq] at hc
        exact hc ▸ (show ('\\' : Char) ≠ '"' by decide)
      · simp only [List.cons_append, List.head?_cons, Option.some.injEq] at hc
        exact hc ▸ h2

theorem findStringEnd_cons (q c : Char) (rest : List Char) :
    findStringEnd q (c :: rest) =
      if c = '\\' then
        match rest with
        | c2 :: rest2 =>
            (findStringEnd q rest2).map (fun p => (c :: c2 :: p.1, p.2))
        | [] => none
      else if c = q then some ([], rest)
      else (findStringEnd q rest).map (fun p => (c :: p.1, p.2)) := by
  rw [findStringEnd.eq_def]

theorem findStringEnd_cons_escape (q c2 : Char) (rest : List Char) :
    findStringEnd q ('\\' :: c2 :: rest) =
      (findStringEnd q rest).map (fun p => ('\\' :: c2 :: p.1, p.2)) := by
  rw [findStringEnd_cons, if_pos rfl]

theorem findStringEnd_cons_close (q : Char) (rest : List Char) (hq : q ≠ '\\') :
    findStringEnd q (q :: rest) = some ([], rest) := by
  rw [findStringEnd_cons, if_neg hq, if_pos rfl]

theorem findStringEnd_cons_ordinary (q c : Char) (rest : List Char)
    (hb : c ≠ '\\') (hq : c ≠ q) :
    findStringEnd q (c :: rest) =
      (findStringEnd q rest).map (fun p => (c :: p.1, p.2)) := by
  rw [findStringEnd_cons, if_neg hb, if_neg hq]

theorem findStringEnd_escDq (s : List Char) :
    ∀ rest, findStringEnd '"' (escDq s ++ '"' :: rest) = some (escDq s, rest) := by
  induction s with
  | nil =>
      intro rest
      rw [show escDq [] = [] from rfl, List.nil_append,
        findStringEnd_cons_close '"' rest (by decide)]
  | cons c t ih =>
      intro rest
      rw [escDq_cons]
      by_cases hb : c = '\\'
      · rw [if_pos hb]
        rw [show (['\\', '\\'] ++ escDq t) ++ '"' :: rest =
              '\\' :: '\\' :: (escDq t ++ '"' :: rest) by simp]
        rw [findStringEnd_cons_escape, ih rest]
        simp
      · rw [if_neg hb]
        by_cases hq : c = '"'
        · rw [if_pos hq]
          rw [show (['\\', '"'] ++ escDq t) ++ '"' :: rest =
                '\\' :: '"' :: (escDq t ++ '"' :: rest) by simp]
          rw [findStringEnd_cons_escape, ih rest]
          simp
        · rw [if_neg hq]
          rw [show ([c] ++ escDq t) ++ '"' :: rest =
                c :: (escDq t ++ '"' :: rest) by simp]
          rw [findStringEnd_cons_ordinary '"' c _ hb hq, ih rest]
          simp

theorem replPair_quote_escDq (s : List Char) :
    replPair '\\' '"' '"' (escDq s) = escBS s := by
  induction s with
  | nil => rfl
  | cons c t ih =>
      rw [escDq_cons]
      by_cases hb : c = '\\'
      · subst hb
        rw [if_pos rfl]
        rw [show (['\\', '\\'] ++ escDq t) = '\\' :: '\\' :: escDq t by simp]
        rw [show replPair '\\' '"' '"' ('\\' :: '\\' :: escDq t) =
              '\\' :: replPair '\\' '"' '"' ('\\' :: escDq t) by
            simp [replPair]]
        cases hse : escDq t with
        | nil =>
            cases t with
            | nil => simp [escBS, replPair]
            | cons d u => exact absurd hse (escDq_ne_nil d u)
        | cons d u =>
            have hd : d ≠ '"' := escDq_head_ne_quote t d (by simp [hse])
            rw [show replPair '\\' '"' '"' ('\\' :: d :: u) =
                  '\\' :: replPair '\\' '"' '"' (d :: u) by
                simp [replPair, hd]]
            rw [← hse, ih]
            simp [escBS]
      · rw [if_neg hb]
        by_cases hq : c = '"'
        · subst hq
          rw [if_pos rfl]
          rw [show (['\\', '"'] ++ escDq t) = '\\' :: '"' :: escDq t by simp]
          rw [show replPair '\\' '"' '"' ('\\' :: '"' :: escDq t) =
                '"' :: replPair '\\' '"' '"' (escDq t) by simp [replPair]]
          rw [ih]
          simp [escBS]
        · rw [if_neg hq]
          rw [show ([c] ++ escDq t) = c :: escDq t by simp]
          cases hse : escDq t with
          | nil =>
              cases t with
              | nil => simp [escBS, replPair, hb]
              | cons d u => exact absurd hse (escDq_ne_nil d u)
          | cons d u =>
              rw [show replPair '\\' '"' '"' (c :: d :: u) =
                    c :: replPair '\\' '"' '"' (d :: u) by simp [replPair, hb]]
              rw [← hse, ih]
              simp [escBS, hb]

theorem replPair_bs_escBS (s : List Char) :
    replPair '\\' '\\' '\\' (escBS s) = s := by
  induction s with
  | nil => rfl
  | cons c t ih =>
      by_cases hb : c = '\\'
      · subst hb
        rw [show escBS ('\\' :: t) = '\\' :: '\\' :: escBS t by simp [escBS]]
        rw [show replPair '\\' '\\' '\\' ('\\' :: '\\' :: escBS t) =
              '\\' :: replPair '\\' '\\' '\\' (escBS t) by simp [replPair]]
        rw [ih]
      · rw [show escBS (c :: t) = c :: escBS t by simp [escBS, hb]]
        cases hse : escBS t with
        | nil =>
            cases t with
            | nil => simp [replPair]
            | cons d u => exact absurd hse (escBS_ne_nil d u)
        | cons d u =>
            rw [show replPair '\\' '\\' '\\' (c :: d :: u) =
                  c :: replPair '\\' '\\' '\\' (d :: u) by simp [replPair, hb]]
            rw [← hse, ih]

theorem unescDq_escDq (s : List Char) : unescDq (escDq s) = s := by
  rw [unescDq, replPair_quote_escDq, replPair_bs_escBS]

/-! ## One-step reductions of the delimiter scanner -/

theorem scanDelim_str_cons (opn cls : Char) (d : Nat) (q c : Char)
    (rest : List Char) :
    scanDelim opn cls d (some q) (c :: rest) =
      if c = '\\' then
        match rest with
        | c2 :: rest2 =>
            (scanDelim opn cls d (some q) rest2).map (fun p => (c :: c2 :: p.1, p.2))
        | [] => none
      else if c = q then
        (scanDelim opn cls d none rest).map (fun p => (c :: p.1, p.2))
      else (scanDelim opn cls d (some q) rest).map (fun p => (c :: p.1, p.2)) := by
  rw [scanDelim.eq_def]

theorem scanDelim_none_cons (opn cls : Char) (d : Nat) (c : Char)
    (rest : List Char) :
    scanDelim opn cls d none (c :: rest) =
      if c = '"' || c = squoteC then
        (scanDelim opn cls d (some c) rest).map (fun p => (c :: p.1, p.2))
      else if c = opn then
        (scanDelim opn cls (d + 1) none rest).map (fun p => (c :: p.1, p.2))
      else if c = cls then
        if d = 1 then some ([], rest)
        else (scanDelim opn cls (d - 1) none rest).map (fun p => (c :: p.1, p.2))
      else (scanDelim opn cls d none rest).map (fun p => (c :: p.1, p.2)) := by
  rw [scanDelim.eq_def]

theorem scanDelim_str_escape (opn cls : Char) (d : Nat) (q c2 : Char)
    (rest : List Char) :
    scanDelim opn cls d (some q) ('\\' :: c2 :: rest) =
      (scanDelim opn cls d (some q) rest).map (fun p => ('\\' :: c2 :: p.1, p.2)) := by
  rw [scanDelim_str_cons, if_pos rfl]

theorem scanDelim_str_close (opn cls : Char) (d : Nat) (q : Char)
    (rest : List Char) (hq : q ≠ '\\') :
    scanDelim opn cls d (some q) (q :: rest) =
      (scanDelim opn cls d none rest).map (fun p => (q :: p.1, p.2)) := by
  rw [scanDelim_str_cons, if_neg hq, if_pos rfl]

theorem scanDelim_str_ordinary (opn cls : Char) (d : Nat) (q c : Char)
    (rest : List Char) (hb : c ≠ '\\') (hq : c ≠ q) :
    scanDelim opn cls d (some q) (c :: rest) =
      (scanDelim opn cls d (some q) rest).map (fun p => (c :: p.1, p.2)) := by
  rw [scanDelim_str_cons, if_neg hb, if_neg hq]

theorem scanDelim_none_quote (opn cls : Char) (d : Nat) (c : Char)
    (rest : List Char) (hc : c = '"' ∨ c = squoteC) :
    scanDelim opn cls d none (c :: rest) =
      (scanDelim opn cls d (some c) rest).map (fun p => (c :: p.1, p.2)) := by
  rw [scanDelim_none_cons, if_pos (by rcases hc with h | h <;> simp [h])]

theorem scanDelim_none_open (opn cls : Char) (d : Nat) (rest : List Char)
    (h1 : opn ≠ '"') (h2 : opn ≠ squoteC) :
    scanDelim opn cls d none (opn :: rest) =
      (scanDelim opn cls (d + 1) none rest).map (fun p => (opn :: p.1, p.2)) := by
  rw [scanDelim_none_cons, if_neg (by simp [h1, h2]), if_pos rfl]

theorem scanDelim_none_close_one (opn cls : Char) (rest : List Char)
    (h1 : cls ≠ '"') (h2 : cls ≠ squoteC) (h3 : cls ≠ opn) :
    scanDelim opn cls 1 none (cls :: rest) = some ([], rest) := by
  rw [scanDelim_none_cons, if_neg (by simp [h1, h2]), if_neg h3, if_pos rfl, if_pos rfl]

theorem scanDelim_none_close_deep (opn cls : Char) (d : Nat) (rest : List Char)
    (h1 : cls ≠ '"') (h2 : cls ≠ squoteC) (h3 : cls ≠ opn) (hd : d ≠ 1) :
    scanDelim opn cls d none (cls :: rest) =
      (scanDelim opn cls (d - 1) none rest).map (fun p => (cls :: p.1, p.2)) := by
  rw [scanDelim_none_cons, if_neg (by simp [h1, h2]), if_neg h3, if_pos rfl, if_neg hd]

theorem scanDelim_none_ordinary (opn cls : Char) (d : Nat) (c : Char)
    (rest : List Char) (h1 : c ≠ '"') (h2 : c ≠ squoteC) (h3 : c ≠ opn)
    (h4 : c ≠ cls) :
    scanDelim opn cls d none (c :: rest) =
      (scanDelim opn cls d none rest).map (fun p => (c :: p.1, p.2)) := by
  rw [scanDelim_none_cons, if_neg (by simp [h1, h2]), if_neg h3, if_neg h4]

/-! ## Scan neutrality of serialized text -/

theorem scanStr_escDq (s : List Char) :
    ∀ (opn cls : Char) (d : Nat) (rest : List Char),
      scanDelim opn cls d (some '"') (escDq s ++ '"' :: rest) =
        (scanDelim opn cls d none rest).map
          (fun p => (escDq s ++ '"' :: p.1, p.2)) := by
  induction s with
  | nil =>
      intro opn cls d rest
      rw [show escDq [] = [] from rfl, List.nil_append,
        scanDelim_str_close opn cls d '"' rest (by decide)]
      rfl
  | cons c t ih =>
      intro opn cls d rest
      rw [escDq_cons]
      by_cases hb : c = '\\'
      · rw [if_pos hb]
        rw [show (['\\', '\\'] ++ escDq t) ++ '"' :: rest =
              '\\' :: '\\' :: (escDq t ++ '"' :: rest) by simp]
        rw [scanDelim_str_escape, ih opn cls d rest]
        cases scanDelim opn cls d none rest <;> simp
      · rw [if_neg hb]
        by_cases hq : c = '"'
        · rw [if_pos hq]
          rw [show (['\\', '"'] ++ escDq t) ++ '"' :: rest =
                '\\' :: '"' :: (escDq t ++ '"' :: rest) by simp]
          rw [scanDelim_str_escape, ih opn cls d rest]
          cases scanDelim opn cls d none rest <;> simp
        · rw [if_neg hq]
          rw [show ([c] ++ escDq t) ++ '"' :: rest =
                c :: (escDq t ++ '"' :: rest) by simp]
          rw [scanDelim_str_ordinary opn cls d '"' c _ hb hq, ih opn cls d rest]
          cases scanDelim opn cls d none rest <;> simp

theorem scanNeutral_nil : ScanNeutral [] := by
  intro opn cls d rest _ _
  simp only [List.nil_append]
  cases scanDelim opn cls d none rest <;> simp

theorem scanNeutral_append {a b : List Char}
    (ha : ScanNeutral a) (hb : ScanNeutral b) : ScanNeutral (a ++ b) := by
  intro opn cls d rest hp hd
  rw [List.append_assoc, ha opn cls d (b ++ rest) hp hd, hb opn cls d rest hp hd]
  cases scanDelim opn cls d none rest <;> simp

theorem scanNeutral_single {c : Char}
    (h : c ≠ '"' ∧ c ≠ squoteC ∧ c ≠ '\x7b' ∧ c ≠ '\x7d' ∧ c ≠ '[' ∧ c ≠ ']') :
    ScanNeutral [c] := by
  rintro opn cls d rest (⟨rfl, rfl⟩ | ⟨rfl, rfl⟩) hd
  · exact scanDelim_none_ordinary _ _ _ _ _ h.1 h.2.1 h.2.2.1 h.2.2.2.1
  · exact scanDelim_none_ordinary _ _ _ _ _ h.1 h.2.1 h.2.2.2.2.1 h.2.2.2.2.2

theorem scanNeutral_of_forall {l : List Char}
    (h : ∀ c ∈ l, c ≠ '"' ∧ c ≠ squoteC ∧ c ≠ '\x7b' ∧ c ≠ '\x7d' ∧ c ≠ '[' ∧ c ≠ ']') :
    ScanNeutral l := by
  induction l with
  | nil => exact scanNeutral_nil
  | cons c t ih =>
      have : ScanNeutral ([c] ++ t) :=
        scanNeutral_append (scanNeutral_single (h c (by simp)))
          (ih (fun x hx => h x (by simp [hx])))
      simpa using this

theorem scanNeutral_quoted (s : List Char) :
    ScanNeutral ('"' :: (escDq s ++ ['"'])) := by
  intro opn cls d rest hp hd
  rw [show ('"' :: (escDq s ++ ['"'])) ++ rest = '"' :: (escDq s ++ '"' :: rest) by simp]
  rw [scanDelim_none_quote opn cls d '"' _ (Or.inl rfl)]
  rw [scanStr_escDq s opn cls d rest]
  cases scanDelim opn cls d none rest <;> simp

theorem scanNeutral_braced {inner : List Char} (h : ScanNeutral inner) :
    ScanNeutral ('\x7b' :: (inner ++ ['\x7d'])) := by
  rintro opn cls d rest (⟨rfl, rfl⟩ | ⟨rfl, rfl⟩) hd
  · rw [show ('\x7b' :: (inner ++ ['\x7d'])) ++ rest =
          '\x7b' :: (inner ++ '\x7d' :: rest) by simp]
    rw [scanDelim_none_open '\x7b' '\x7d' d _ (by decide) (by decide)]
    rw [h '\x7b' '\x7d' (d + 1) ('\x7d' :: rest) (Or.inl ⟨rfl, rfl⟩) (by omega)]
    rw [scanDelim_none_close_deep '\x7b' '\x7d' (d + 1) rest (by decide) (by decide)
      (by decide) (by omega)]
    rw [show d + 1 - 1 = d by omega]
    cases scanDelim '\x7b' '\x7d' d none rest <;> simp
  · rw [show ('\x7b' :: (inner ++ ['\x7d'])) ++ rest =
          '\x7b' :: (inner ++ '\x7d' :: rest) by simp]
    rw [scanDelim_none_ordinary '[' ']' d '\x7b' _ (by decide) (by decide) (by decide)
      (by decide)]
    rw [h '[' ']' d ('\x7d' :: rest) (Or.inr ⟨rfl, rfl⟩) hd]
    rw [scanDelim_none_ordinary '[' ']' d '\x7d' rest (by decide) (by decide) (by decide)
      (by decide)]
    cases scanDelim '[' ']' d none rest <;> simp

theorem scanNeutral_bracketed {inner : List Char} (h : ScanNeutral inner) :
    ScanNeutral ('[' :: (inner ++ [']'])) := by
  rintro opn cls d rest (⟨rfl, rfl⟩ | ⟨rfl, rfl⟩) hd
  · rw [show ('[' :: (inner ++ [']'])) ++ rest = '[' :: (inner ++ ']' :: rest) by simp]
    rw [scanDelim_none_ordinary '\x7b' '\x7d' d '[' _ (by decide) (by decide) (by decide)
      (by decide)]
    rw [h '\x7b' '\x7d' d (']' :: rest) (Or.inl ⟨rfl, rfl⟩) hd]
    rw [scanDelim_none_ordinary '\x7b' '\x7d' d ']' rest (by decide) (by decide)
      (by decide) (by decide)]
    cases scanDelim '\x7b' '\x7d' d none rest <;> simp
  · rw [show ('[' :: (inner ++ [']'])) ++ rest = '[' :: (inner ++ ']' :: rest) by simp]
    rw [scanDelim_none_open '[' ']' d _ (by decide) (by decide)]
    rw [h '[' ']' (d + 1) (']' :: rest) (Or.inr ⟨rfl, rfl⟩) (by omega)]
    rw [scanDelim_none_close_deep '[' ']' (d + 1) rest (by decide) (by decide)
      (by decide) (by omega)]
    rw [show d + 1 - 1 = d by omega]
    cases scanDelim '[' ']' d none rest <;> simp

theorem findMatchingBrace_neutral {inner : List Char} (h : ScanNeutral inner)
    (rest : List Char) :
    findMatchingBrace (inner ++ '\x7d' :: rest) = some (inner, rest) := by
  unfold findMatchingBrace
  rw [h '\x7b' '\x7d' 1 ('\x7d' :: rest) (Or.inl ⟨rfl, rfl⟩) le_rfl]
  rw [scanDelim_none_close_one '\x7b' '\x7d' rest (by decide) (by decide) (by decide)]
  simp

theorem findMatchingBracket_neutral {inner : List Char} (h : ScanNeutral inner)
    (rest : List Char) :
    findMatchingBracket (inner ++ ']' :: rest) = some (inner, rest) := by
  unfold findMatchingBracket
  rw [h '[' ']' 1 (']' :: rest) (Or.inr ⟨rfl, rfl⟩) le_rfl]
  rw [scanDelim_none_close_one '[' ']' rest (by decide) (by decide) (by decide)]
  simp



/-! ## Character classes and safe strings -/

theorem isLoopWS_reWS {c : Char} (h : isLoopWS c = true) : isReWS c = true := by
  simp only [isLoopWS, Bool.or_eq_true, decide_eq_true_eq] at h
  rcases h with ((h | h) | h) | h <;> subst h <;> decide

theorem not_reWS_not_loopWS {c : Char} (h : isReWS c = false) : isLoopWS c = false := by
  cases hb : isLoopWS c
  · rfl
  · exact absurd (isLoopWS_reWS hb) (by simp [h])

theorem isWordChar_specials {c : Char} (h : isWordChar c = true) :
    c ≠ '"' ∧ c ≠ squoteC ∧ c ≠ '\x7b' ∧ c ≠ '\x7d' ∧ c ≠ '[' ∧ c ≠ ']' := by
  refine ⟨?_, ?_, ?_, ?_, ?_, ?_⟩ <;> (intro he; subst he; exact absurd h (by decide))

theorem isWordChar_not_reWS {c : Char} (h : isWordChar c = true) : isReWS c = false := by
  cases hb : isReWS c
  · rfl
  · exfalso
    simp only [isReWS, Bool.or_eq_true, decide_eq_true_eq] at hb
    rcases hb with ((((hb | hb) | hb) | hb) | hb) | hb <;> subst hb <;>
      exact absurd h (by decide)

theorem mem_of_getLast? {l : List Char} {a : Char} (h : l.getLast? = some a) :
    a ∈ l := by
  induction l with
  | nil => simp at h
  | cons c t ih =>
      cases t with
      | nil =>
          simp only [List.getLast?_singleton, Option.some.injEq] at h
          simp [h]
      | cons d u =>
          rw [List.getLast?_cons_cons] at h
          simp [ih h]

theorem quoteTriggered_false {s : String} (h : quoteTriggered s = false) :
    (∀ c ∈ s.data, c ≠ ' ' ∧ c ≠ '\n' ∧ c ≠ ':' ∧ c ≠ '\x7b' ∧ c ≠ '\x7d' ∧
      c ≠ '[' ∧ c ≠ ']' ∧ c ≠ '"') ∧
    s ≠ "true" ∧ s ≠ "false" ∧ s ≠ "null" ∧ s ≠ "" := by
  simp only [quoteTriggered, Bool.or_eq_false_iff, List.any_eq_false,
    decide_eq_false_iff_not] at h
  obtain ⟨⟨⟨⟨hc, h1⟩, h2⟩, h3⟩, h4⟩ := h
  refine ⟨?_, h1, h2, h3, h4⟩
  intro c hc2
  have := hc c hc2
  simp only [Bool.or_eq_true, decide_eq_true_eq] at this
  push_neg at this
  tauto

theorem safeUnquoted_facts {s : String} (h : safeUnquoted s = true) :
    (∀ c ∈ s.data, isReWS c = false ∧ c ≠ ',' ∧ c ≠ squoteC) ∧
    s.data ≠ [] ∧ s ≠ "none" ∧ pyStrToInt s.data = none ∧
    pyFloatAccepts s.data = false := by
  simp only [safeUnquoted, Bool.and_eq_true, List.all_eq_true, Bool.not_eq_true',
    Option.isNone_iff_eq_none, decide_eq_true_eq, List.isEmpty_iff] at h
  obtain ⟨⟨⟨⟨hall, hne⟩, hnone⟩, hint⟩, hfloat⟩ := h
  refine ⟨?_, ?_, hnone, hint, hfloat⟩
  case refine_2 =>
    intro he
    rw [he] at hne
    simp at hne
  intro c hc
  have := hall c hc
  simp only [Bool.not_eq_true', Bool.or_eq_false_iff, decide_eq_false_iff_not] at this
  tauto

theorem safe_token_chars {s : String} (hq : quoteTriggered s = false)
    (hu : safeUnquoted s = true) : ∀ c ∈ s.data, isTokenChar c = true := by
  intro c hc
  obtain ⟨hall, _⟩ := safeUnquoted_facts hu
  obtain ⟨hqall, _⟩ := quoteTriggered_false hq
  have h1 := hall c hc
  have h2 := hqall c hc
  simp [isTokenChar, h1.1, h1.2.1, h2.2.2.2.2.1, h2.2.2.2.2.2.2.1]

theorem string_mk_data (s : String) : String.mk s.data = s := by cases s; rfl

theorem data_ne {s t : String} (h : s ≠ t) : s.data ≠ t.data := by
  intro he
  exact h (by cases s; cases t; exact congrArg String.mk he)

theorem ne_of_head {a b : List Char} {c d : Char} (ha : a.head? = some c)
    (hb : b.head? = some d) (h : c ≠ d) : a ≠ b := by
  intro he
  subst he
  rw [ha] at hb
  simp only [Option.some.injEq] at hb
  exact h hb

/-! ## Scalar coercions on serialized tokens -/

theorem pyParseScalar_unquoted {s : String} (hq : quoteTriggered s = false)
    (hu : safeUnquoted s = true) : pyParseScalar s.data = .vstr s := by
  obtain ⟨hall, hne, hnone, hint, hfloat⟩ := safeUnquoted_facts hu
  obtain ⟨_, ht, hf, hnull, _⟩ := quoteTriggered_false hq
  have hstrip : pyStrip s.data = s.data := by
    apply pyStrip_eq_self
    · intro x hx
      exact (hall x (List.mem_of_mem_head? (by simp [hx]))).1
    · intro x hx
      exact (hall x (mem_of_getLast? hx)).1
  simp only [pyParseScalar, hstrip]
  rw [if_neg (data_ne ht), if_neg (data_ne hf),
    if_neg (by simp [data_ne hnull, data_ne hnone]), hint]
  rw [if_neg (by simp [hfloat]), string_mk_data]

theorem pyParseScalar_btrue : pyParseScalar "true".data = .vbool true := rfl

theorem pyParseScalar_bfalse : pyParseScalar "false".data = .vbool false := rfl

theorem pyIntToStr_chars (n : Int) :
    ∀ c ∈ pyIntToStr n, isDigitC c = true ∨ c = '-' := by
  intro c hc
  obtain ⟨hd, _, _⟩ := natToStr_facts n.natAbs
  by_cases hneg : n < 0
  · rw [pyIntToStr, if_pos hneg] at hc
    rcases List.mem_cons.mp hc with h | h
    · exact Or.inr h
    · exact Or.inl (hd c h)
  · rw [pyIntToStr, if_neg hneg] at hc
    exact Or.inl (hd c hc)

theorem pyIntToStr_head (n : Int) :
    ∀ c, (pyIntToStr n).head? = some c → isDigitC c = true ∨ c = '-' := by
  intro c hc
  exact pyIntToStr_chars n c (List.mem_of_mem_head? (by simp [hc]))

theorem pyIntToStr_ne_nil (n : Int) : pyIntToStr n ≠ [] := by
  obtain ⟨_, hne, _⟩ := natToStr_facts n.natAbs
  by_cases hneg : n < 0 <;> simp [pyIntToStr, hneg, hne]

theorem pyIntToStr_not_reWS (n : Int) :
    ∀ c ∈ pyIntToStr n, isReWS c = false := by
  intro c hc
  rcases pyIntToStr_chars n c hc with h | h
  · exact (digit_not_sign h).2.2.2.2.2
  · subst h; decide

theorem pyIntToStr_head_some (n : Int) :
    ∃ c, (pyIntToStr n).head? = some c ∧ (isDigitC c = true ∨ c = '-') := by
  cases hc : pyIntToStr n with
  | nil => exact absurd hc (pyIntToStr_ne_nil n)
  | cons c t =>
      exact ⟨c, rfl, pyIntToStr_head n c (by rw [hc]; rfl)⟩

theorem pyParseScalar_int (n : Int) : pyParseScalar (pyIntToStr n) = .vint n := by
  have hstrip : pyStrip (pyIntToStr n) = pyIntToStr n := by
    apply pyStrip_eq_self
    · intro x hx
      exact pyIntToStr_not_reWS n x (List.mem_of_mem_head? (by simp [hx]))
    · intro x hx
      exact pyIntToStr_not_reWS n x (mem_of_getLast? hx)
  obtain ⟨c, hc, hcd⟩ := pyIntToStr_head_some n
  have hnotc : ∀ d : Char, d = 't' ∨ d = 'f' ∨ d = 'n' → c ≠ d := by
    intro d hd he
    subst he
    rcases hcd with h | h
    · rcases hd with rfl | rfl | rfl
      · exact (digit_not_sign h).2.2.1 rfl
      · exact (digit_not_sign h).2.2.2.1 rfl
      · exact (digit_not_sign h).2.2.2.2.1 rfl
    · rcases hd with rfl | rfl | rfl <;> simp at h
  simp only [pyParseScalar, hstrip]
  rw [if_neg (ne_of_head hc (by rfl) (hnotc 't' (by simp))),
    if_neg (ne_of_head hc (by rfl) (hnotc 'f' (by simp))),
    if_neg (by
      simp only [Bool.or_eq_true, decide_eq_true_eq, not_or]
      exact ⟨ne_of_head hc (by rfl) (hnotc 'n' (by simp)),
        ne_of_head hc (by rfl) (hnotc 'n' (by simp))⟩),
    pyStrToInt_intToStr n]

/-! ## Object bookkeeping -/

theorem hasKeyB_append (a b : Obj) (k : String) :
    hasKeyB (a ++ b) k = (hasKeyB a k || hasKeyB b k) := by
  induction a with
  | nil => simp [hasKeyB]
  | cons p t ih => cases p with | mk k' v' => simp [hasKeyB, ih, Bool.or_assoc]

theorem hasKeyB_false_lookup {l : Obj} {k : String} (h : hasKeyB l k = false) :
    lookupVal l k = none := by
  induction l with
  | nil => rfl
  | cons p t ih =>
      cases p with
      | mk k' v' =>
          simp only [hasKeyB, Bool.or_eq_false_iff, decide_eq_false_iff_not] at h
          rw [lookupVal, if_neg h.1]
          exact ih h.2

theorem insertOrReplace_absent {l : Obj} {k : String} (h : hasKeyB l k = false)
    (v : ToonVal) : insertOrReplace l k v = l ++ [(k, v)] := by
  induction l with
  | nil => rfl
  | cons p t ih =>
      cases p with
      | mk k' v' =>
          simp only [hasKeyB, Bool.or_eq_false_iff, decide_eq_false_iff_not] at h
          rw [insertOrReplace, if_neg h.1, ih h.2]
          rfl

theorem removeKey_absent {l : Obj} {k : String} (h : hasKeyB l k = false) :
    removeKey l k = l := by
  induction l with
  | nil => rfl
  | cons p t ih =>
      cases p with
      | mk k' v' =>
          simp only [hasKeyB, Bool.or_eq_false_iff, decide_eq_false_iff_not] at h
          rw [removeKey, if_neg h.1, ih h.2]

theorem removeKey_append (a b : Obj) (k : String) :
    removeKey (a ++ b) k = removeKey a k ++ removeKey b k := by
  induction a with
  | nil => rfl
  | cons p t ih =>
      cases p with
      | mk k' v' =>
          by_cases hk : k' = k <;> simp [removeKey, hk, ih]

theorem serializeObjParts_append_type (core : Obj) (v : ToonVal) (ind : Nat)
    (cm : Bool) : serializeObjParts (core ++ [("_type", v)]) ind cm =
      serializeObjParts core ind cm := by
  induction core with
  | nil => simp [serializeObjParts]
  | cons p t ih =>
      cases p with
      | mk k w =>
          by_cases hk : k = "_type"
          · simp [serializeObjParts, hk, ih]
          · cases w <;> simp [serializeObjParts, hk, ih]

theorem isSafeObj_cons (k : String) (v : ToonVal) (rest : Obj) :
    isSafeObj ((k, v) :: rest) =
      (if k = "_type" then
        ((match v with
          | ToonVal.vstr t => isWordStr t
          | _ => false) && rest.isEmpty)
      else (isWordStr k && isSafeVal v && !hasKeyB rest k && isSafeObj rest)) := by
  rw [isSafeObj.eq_def]

theorem isSafeObj_decomp (fields : Obj) (h : isSafeObj fields = true) :
    (hasKeyB fields "_type" = false) ∨
    (∃ core t, fields = core ++ [("_type", ToonVal.vstr t)] ∧ isWordStr t = true ∧
      hasKeyB core "_type" = false ∧ isSafeObj core = true) := by
  induction fields with
  | nil => exact Or.inl rfl
  | cons p rest ih =>
      cases p with
      | mk k v =>
          by_cases hk : k = "_type"
          · subst hk
            rw [isSafeObj_cons, if_pos rfl] at h
            simp only [Bool.and_eq_true, List.isEmpty_iff] at h
            obtain ⟨hv, hrest⟩ := h
            subst hrest
            cases v with
            | vstr t => exact Or.inr ⟨[], t, by simp, hv, rfl, rfl⟩
            | vnull => simp at hv
            | vbool b => simp at hv
            | vint m => simp at hv
            | vfloat l => simp at hv
            | varr l => simp at hv
            | vobj o => simp at hv
          · rw [isSafeObj_cons, if_neg hk] at h
            simp only [Bool.and_eq_true, Bool.not_eq_true'] at h
            obtain ⟨⟨⟨hw, hv⟩, hnk⟩, hrest⟩ := h
            rcases ih hrest with hleft | ⟨core, t, rfl, hwt, hcore, hsafe⟩
            · exact Or.inl (by simp [hasKeyB, hk, hleft])
            · refine Or.inr ⟨(k, v) :: core, t, by simp, hwt, ?_, ?_⟩
              · simp [hasKeyB, hk, hcore]
              · rw [isSafeObj_cons, if_neg hk]
                rw [hasKeyB_append] at hnk
                simp only [Bool.or_eq_false_iff] at hnk
                simp [hw, hv, hnk.1, hsafe]

theorem isSafeObj_lookup_type {fields : Obj} (h : isSafeObj fields = true) :
    ∀ tv, lookupVal fields "_type" = some tv →
      ∃ t, tv = ToonVal.vstr t ∧ isWordStr t = true := by
  intro tv htv
  rcases isSafeObj_decomp fields h with hn | ⟨core, t, rfl, hwt, hcore, _⟩
  · rw [hasKeyB_false_lookup hn] at htv
    simp at htv
  · rw [lookupVal_append_right core [("_type", ToonVal.vstr t)] "_type" hcore] at htv
    rw [show lookupVal [("_type", ToonVal.vstr t)] "_type" = some (ToonVal.vstr t)
      from rfl] at htv
    simp only [Option.some.injEq] at htv
    exact ⟨t, htv.symm, hwt⟩



/-! ## Unfolding equations for the mutual definitions -/

theorem serializeValue_vstr (s : String) (ind : Nat) (cm : Bool) :
    serializeValue (.vstr s) ind cm =
      (if quoteTriggered s then '"' :: (escDq s.data ++ ['"']) else s.data) := by
  rw [serializeValue.eq_def]

theorem serializeValue_varr (items : List ToonVal) (ind : Nat) (cm : Bool) :
    serializeValue (.varr items) ind cm =
      (if items.isEmpty then "[]".data
       else if cm || !(items.any isComplexVal) then
        '[' :: (intercalateL [','] (serializeArrItems items ind) ++ [']'])
       else
        '[' :: '\n' :: (intercalateL [',', '\n']
          (serializeArrItemsIndented items (ind + 2)) ++
          '\n' :: (spaces ind ++ [']']))) := by
  rw [serializeValue.eq_def]

theorem serializeValue_vobj (fields : List (String × ToonVal)) (ind : Nat) (cm : Bool) :
    serializeValue (.vobj fields) ind cm =
      (match lookupVal fields "_type" with
       | some tv =>
          if pyTruthy tv then
            if cm then
              '@' :: (tagString tv ++ '\x7b' :: intercalateL [' '] (serializeObjParts fields (ind + 2) true) ++ ['\x7d'])
            else
              '@' :: (tagString tv ++ '\x7b' :: '\n' :: intercalateL ['\n'] (serializeObjParts fields (ind + 2) false) ++
                '\n' :: (spaces ind ++ ['\x7d']))
          else
            if cm then
              '\x7b' :: (intercalateL [' '] (serializeObjParts fields (ind + 2) true) ++ ['\x7d'])
            else
              '\x7b' :: '\n' :: (intercalateL ['\n'] (serializeObjParts fields (ind + 2) false) ++
                '\n' :: (spaces ind ++ ['\x7d']))
       | none =>
          if cm then
            '\x7b' :: (intercalateL [' '] (serializeObjParts fields (ind + 2) true) ++ ['\x7d'])
          else
            '\x7b' :: '\n' :: (intercalateL ['\n'] (serializeObjParts fields (ind + 2) false) ++
              '\n' :: (spaces ind ++ ['\x7d']))) := by
  rw [serializeValue.eq_def]

theorem serializeObjParts_cons (k : String) (v : ToonVal) (rest : Obj)
    (ind : Nat) (cm : Bool) :
    serializeObjParts ((k, v) :: rest) ind cm =
      (if k = "_type" then serializeObjParts rest ind cm
       else
        match v with
        | .vnull => serializeObjParts rest ind cm
        | _ =>
            (if cm then k.data ++ ':' :: serializeValue v ind cm
             else spaces ind ++ (k.data ++ ':' :: serializeValue v ind cm))
              :: serializeObjParts rest ind cm) := by
  rw [serializeObjParts.eq_def]

theorem serializeArrItems_cons (v : ToonVal) (rest : List ToonVal) (ind : Nat) :
    serializeArrItems (v :: rest) ind =
      serializeValue v ind true :: serializeArrItems rest ind := by
  rw [serializeArrItems.eq_def]

theorem serializeArrItemsIndented_cons (v : ToonVal) (rest : List ToonVal)
    (ind : Nat) :
    serializeArrItemsIndented (v :: rest) ind =
      (spaces ind ++ serializeValue v ind false) :: serializeArrItemsIndented rest ind := by
  rw [serializeArrItemsIndented.eq_def]

theorem isSafeVal_varr (items : List ToonVal) :
    isSafeVal (.varr items) = isSafeItems items := by
  rw [isSafeVal.eq_def]

theorem isSafeVal_vobj (fields : Obj) :
    isSafeVal (.vobj fields) = isSafeObj fields := by
  rw [isSafeVal.eq_def]

theorem isSafeItems_cons (v : ToonVal) (rest : List ToonVal) :
    isSafeItems (v :: rest) = (isSafeVal v && isSafeItems rest) := by
  rw [isSafeItems.eq_def]

theorem isWordStr_ne_empty {t : String} (h : isWordStr t = true) : t ≠ "" := by
  simp only [isWordStr, Bool.and_eq_true, Bool.not_eq_true', List.isEmpty_eq_false] at h
  intro he
  subst he
  simp at h

theorem pyTruthy_wordStr {t : String} (h : isWordStr t = true) :
    pyTruthy (.vstr t) = true := by
  simp [pyTruthy, isWordStr_ne_empty h]



/-! ## Shape of serialized values -/

theorem getLast?_cons_ne {c : Char} {l : List Char} (h : l ≠ []) :
    (c :: l).getLast? = l.getLast? := by
  cases l with
  | nil => exact absurd rfl h
  | cons d u => rw [List.getLast?_cons_cons]

theorem shape_wrap (a : Char) (mid : List Char) (b : Char)
    (wa : isReWS a = false) (wb : isReWS b = false) :
    (a :: (mid ++ [b])) ≠ [] ∧
    (∀ c, (a :: (mid ++ [b])).head? = some c → isReWS c = false) ∧
    (∀ c, (a :: (mid ++ [b])).getLast? = some c → isReWS c = false) := by
  refine ⟨by simp, ?_, ?_⟩
  · intro c hc
    simp only [List.head?_cons, Option.some.injEq] at hc
    subst hc; exact wa
  · intro c hc
    rw [show a :: (mid ++ [b]) = (a :: mid) ++ [b] by simp, List.getLast?_concat] at hc
    simp only [Option.some.injEq] at hc
    subst hc; exact wb

theorem serializeValue_vobj_untagged (fields : Obj) (ind : Nat) (cm : Bool)
    (htv : lookupVal fields "_type" = none) :
    serializeValue (.vobj fields) ind cm =
      (if cm then
        '\x7b' :: (intercalateL [' '] (serializeObjParts fields (ind + 2) true) ++ ['\x7d'])
      else
        '\x7b' :: '\n' :: (intercalateL ['\n'] (serializeObjParts fields (ind + 2) false) ++
          '\n' :: (spaces ind ++ ['\x7d']))) := by
  rw [serializeValue_vobj, htv]

theorem serializeValue_vobj_tagged (fields : Obj) (ind : Nat) (cm : Bool)
    (tv : ToonVal) (htv : lookupVal fields "_type" = some tv)
    (htr : pyTruthy tv = true) :
    serializeValue (.vobj fields) ind cm =
      (if cm then
        '@' :: (tagString tv ++ '\x7b' :: intercalateL [' '] (serializeObjParts fields (ind + 2) true) ++ ['\x7d'])
      else
        '@' :: (tagString tv ++ '\x7b' :: '\n' :: intercalateL ['\n'] (serializeObjParts fields (ind + 2) false) ++
          '\n' :: (spaces ind ++ ['\x7d']))) := by
  rw [serializeValue_vobj, htv]
  exact if_pos htr

theorem isSafeVal_not_null_float (v : ToonVal) (h : isSafeVal v = true) :
    v ≠ .vnull ∧ (∀ lit, v ≠ .vfloat lit) := by
  constructor
  · intro he; subst he
    rw [show isSafeVal .vnull = false from rfl] at h
    simp at h
  · intro lit he; subst he
    rw [show isSafeVal (.vfloat lit) = false from rfl] at h
    simp at h

theorem serializeValue_shape (v : ToonVal) (ind : Nat) (cm : Bool)
    (h : isSafeVal v = true) :
    serializeValue v ind cm ≠ [] ∧
    (∀ c, (serializeValue v ind cm).head? = some c → isReWS c = false) ∧
    (∀ c, (serializeValue v ind cm).getLast? = some c → isReWS c = false) := by
  cases v with
  | vnull => exact absurd rfl (isSafeVal_not_null_float _ h).1
  | vfloat lit => exact absurd rfl ((isSafeVal_not_null_float _ h).2 lit)
  | vbool b =>
      cases b
      · refine ⟨by simp [show serializeValue (.vbool false) ind cm = "false".data from rfl], ?_, ?_⟩
        · intro c hc
          rw [show (serializeValue (.vbool false) ind cm).head? = some 'f' from rfl] at hc
          simp only [Option.some.injEq] at hc; subst hc; decide
        · intro c hc
          rw [show (serializeValue (.vbool false) ind cm).getLast? = some 'e' from rfl] at hc
          simp only [Option.some.injEq] at hc; subst hc; decide
      · refine ⟨by simp [show serializeValue (.vbool true) ind cm = "true".data from rfl], ?_, ?_⟩
        · intro c hc
          rw [show (serializeValue (.vbool true) ind cm).head? = some 't' from rfl] at hc
          simp only [Option.some.injEq] at hc; subst hc; decide
        · intro c hc
          rw [show (serializeValue (.vbool true) ind cm).getLast? = some 'e' from rfl] at hc
          simp only [Option.some.injEq] at hc; subst hc; decide
  | vint n =>
      rw [show serializeValue (.vint n) ind cm = pyIntToStr n from rfl]
      refine ⟨pyIntToStr_ne_nil n, ?_, ?_⟩
      · intro c hc
        exact pyIntToStr_not_reWS n c (List.mem_of_mem_head? (by simp [hc]))
      · intro c hc
        exact pyIntToStr_not_reWS n c (mem_of_getLast? hc)
  | vstr s =>
      rw [show isSafeVal (.vstr s) = isSafeStr s from rfl] at h
      rw [serializeValue_vstr]
      by_cases hq : quoteTriggered s
      · rw [if_pos hq]
        refine ⟨by simp, ?_, ?_⟩
        · intro c hc
          simp only [List.head?_cons, Option.some.injEq] at hc; subst hc; decide
        · intro c hc
          rw [show ('"' :: (escDq s.data ++ ['"'])) = ('"' :: escDq s.data) ++ ['"']
            by simp, List.getLast?_concat] at hc
          simp only [Option.some.injEq] at hc; subst hc; decide
      · rw [if_neg hq]
        have hu : safeUnquoted s = true := by
          simp only [isSafeStr, Bool.or_eq_true] at h
          rcases h with h | h
          · exact absurd h (by simp [hq])
          · exact h
        obtain ⟨hall, hne, _⟩ := safeUnquoted_facts hu
        refine ⟨hne, ?_, ?_⟩
        · intro c hc
          exact (hall c (List.mem_of_mem_head? (by simp [hc]))).1
        · intro c hc
          exact (hall c (mem_of_getLast? hc)).1
  | varr items =>
      rw [serializeValue_varr]
      by_cases he : items.isEmpty
      · rw [if_pos he]
        refine ⟨by simp, ?_, ?_⟩
        · intro c hc
          rw [show ("[]".data.head?) = some '[' from rfl] at hc
          simp only [Option.some.injEq] at hc; subst hc; decide
        · intro c hc
          rw [show ("[]".data.getLast?) = some ']' from rfl] at hc
          simp only [Option.some.injEq] at hc; subst hc; decide
      · rw [if_neg he]
        by_cases hm : (cm || !(items.any isComplexVal)) = true
        · rw [if_pos hm]
          refine ⟨by simp, ?_, ?_⟩
          · intro c hc
            simp only [List.head?_cons, Option.some.injEq] at hc; subst hc; decide
          · intro c hc
            rw [show '[' :: (intercalateL [','] (serializeArrItems items ind) ++ [']']) =
                  ('[' :: intercalateL [','] (serializeArrItems items ind)) ++ [']']
                by simp, List.getLast?_concat] at hc
            simp only [Option.some.injEq] at hc; subst hc; decide
        · rw [if_neg hm]
          refine ⟨by simp, ?_, ?_⟩
          · intro c hc
            simp only [List.head?_cons, Option.some.injEq] at hc; subst hc; decide
          · intro c hc
            rw [show '[' :: '\n' :: (intercalateL [',', '\n']
                  (serializeArrItemsIndented items (ind + 2)) ++
                  '\n' :: (spaces ind ++ [']'])) =
                  ('[' :: '\n' :: (intercalateL [',', '\n']
                    (serializeArrItemsIndented items (ind + 2)) ++
                    '\n' :: spaces ind)) ++ [']']
                by simp, List.getLast?_concat] at hc
            simp only [Option.some.injEq] at hc; subst hc; decide
  | vobj fields =>
      rw [isSafeVal_vobj] at h
      have hcompU : ∀ X : List (List Char),
          ('\x7b' :: (intercalateL [' '] X ++ ['\x7d'])) ≠ [] ∧
          (∀ c, ('\x7b' :: (intercalateL [' '] X ++ ['\x7d'])).head? = some c → isReWS c = false) ∧
          (∀ c, ('\x7b' :: (intercalateL [' '] X ++ ['\x7d'])).getLast? = some c → isReWS c = false) :=
        fun X => shape_wrap '\x7b' (intercalateL [' '] X) '\x7d' (by decide) (by decide)
      have hpretU : ∀ X : List (List Char),
          ('\x7b' :: '\n' :: (intercalateL ['\n'] X ++ '\n' :: (spaces ind ++ ['\x7d']))) ≠ [] ∧
          (∀ c, ('\x7b' :: '\n' :: (intercalateL ['\n'] X ++ '\n' :: (spaces ind ++ ['\x7d']))).head? = some c → isReWS c = false) ∧
          (∀ c, ('\x7b' :: '\n' :: (intercalateL ['\n'] X ++ '\n' :: (spaces ind ++ ['\x7d']))).getLast? = some c → isReWS c = false) := by
        intro X
        have he : '\x7b' :: '\n' :: (intercalateL ['\n'] X ++ '\n' :: (spaces ind ++ ['\x7d'])) =
            '\x7b' :: (('\n' :: (intercalateL ['\n'] X ++ '\n' :: spaces ind)) ++ ['\x7d']) := by
          simp
        rw [he]
        exact shape_wrap '\x7b' _ '\x7d' (by decide) (by decide)
      have hcompT : ∀ (tg : List Char) (X : List (List Char)),
          ('@' :: (tg ++ '\x7b' :: intercalateL [' '] X ++ ['\x7d'])) ≠ [] ∧
          (∀ c, ('@' :: (tg ++ '\x7b' :: intercalateL [' '] X ++ ['\x7d'])).head? = some c → isReWS c = false) ∧
          (∀ c, ('@' :: (tg ++ '\x7b' :: intercalateL [' '] X ++ ['\x7d'])).getLast? = some c → isReWS c = false) := by
        intro tg X
        have he : '@' :: (tg ++ '\x7b' :: intercalateL [' '] X ++ ['\x7d']) =
            '@' :: ((tg ++ '\x7b' :: intercalateL [' '] X) ++ ['\x7d']) := by
          simp
        rw [he]
        exact shape_wrap '@' _ '\x7d' (by decide) (by decide)
      have hpretT : ∀ (tg : List Char) (X : List (List Char)),
          ('@' :: (tg ++ '\x7b' :: '\n' :: intercalateL ['\n'] X ++ '\n' :: (spaces ind ++ ['\x7d']))) ≠ [] ∧
          (∀ c, ('@' :: (tg ++ '\x7b' :: '\n' :: intercalateL ['\n'] X ++ '\n' :: (spaces ind ++ ['\x7d']))).head? = some c → isReWS c = false) ∧
          (∀ c, ('@' :: (tg ++ '\x7b' :: '\n' :: intercalateL ['\n'] X ++ '\n' :: (spaces ind ++ ['\x7d']))).getLast? = some c → isReWS c = false) := by
        intro tg X
        have he : '@' :: (tg ++ '\x7b' :: '\n' :: intercalateL ['\n'] X ++ '\n' :: (spaces ind ++ ['\x7d'])) =
            '@' :: ((tg ++ '\x7b' :: '\n' :: intercalateL ['\n'] X ++ '\n' :: spaces ind) ++ ['\x7d']) := by
          simp
        rw [he]
        exact shape_wrap '@' _ '\x7d' (by decide) (by decide)
      cases htv : lookupVal fields "_type" with
      | none =>
          rw [serializeValue_vobj_untagged fields ind cm htv]
          cases cm
          · exact hpretU _
          · exact hcompU _
      | some tv =>
          obtain ⟨t, rfl, hwt⟩ := isSafeObj_lookup_type h tv htv
          rw [serializeValue_vobj_tagged fields ind cm _ htv (pyTruthy_wordStr hwt)]
          cases cm
          · exact hpretT _ _
          · exact hcompT _ _


/-! ## Neutrality of serialized safe values -/

theorem digit_not_special {c : Char} (h : isDigitC c = true) :
    c ≠ '"' ∧ c ≠ squoteC ∧ c ≠ '\x7b' ∧ c ≠ '\x7d' ∧ c ≠ '[' ∧ c ≠ ']' := by
  simp only [isDigitC, Bool.and_eq_true, decide_eq_true_eq] at h
  obtain ⟨h1, h2⟩ := h
  refine ⟨?_, ?_, ?_, ?_, ?_, ?_⟩ <;>
    (intro he; subst he;
     first
       | exact absurd h1 (by decide)
       | exact absurd h2 (by decide))

theorem scanNeutral_intercalate (sep : List Char) (hsep : ScanNeutral sep) :
    ∀ (parts : List (List Char)), (∀ p ∈ parts, ScanNeutral p) →
      ScanNeutral (intercalateL sep parts)
  | [], _ => scanNeutral_nil
  | [x], hp => by
      rw [show intercalateL sep [x] = x from rfl]
      exact hp x (by simp)
  | x :: y :: t, hp => by
      rw [show intercalateL sep (x :: y :: t) = x ++ sep ++ intercalateL sep (y :: t)
        from rfl]
      exact scanNeutral_append (scanNeutral_append (hp x (by simp)) hsep)
        (scanNeutral_intercalate sep hsep (y :: t) (fun p hmem => hp p (by simp [hmem])))

theorem scanNeutral_spaces (n : Nat) : ScanNeutral (spaces n) := by
  apply scanNeutral_of_forall
  intro c hc
  simp only [spaces, List.mem_replicate] at hc
  obtain ⟨-, rfl⟩ := hc
  refine ⟨?_, ?_, ?_, ?_, ?_, ?_⟩ <;> decide

theorem scanNeutral_wordList {l : List Char} (h : ∀ c ∈ l, isWordChar c = true) :
    ScanNeutral l :=
  scanNeutral_of_forall (fun c hc => isWordChar_specials (h c hc))

theorem scanNeutral_unquoted {s : String} (hq : quoteTriggered s = false)
    (hu : safeUnquoted s = true) : ScanNeutral s.data := by
  apply scanNeutral_of_forall
  intro c hc
  obtain ⟨hall, _⟩ := safeUnquoted_facts hu
  obtain ⟨hqall, _⟩ := quoteTriggered_false hq
  have h1 := hall c hc
  have h2 := hqall c hc
  exact ⟨h2.2.2.2.2.2.2.2, h1.2.2, h2.2.2.2.1, h2.2.2.2.2.1, h2.2.2.2.2.2.1,
    h2.2.2.2.2.2.2.1⟩

theorem scanNeutral_int (n : Int) : ScanNeutral (pyIntToStr n) := by
  apply scanNeutral_of_forall
  intro c hc
  rcases pyIntToStr_chars n c hc with h | h
  · exact digit_not_special h
  · subst h
    refine ⟨?_, ?_, ?_, ?_, ?_, ?_⟩ <;> decide

theorem scanNeutral_sep_space : ScanNeutral [' '] := by
  apply scanNeutral_of_forall
  intro c hc
  simp only [List.mem_singleton] at hc
  subst hc
  refine ⟨?_, ?_, ?_, ?_, ?_, ?_⟩ <;> decide

theorem scanNeutral_sep_nl : ScanNeutral ['\n'] := by
  apply scanNeutral_of_forall
  intro c hc
  simp only [List.mem_singleton] at hc
  subst hc
  refine ⟨?_, ?_, ?_, ?_, ?_, ?_⟩ <;> decide

theorem scanNeutral_sep_comma : ScanNeutral [','] := by
  apply scanNeutral_of_forall
  intro c hc
  simp only [List.mem_singleton] at hc
  subst hc
  refine ⟨?_, ?_, ?_, ?_, ?_, ?_⟩ <;> decide

theorem scanNeutral_sep_comma_nl : ScanNeutral [',', '\n'] := by
  apply scanNeutral_of_forall
  intro c hc
  simp only [List.mem_cons, List.not_mem_nil, or_false] at hc
  rcases hc with rfl | rfl
  · refine ⟨?_, ?_, ?_, ?_, ?_, ?_⟩ <;> decide
  · refine ⟨?_, ?_, ?_, ?_, ?_, ?_⟩ <;> decide

theorem scanNeutral_colon : ScanNeutral [':'] := by
  apply scanNeutral_of_forall
  intro c hc
  simp only [List.mem_singleton] at hc
  subst hc
  refine ⟨?_, ?_, ?_, ?_, ?_, ?_⟩ <;> decide

mutual

theorem scanNeutral_serVal : ∀ (v : ToonVal) (ind : Nat) (cm : Bool),
    isSafeVal v = true → ScanNeutral (serializeValue v ind cm)
  | .vnull, _, _ => fun h => absurd rfl (isSafeVal_not_null_float _ h).1
  | .vfloat lit, _, _ => fun h => absurd rfl ((isSafeVal_not_null_float _ h).2 lit)
  | .vbool b, ind, cm => fun _ => by
      cases b
      · rw [show serializeValue (.vbool false) ind cm = "false".data from rfl]
        apply scanNeutral_of_forall
        decide
      · rw [show serializeValue (.vbool true) ind cm = "true".data from rfl]
        apply scanNeutral_of_forall
        decide
  | .vint n, ind, cm => fun _ => by
      rw [show serializeValue (.vint n) ind cm = pyIntToStr n from rfl]
      exact scanNeutral_int n
  | .vstr s, ind, cm => fun h => by
      rw [show isSafeVal (.vstr s) = isSafeStr s from rfl] at h
      rw [serializeValue_vstr]
      by_cases hq : quoteTriggered s
      · rw [if_pos hq]
        exact scanNeutral_quoted s.data
      · rw [if_neg hq]
        have hu : safeUnquoted s = true := by
          simp only [isSafeStr, Bool.or_eq_true] at h
          rcases h with h | h
          · exact absurd h (by simp [hq])
          · exact h
        exact scanNeutral_unquoted (by simp [hq]) hu
  | .varr items, ind, cm => fun h => by
      rw [isSafeVal_varr] at h
      rw [serializeValue_varr]
      by_cases he : items.isEmpty
      · rw [if_pos he]
        rw [show ("[]".data : List Char) = '[' :: ([] ++ [']']) from rfl]
        exact scanNeutral_bracketed scanNeutral_nil
      · rw [if_neg he]
        by_cases hm : (cm || !(items.any isComplexVal)) = true
        · rw [if_pos hm]
          exact scanNeutral_bracketed
            (scanNeutral_intercalate [','] scanNeutral_sep_comma _
              (scanNeutral_arrItems items ind h))
        · rw [if_neg hm]
          have hinner : ScanNeutral ('\n' :: (intercalateL [',', '\n']
              (serializeArrItemsIndented items (ind + 2)) ++ '\n' :: spaces ind)) := by
            have := scanNeutral_append scanNeutral_sep_nl
              (scanNeutral_append
                (scanNeutral_intercalate [',', '\n'] scanNeutral_sep_comma_nl _
                  (scanNeutral_arrItemsInd items (ind + 2) h))
                (scanNeutral_append scanNeutral_sep_nl (scanNeutral_spaces ind)))
            simpa using this
          have hsh : '[' :: '\n' :: (intercalateL [',', '\n']
              (serializeArrItemsIndented items (ind + 2)) ++
              '\n' :: (spaces ind ++ [']'])) =
              '[' :: (('\n' :: (intercalateL [',', '\n']
                (serializeArrItemsIndented items (ind + 2)) ++ '\n' :: spaces ind)) ++ [']']) := by
            simp
          rw [hsh]
          exact scanNeutral_bracketed hinner
  | .vobj fields, ind, cm => fun h => by
      rw [isSafeVal_vobj] at h
      cases htv : lookupVal fields "_type" with
      | none =>
          rw [serializeValue_vobj_untagged fields ind cm htv]
          cases cm
          · have hinner : ScanNeutral ('\n' :: (intercalateL ['\n']
                (serializeObjParts fields (ind + 2) false) ++ '\n' :: spaces ind)) := by
              have := scanNeutral_append scanNeutral_sep_nl
                (scanNeutral_append
                  (scanNeutral_intercalate ['\n'] scanNeutral_sep_nl _
                    (scanNeutral_objParts fields (ind + 2) false h))
                  (scanNeutral_append scanNeutral_sep_nl (scanNeutral_spaces ind)))
              simpa using this
            have hsh : '\x7b' :: '\n' :: (intercalateL ['\n']
                (serializeObjParts fields (ind + 2) false) ++
                '\n' :: (spaces ind ++ ['\x7d'])) =
                '\x7b' :: (('\n' :: (intercalateL ['\n']
                  (serializeObjParts fields (ind + 2) false) ++ '\n' :: spaces ind)) ++ ['\x7d']) := by
              simp
            rw [hsh]
            exact scanNeutral_braced hinner
          · exact scanNeutral_braced
              (scanNeutral_intercalate [' '] scanNeutral_sep_space _
                (scanNeutral_objParts fields (ind + 2) true h))
      | some tv =>
          obtain ⟨t, rfl, hwt⟩ := isSafeObj_lookup_type h tv htv
          rw [serializeValue_vobj_tagged fields ind cm _ htv (pyTruthy_wordStr hwt)]
          have htag : ScanNeutral (tagString (.vstr t)) := by
            rw [show tagString (.vstr t) = t.data from rfl]
            apply scanNeutral_wordList
            intro c hc
            simp only [isWordStr, Bool.and_eq_true, List.all_eq_true] at hwt
            exact hwt.2 c hc
          cases cm
          · have hinner : ScanNeutral ('\n' :: (intercalateL ['\n']
                (serializeObjParts fields (ind + 2) false) ++ '\n' :: spaces ind)) := by
              have := scanNeutral_append scanNeutral_sep_nl
                (scanNeutral_append
                  (scanNeutral_intercalate ['\n'] scanNeutral_sep_nl _
                    (scanNeutral_objParts fields (ind + 2) false h))
                  (scanNeutral_append scanNeutral_sep_nl (scanNeutral_spaces ind)))
              simpa using this
            have hsh : '@' :: (tagString (.vstr t) ++ '\x7b' :: '\n' ::
                intercalateL ['\n'] (serializeObjParts fields (ind + 2) false) ++
                '\n' :: (spaces ind ++ ['\x7d'])) =
                ['@'] ++ (tagString (.vstr t) ++
                  ('\x7b' :: (('\n' :: (intercalateL ['\n']
                    (serializeObjParts fields (ind + 2) false) ++ '\n' :: spaces ind)) ++ ['\x7d']))) := by
              simp
            rw [hsh]
            exact scanNeutral_append (scanNeutral_of_forall (by decide))
              (scanNeutral_append htag (scanNeutral_braced hinner))
          · have hsh : '@' :: (tagString (.vstr t) ++ '\x7b' ::
                intercalateL [' '] (serializeObjParts fields (ind + 2) true) ++ ['\x7d']) =
                ['@'] ++ (tagString (.vstr t) ++
                  ('\x7b' :: (intercalateL [' '] (serializeObjParts fields (ind + 2) true) ++ ['\x7d']))) := by
              simp
            rw [hsh]
            exact scanNeutral_append (scanNeutral_of_forall (by decide))
              (scanNeutral_append htag
                (scanNeutral_braced
                  (scanNeutral_intercalate [' '] scanNeutral_sep_space _
                    (scanNeutral_objParts fields (ind + 2) true h))))

theorem scanNeutral_objParts : ∀ (fields : Obj) (ind : Nat) (cm : Bool),
    isSafeObj fields = true → ∀ p ∈ serializeObjParts fields ind cm, ScanNeutral p
  | [], _, _ => fun _ p hp => by
      rw [show serializeObjParts [] _ _ = ([] : List (List Char)) from rfl] at hp
      simp at hp
  | (k, v) :: rest, ind, cm => fun h p hp => by
      rw [serializeObjParts_cons] at hp
      by_cases hk : k = "_type"
      · rw [if_pos hk] at hp
        rw [isSafeObj_cons, if_pos hk] at h
        simp only [Bool.and_eq_true, List.isEmpty_iff] at h
        rw [h.2] at hp
        rw [show serializeObjParts [] ind cm = ([] : List (List Char)) from rfl] at hp
        simp at hp
      · rw [if_neg hk] at hp
        rw [isSafeObj_cons, if_neg hk] at h
        simp only [Bool.and_eq_true, Bool.not_eq_true'] at h
        obtain ⟨⟨⟨hw, hv⟩, _⟩, hrest⟩ := h
        have hpart : ScanNeutral (if cm then k.data ++ ':' :: serializeValue v ind cm
            else spaces ind ++ (k.data ++ ':' :: serializeValue v ind cm)) := by
          have hbase : ScanNeutral (k.data ++ ':' :: serializeValue v ind cm) := by
            have hkw : ScanNeutral k.data := by
              apply scanNeutral_wordList
              intro c hc
              simp only [isWordStr, Bool.and_eq_true, List.all_eq_true] at hw
              exact hw.2 c hc
            have := scanNeutral_append hkw
              (scanNeutral_append scanNeutral_colon (scanNeutral_serVal v ind cm hv))
            simpa using this
          cases cm
          · simpa using scanNeutral_append (scanNeutral_spaces ind) hbase
          · simpa using hbase
        rcases isSafeVal_not_null_float v hv with ⟨hnn, _⟩
        cases v with
        | vnull => exact absurd rfl hnn
        | vbool b =>
            simp only [List.mem_cons] at hp
            rcases hp with rfl | hp
            · exact hpart
            · exact scanNeutral_objParts rest ind cm hrest p hp
        | vint m =>
            simp only [List.mem_cons] at hp
            rcases hp with rfl | hp
            · exact hpart
            · exact scanNeutral_objParts rest ind cm hrest p hp
        | vfloat lit =>
            simp only [List.mem_cons] at hp
            rcases hp with rfl | hp
            · exact hpart
            · exact scanNeutral_objParts rest ind cm hrest p hp
        | vstr s =>
            simp only [List.mem_cons] at hp
            rcases hp with rfl | hp
            · exact hpart
            · exact scanNeutral_objParts rest ind cm hrest p hp
        | varr l =>
            simp only [List.mem_cons] at hp
            rcases hp with rfl | hp
            · exact hpart
            · exact scanNeutral_objParts rest ind cm hrest p hp
        | vobj o =>
            simp only [List.mem_cons] at hp
            rcases hp with rfl | hp
            · exact hpart
            · exact scanNeutral_objParts rest ind cm hrest p hp

theorem scanNeutral_arrItems : ∀ (items : List ToonVal) (ind : Nat),
    isSafeItems items = true → ∀ p ∈ serializeArrItems items ind, ScanNeutral p
  | [], _ => fun _ p hp => by
      rw [show serializeArrItems [] _ = ([] : List (List Char)) from rfl] at hp
      simp at hp
  | v :: rest, ind => fun h p hp => by
      rw [isSafeItems_cons] at h
      simp only [Bool.and_eq_true] at h
      rw [serializeArrItems_cons] at hp
      simp only [List.mem_cons] at hp
      rcases hp with rfl | hp
      · exact scanNeutral_serVal v ind true h.1
      · exact scanNeutral_arrItems rest ind h.2 p hp

theorem scanNeutral_arrItemsInd : ∀ (items : List ToonVal) (ind : Nat),
    isSafeItems items = true → ∀ p ∈ serializeArrItemsIndented items ind, ScanNeutral p
  | [], _ => fun _ p hp => by
      rw [show serializeArrItemsIndented [] _ = ([] : List (List Char)) from rfl] at hp
      simp at hp
  | v :: rest, ind => fun h p hp => by
      rw [isSafeItems_cons] at h
      simp only [Bool.and_eq_true] at h
      rw [serializeArrItemsIndented_cons] at hp
      simp only [List.mem_cons] at hp
      rcases hp with rfl | hp
      · exact scanNeutral_append (scanNeutral_spaces ind)
          (scanNeutral_serVal v ind false h.1)
      · exact scanNeutral_arrItemsInd rest ind h.2 p hp

end



/-! ## One-step equations for the fueled parsers -/

theorem parseValueAt_succ (fuel : Nat) (cs0 : List Char) :
    parseValueAt (fuel + 1) cs0 =
      match skipLoopWS cs0 with
      | [] => .ok (.vnull, [])
      | c :: rest =>
          if c = '@' then
            match rest.takeWhile isWordChar,
                ((rest.drop (rest.takeWhile isWordChar).length).dropWhile isReWS) with
            | _ :: _, '\x7b' :: body0 =>
                match findMatchingBrace body0 with
                | some (inner, rest2) => do
                    let obj ← parseObjLoop fuel (pyStrip inner) []
                    .ok (.vobj (insertOrReplace obj "_type"
                      (.vstr (String.mk (rest.takeWhile isWordChar)))), rest2)
                | none => .error "Unmatched brace"
            | _, _ => parseToken cs0 (skipLoopWS cs0)
          else if c = '\x7b' then
            match findMatchingBrace rest with
            | some (inner, rest2) => do
                let obj ← parseObjLoop fuel (pyStrip inner) []
                .ok (.vobj obj, rest2)
            | none => .error "Unmatched brace"
          else if c = '[' then
            match findMatchingBracket rest with
            | some (inner, rest2) => do
                let items ← parseArrLoop fuel (pyStrip inner) []
                .ok (.varr items, rest2)
            | none => .error "Unmatched bracket"
          else if c = '"' then
            match findStringEnd '"' rest with
            | some (raw, rest2) => .ok (.vstr (String.mk (unescDq raw)), rest2)
            | none => .error "Unterminated string"
          else if c = squoteC then
            match findStringEnd squoteC rest with
            | some (raw, rest2) => .ok (.vstr (String.mk (unescSq raw)), rest2)
            | none => .error "Unterminated string"
          else parseToken cs0 (skipLoopWS cs0) := by
  rw [parseValueAt.eq_def]

theorem parseObjLoop_succ (fuel : Nat) (cs : List Char) (acc : Obj) :
    parseObjLoop (fuel + 1) cs acc =
      match skipLoopWS cs with
      | [] => .ok acc
      | _ :: rest =>
          match (skipLoopWS cs).takeWhile isWordChar,
              (((skipLoopWS cs).drop ((skipLoopWS cs).takeWhile isWordChar).length).dropWhile isReWS) with
          | _ :: _, ':' :: afterColon => do
              let (v, rest2) ← parseValueAt fuel (skipLoopWS afterColon)
              parseObjLoop fuel (skipLoopWSComma rest2)
                (insertOrReplace acc (String.mk ((skipLoopWS cs).takeWhile isWordChar)) v)
          | _, _ => parseObjLoop fuel rest acc := by
  rw [parseObjLoop.eq_def]

theorem parseArrLoop_succ (fuel : Nat) (cs : List Char) (acc : List ToonVal) :
    parseArrLoop (fuel + 1) cs acc =
      (match skipLoopWS cs with
      | [] => .ok acc
      | _ :: _ => do
          let (v, rest) ← parseValueAt fuel (skipLoopWS cs)
          if rest.length < (skipLoopWS cs).length then
            parseArrLoop fuel (skipLoopWSComma rest) (acc ++ [v])
          else
            parseArrLoop fuel (skipLoopWSComma (skipLoopWS cs).tail) acc) := by
  rw [parseArrLoop.eq_def]

theorem skipLoopWS_idem (cs : List Char) :
    skipLoopWS (skipLoopWS cs) = skipLoopWS cs :=
  dropWhile_eq_self_of_head _ (head_dropWhile_not _ _)

theorem parseObjLoop_congr {a b : List Char} (h : skipLoopWS a = skipLoopWS b)
    (fuel : Nat) (acc : Obj) :
    parseObjLoop (fuel + 1) a acc = parseObjLoop (fuel + 1) b acc := by
  rw [parseObjLoop_succ, parseObjLoop_succ, h]

theorem parseArrLoop_congr {a b : List Char} (h : skipLoopWS a = skipLoopWS b)
    (fuel : Nat) (acc : List ToonVal) :
    parseArrLoop (fuel + 1) a acc = parseArrLoop (fuel + 1) b acc := by
  rw [parseArrLoop_succ, parseArrLoop_succ, h]

/-! ## Token scanning support -/

theorem isTokenChar_not_reWS {c : Char} (h : isTokenChar c = true) :
    isReWS c = false := by
  simp only [isTokenChar, Bool.not_eq_true', Bool.or_eq_false_iff] at h
  exact h.1.1.1

theorem isTokenChar_facts {c : Char} (h : isTokenChar c = true) :
    isReWS c = false ∧ c ≠ ',' ∧ c ≠ '\x7d' ∧ c ≠ ']' := by
  simp only [isTokenChar, Bool.not_eq_true', Bool.or_eq_false_iff,
    decide_eq_false_iff_not] at h
  exact ⟨h.1.1.1, h.1.1.2, h.1.2, h.2⟩

theorem isWordChar_isTokenChar {c : Char} (h : isWordChar c = true) :
    isTokenChar c = true := by
  have hs := isWordChar_specials h
  have hw := isWordChar_not_reWS h
  simp [isTokenChar, hw, hs.2.2.2.1, hs.2.2.2.2.2]
  intro he
  subst he
  exact absurd h (by decide)

theorem drop_takeWhile_length (p : Char → Bool) (l : List Char) :
    l.drop (l.takeWhile p).length = l.dropWhile p := by
  induction l with
  | nil => rfl
  | cons c t ih =>
      by_cases hc : p c
      · rw [List.takeWhile_cons_of_pos hc, List.dropWhile_cons_of_pos hc]
        simpa using ih
      · rw [List.takeWhile_cons_of_neg hc, List.dropWhile_cons_of_neg hc]
        rfl

theorem dropWhile_append_cases (p : Char → Bool) (a b : List Char) :
    (a ++ b).dropWhile p = a.dropWhile p ++ b ∨
    (a.dropWhile p = [] ∧ (a ++ b).dropWhile p = b.dropWhile p) := by
  induction a with
  | nil => exact Or.inr ⟨rfl, rfl⟩
  | cons c t ih =>
      by_cases hc : p c
      · rw [List.cons_append, List.dropWhile_cons_of_pos hc,
          List.dropWhile_cons_of_pos hc]
        exact ih
      · rw [List.cons_append, List.dropWhile_cons_of_neg hc,
          List.dropWhile_cons_of_neg hc]
        exact Or.inl rfl



theorem parseValueAt_cons (fuel : Nat) (cs0 : List Char) (c : Char) (rest : List Char)
    (h : skipLoopWS cs0 = c :: rest) :
    parseValueAt (fuel + 1) cs0 =
      (if c = '@' then
        match rest.takeWhile isWordChar,
            ((rest.drop (rest.takeWhile isWordChar).length).dropWhile isReWS) with
        | _ :: _, '\x7b' :: body0 =>
            match findMatchingBrace body0 with
            | some (inner, rest2) => do
                let obj ← parseObjLoop fuel (pyStrip inner) []
                .ok (.vobj (insertOrReplace obj "_type"
                  (.vstr (String.mk (rest.takeWhile isWordChar)))), rest2)
            | none => .error "Unmatched brace"
        | _, _ => parseToken cs0 (c :: rest)
      else if c = '\x7b' then
        match findMatchingBrace rest with
        | some (inner, rest2) => do
            let obj ← parseObjLoop fuel (pyStrip inner) []
            .ok (.vobj obj, rest2)
        | none => .error "Unmatched brace"
      else if c = '[' then
        match findMatchingBracket rest with
        | some (inner, rest2) => do
            let items ← parseArrLoop fuel (pyStrip inner) []
            .ok (.varr items, rest2)
        | none => .error "Unmatched bracket"
      else if c = '"' then
        match findStringEnd '"' rest with
        | some (raw, rest2) => .ok (.vstr (String.mk (unescDq raw)), rest2)
        | none => .error "Unterminated string"
      else if c = squoteC then
        match findStringEnd squoteC rest with
        | some (raw, rest2) => .ok (.vstr (String.mk (unescSq raw)), rest2)
        | none => .error "Unterminated string"
      else parseToken cs0 (c :: rest)) := by
  rw [parseValueAt_succ, h]

theorem parseObjLoop_cons (fuel : Nat) (cs : List Char) (acc : Obj) (c : Char)
    (rest : List Char) (h : skipLoopWS cs = c :: rest) :
    parseObjLoop (fuel + 1) cs acc =
      (match (c :: rest).takeWhile isWordChar,
          (((c :: rest).drop ((c :: rest).takeWhile isWordChar).length).dropWhile isReWS) with
      | _ :: _, ':' :: afterColon => do
          let (v, rest2) ← parseValueAt fuel (skipLoopWS afterColon)
          parseObjLoop fuel (skipLoopWSComma rest2)
            (insertOrReplace acc (String.mk ((c :: rest).takeWhile isWordChar)) v)
      | _, _ => parseObjLoop fuel rest acc) := by
  rw [parseObjLoop_succ, h]

theorem parseObjLoop_nil (fuel : Nat) (cs : List Char) (acc : Obj)
    (h : skipLoopWS cs = []) :
    parseObjLoop (fuel + 1) cs acc = .ok acc := by
  rw [parseObjLoop_succ, h]

theorem parseArrLoop_cons (fuel : Nat) (cs : List Char) (acc : List ToonVal)
    (c : Char) (rest : List Char) (h : skipLoopWS cs = c :: rest) :
    parseArrLoop (fuel + 1) cs acc =
      (do
        let (v, rest2) ← parseValueAt fuel (c :: rest)
        if rest2.length < (c :: rest).length then
          parseArrLoop fuel (skipLoopWSComma rest2) (acc ++ [v])
        else
          parseArrLoop fuel (skipLoopWSComma rest) acc) := by
  rw [parseArrLoop_succ, h]
  rfl

theorem parseArrLoop_nil (fuel : Nat) (cs : List Char) (acc : List ToonVal)
    (h : skipLoopWS cs = []) :
    parseArrLoop (fuel + 1) cs acc = .ok acc := by
  rw [parseArrLoop_succ, h]



/-! ## Parsing a serialized scalar token -/

theorem parseToken_run (cs0 : List Char) (tok rest : List Char)
    (hne : tok ≠ [])
    (htok : ∀ c ∈ tok, isTokenChar c = true)
    (hrest : ∀ c, rest.head? = some c → isTokenChar c = false) :
    parseToken cs0 (tok ++ rest) = .ok (pyParseScalar tok, rest) := by
  have htw : (tok ++ rest).takeWhile isTokenChar = tok :=
    takeWhile_append_run _ _ htok hrest
  cases tok with
  | nil => exact absurd rfl hne
  | cons c0 tok' =>
      simp only [parseToken, htw]
      rw [show ((c0 :: tok') ++ rest).drop (c0 :: tok').length = rest from
        List.drop_left _ _]

theorem parseValueAt_token (fuel : Nat) (tok rest : List Char)
    (hne : tok ≠ [])
    (htok : ∀ c ∈ tok, isTokenChar c = true)
    (hspec : ∀ c ∈ tok, c ≠ '\x7b' ∧ c ≠ '[' ∧ c ≠ '"' ∧ c ≠ squoteC)
    (hbr : BoundaryRest rest) :
    parseValueAt (fuel + 1) (tok ++ rest) = .ok (pyParseScalar tok, rest) := by
  cases tok with
  | nil => exact absurd rfl hne
  | cons c0 tok' =>
      have h0 := htok c0 (by simp)
      have h0s := hspec c0 (by simp)
      have hskip : skipLoopWS ((c0 :: tok') ++ rest) = c0 :: (tok' ++ rest) := by
        rw [List.cons_append]
        exact skipLoopWS_cons_not c0 _ (not_reWS_not_loopWS (isTokenChar_not_reWS h0))
      have hrest_head_word : ∀ c, rest.head? = some c → isWordChar c = false := by
        intro c hc
        cases hb2 : isWordChar c
        · rfl
        · have := hbr.1 c hc
          rw [isWordChar_isTokenChar hb2] at this
          simp at this
      have htokp : parseToken ((c0 :: tok') ++ rest) (c0 :: (tok' ++ rest)) =
          .ok (pyParseScalar (c0 :: tok'), rest) := by
        rw [show c0 :: (tok' ++ rest) = (c0 :: tok') ++ rest from rfl]
        exact parseToken_run _ _ _ hne htok hbr.1
      rw [parseValueAt_cons fuel _ c0 (tok' ++ rest) hskip]
      by_cases hat : c0 = '@'
      · rw [if_pos hat]
        have hafter : ∀ c, (((tok' ++ rest).drop
            ((tok' ++ rest).takeWhile isWordChar).length).dropWhile isReWS).head? =
            some c → c ≠ '\x7b' := by
          rw [drop_takeWhile_length]
          have hres : ∀ c, (rest.dropWhile isReWS).head? = some c → c ≠ '\x7b' := hbr.2
          rcases dropWhile_append_cases isWordChar tok' rest with hc | ⟨hnil, hc⟩
          · rw [hc]
            cases hdw : tok'.dropWhile isWordChar with
            | nil =>
                rw [List.nil_append]
                exact hres
            | cons d ds =>
                have hdmem : d ∈ tok' :=
                  (List.dropWhile_sublist isWordChar).mem (by rw [hdw]; simp)
                have hdtok : isTokenChar d = true := htok d (by simp [hdmem])
                rw [List.cons_append,
                  List.dropWhile_cons_of_neg (by simp [isTokenChar_not_reWS hdtok])]
                intro c hcc
                simp only [List.head?_cons, Option.some.injEq] at hcc
                subst hcc
                exact (hspec d (by simp [hdmem])).1
          · rw [hc, dropWhile_eq_self_of_head rest hrest_head_word]
            exact hres
        split
        · rename_i heq1 heq2
          exact absurd rfl (hafter '\x7b' (by rw [heq2]; rfl))
        · exact htokp
      · rw [if_neg hat, if_neg h0s.1, if_neg h0s.2.1, if_neg h0s.2.2.1,
          if_neg h0s.2.2.2]
        exact htokp


/-! ## Structure of serialized object bodies -/

theorem boundaryRest_nil : BoundaryRest [] := ⟨by simp, by simp⟩

theorem hasKeyB_false_mem {l : Obj} {k : String} (h : hasKeyB l k = false) :
    ∀ k2 v2, (k2, v2) ∈ l → k2 ≠ k := by
  induction l with
  | nil => simp
  | cons p t ih =>
      cases p with
      | mk k' v' =>
          simp only [hasKeyB, Bool.or_eq_false_iff, decide_eq_false_iff_not] at h
          intro k2 v2 hmem
          rcases List.mem_cons.mp hmem with he | hm
          · injection he with he1 he2
            subst he1
            exact h.1
          · exact ih h.2 k2 v2 hm

theorem skipLoopWSComma_eq_skipLoopWS (X : List Char)
    (h : ∀ c, (skipLoopWS X).head? = some c → c ≠ ',') :
    skipLoopWSComma X = skipLoopWS X := by
  induction X with
  | nil => rfl
  | cons c t ih =>
      by_cases hc : isLoopWS c
      · rw [show skipLoopWSComma (c :: t) = skipLoopWSComma t by
          exact List.dropWhile_cons_of_pos (by simp [hc])]
        rw [show skipLoopWS (c :: t) = skipLoopWS t from
          List.dropWhile_cons_of_pos hc]
        rw [show skipLoopWS (c :: t) = skipLoopWS t from
          List.dropWhile_cons_of_pos hc] at h
        exact ih h
      · have hcm : c ≠ ',' := by
          apply h
          rw [skipLoopWS_cons_not c t (by simp [hc])]
          rfl
        rw [show skipLoopWSComma (c :: t) = c :: t from
          List.dropWhile_cons_of_neg (by simp [hc, hcm])]
        rw [skipLoopWS_cons_not c t (by simp [hc])]

theorem serializeObjParts_cons_emit (k : String) (v : ToonVal) (rest : Obj)
    (ind : Nat) (cm : Bool) (hk : k ≠ "_type") (hv : v ≠ .vnull) :
    serializeObjParts ((k, v) :: rest) ind cm =
      (if cm then k.data ++ ':' :: serializeValue v ind cm
       else spaces ind ++ (k.data ++ ':' :: serializeValue v ind cm))
        :: serializeObjParts rest ind cm := by
  rw [serializeObjParts_cons, if_neg hk]
  cases v with
  | vnull => exact absurd rfl hv
  | vbool b => rfl
  | vint n => rfl
  | vfloat lit => rfl
  | vstr s => rfl
  | varr l => rfl
  | vobj o => rfl

theorem intercalate_cons_exists (sep : List Char) (x : List Char)
    (xs : List (List Char)) :
    ∃ Z, intercalateL sep (x :: xs) = x ++ Z := by
  cases xs with
  | nil => exact ⟨[], by simp [intercalateL]⟩
  | cons y t => exact ⟨sep ++ intercalateL sep (y :: t), by simp [intercalateL]⟩

theorem isWordStr_data {k : String} (h : isWordStr k = true) :
    k.data ≠ [] ∧ ∀ c ∈ k.data, isWordChar c = true := by
  simp only [isWordStr, Bool.and_eq_true, Bool.not_eq_true', List.isEmpty_eq_false,
    List.all_eq_true] at h
  exact h

theorem objBodyL_last (core : Obj) (ind : Nat) (cm : Bool)
    (hsafe : isSafeObj core = true) (hnt : hasKeyB core "_type" = false) :
    ∀ c, (objBodyL core ind cm).getLast? = some c → isReWS c = false := by
  induction core with
  | nil => simp [objBodyL, serializeObjParts, intercalateL]
  | cons p rest ih =>
      cases p with
      | mk k v =>
          simp only [hasKeyB, Bool.or_eq_false_iff, decide_eq_false_iff_not] at hnt
          rw [isSafeObj_cons, if_neg hnt.1] at hsafe
          simp only [Bool.and_eq_true, Bool.not_eq_true'] at hsafe
          obtain ⟨⟨⟨hw, hv⟩, _⟩, hrest⟩ := hsafe
          have hvnn : v ≠ .vnull := (isSafeVal_not_null_float v hv).1
          obtain ⟨hser_ne, _, hser_last⟩ := serializeValue_shape v ind cm hv
          have hpart_last : ∀ (A : List Char) c,
              (A ++ (k.data ++ ':' :: serializeValue v ind cm)).getLast? = some c →
              isReWS c = false := by
            intro A c hc
            rw [List.getLast?_append_of_ne_nil _ (by simp),
              List.getLast?_append_of_ne_nil _ (by simp),
              getLast?_cons_ne hser_ne] at hc
            exact hser_last c hc
          have hifL : ∀ c, ((if cm then k.data ++ ':' :: serializeValue v ind cm
              else spaces ind ++ (k.data ++ ':' :: serializeValue v ind cm))).getLast? =
              some c → isReWS c = false := by
            cases cm
            · exact fun c hc => hpart_last (spaces ind) c hc
            · exact fun c hc => hpart_last [] c hc
          intro c hc
          rw [objBodyL, serializeObjParts_cons_emit k v rest ind cm hnt.1 hvnn] at hc
          cases hparts : serializeObjParts rest ind cm with
          | nil =>
              rw [hparts, show intercalateL (objSepL cm)
                [(if cm then k.data ++ ':' :: serializeValue v ind cm
                  else spaces ind ++ (k.data ++ ':' :: serializeValue v ind cm))] =
                (if cm then k.data ++ ':' :: serializeValue v ind cm
                  else spaces ind ++ (k.data ++ ':' :: serializeValue v ind cm)) from rfl] at hc
              exact hifL c hc
          | cons p2 ps =>
              rw [hparts, show intercalateL (objSepL cm)
                  ((if cm then k.data ++ ':' :: serializeValue v ind cm
                    else spaces ind ++ (k.data ++ ':' :: serializeValue v ind cm)) :: p2 :: ps) =
                  (if cm then k.data ++ ':' :: serializeValue v ind cm
                    else spaces ind ++ (k.data ++ ':' :: serializeValue v ind cm)) ++
                    objSepL cm ++ intercalateL (objSepL cm) (p2 :: ps) from rfl] at hc
              have hbody_ne : intercalateL (objSepL cm) (p2 :: ps) ≠ [] := by
                cases rest with
                | nil =>
                    rw [show serializeObjParts [] ind cm = ([] : List (List Char))
                      from rfl] at hparts
                    simp at hparts
                | cons p3 rest2 =>
                    cases p3 with
                    | mk k3 v3 =>
                        have hnt3 : k3 ≠ "_type" :=
                          hasKeyB_false_mem (l := (k3, v3) :: rest2) hnt.2 k3 v3 (by simp)
                        rw [isSafeObj_cons, if_neg hnt3] at hrest
                        simp only [Bool.and_eq_true] at hrest
                        have hvnn3 : v3 ≠ .vnull :=
                          (isSafeVal_not_null_float v3 hrest.1.1.2).1
                        rw [serializeObjParts_cons_emit k3 v3 rest2 ind cm hnt3 hvnn3] at hparts
                        injection hparts with hp1 hp2
                        obtain ⟨Z, hZ⟩ := intercalate_cons_exists (objSepL cm) p2 ps
                        have hp2ne : p2 ≠ [] := by
                          rw [← hp1]
                          cases cm <;> simp
                        rw [hZ]
                        simp [hp2ne]
              rw [List.append_assoc,
                List.getLast?_append_of_ne_nil _ (by simp [hbody_ne]),
                List.getLast?_append_of_ne_nil _ hbody_ne] at hc
              have := ih hrest hnt.2
              rw [objBodyL, hparts] at this
              exact this c hc


/-! ## Parsing a serialized quoted string -/

theorem parseValueAt_quoted (fuel : Nat) (s : String) (rest : List Char) :
    parseValueAt (fuel + 1) (('"' :: (escDq s.data ++ ['"'])) ++ rest) =
      .ok (.vstr s, rest) := by
  have hskip : skipLoopWS (('"' :: (escDq s.data ++ ['"'])) ++ rest) =
      '"' :: ((escDq s.data ++ ['"']) ++ rest) := by
    rw [List.cons_append]
    exact skipLoopWS_cons_not _ _ (by decide)
  rw [parseValueAt_cons fuel _ '"' _ hskip]
  rw [if_neg (by decide), if_neg (by decide), if_neg (by decide), if_pos rfl]
  rw [show (escDq s.data ++ ['"']) ++ rest = escDq s.data ++ '"' :: rest by simp]
  rw [findStringEnd_escDq]
  rw [show (match (some (escDq s.data, rest) : Option (List Char × List Char)) with
      | some (raw, rest2) => Except.ok (ToonVal.vstr (String.mk (unescDq raw)), rest2)
      | none => Except.error "Unterminated string") =
      Except.ok (ToonVal.vstr (String.mk (unescDq (escDq s.data))), rest) from rfl]
  rw [unescDq_escDq, string_mk_data]

/-! ## The member and element steps of the scanning loops -/

theorem parseObjLoop_step (fuel : Nat) (pre : List Char) (k : String) (v : ToonVal)
    (ind : Nat) (cm : Bool) (tail : List Char) (acc : Obj)
    (hpre : ∀ c ∈ pre, isLoopWS c = true)
    (hw : isWordStr k = true)
    (hv : isSafeVal v = true)
    (hval : parseValueAt fuel (serializeValue v ind cm ++ tail) = .ok (v, tail)) :
    parseObjLoop (fuel + 1)
      (pre ++ (k.data ++ ':' :: (serializeValue v ind cm ++ tail))) acc =
      parseObjLoop fuel (skipLoopWSComma tail) (insertOrReplace acc k v) := by
  obtain ⟨hkne, hkall⟩ := isWordStr_data hw
  obtain ⟨hser_ne, hser_head, _⟩ := serializeValue_shape v ind cm hv
  obtain ⟨kc, ks, hkd⟩ : ∃ kc ks, k.data = kc :: ks := by
    cases hkk : k.data with
    | nil => exact absurd hkk hkne
    | cons a b => exact ⟨a, b, rfl⟩
  rw [hkd]
  have hkcw : isWordChar kc = true := hkall kc (by simp [hkd])
  have hskip : skipLoopWS (pre ++ ((kc :: ks) ++ ':' :: (serializeValue v ind cm ++ tail))) =
      kc :: (ks ++ ':' :: (serializeValue v ind cm ++ tail)) := by
    rw [skipLoopWS_ws_append pre _ hpre, List.cons_append]
    exact skipLoopWS_cons_not _ _ (not_reWS_not_loopWS (isWordChar_not_reWS hkcw))
  rw [parseObjLoop_cons fuel _ acc kc (ks ++ ':' :: (serializeValue v ind cm ++ tail)) hskip]
  have hw1 : (kc :: (ks ++ ':' :: (serializeValue v ind cm ++ tail))).takeWhile
      isWordChar = kc :: ks := by
    rw [show kc :: (ks ++ ':' :: (serializeValue v ind cm ++ tail)) =
      (kc :: ks) ++ ':' :: (serializeValue v ind cm ++ tail) from rfl]
    apply takeWhile_append_run
    · intro c hc
      exact hkall c (by simp [hkd, hc])
    · intro c hc
      simp only [List.head?_cons, Option.some.injEq] at hc
      subst hc
      decide
  have hw2 : ((kc :: (ks ++ ':' :: (serializeValue v ind cm ++ tail))).drop
      ((kc :: (ks ++ ':' :: (serializeValue v ind cm ++ tail))).takeWhile
        isWordChar).length).dropWhile isReWS =
      ':' :: (serializeValue v ind cm ++ tail) := by
    rw [hw1]
    rw [show kc :: (ks ++ ':' :: (serializeValue v ind cm ++ tail)) =
      (kc :: ks) ++ ':' :: (serializeValue v ind cm ++ tail) from rfl]
    rw [List.drop_left]
    exact dropWhile_eq_self_of_head _ (by
      intro c hc
      simp only [List.head?_cons, Option.some.injEq] at hc
      subst hc
      decide)
  rw [hw2, hw1]
  have hskips : skipLoopWS (serializeValue v ind cm ++ tail) =
      serializeValue v ind cm ++ tail := by
    apply dropWhile_eq_self_of_head
    intro c hc
    cases hs2 : serializeValue v ind cm with
    | nil => exact absurd hs2 hser_ne
    | cons sc st =>
        rw [hs2, List.cons_append, List.head?_cons] at hc
        simp only [Option.some.injEq] at hc
        rw [← hc]
        exact not_reWS_not_loopWS (hser_head sc (by rw [hs2]; rfl))
  split
  · rename_i heq1 heq2
    injection heq2 with heq3 heq4
    rw [← heq4, hskips, hval]
    rw [show (do
        let x ← (Except.ok (v, tail) : Except String (ToonVal × List Char))
        match x with
        | (v2, rest2) =>
            parseObjLoop fuel (skipLoopWSComma rest2)
              (insertOrReplace acc (String.mk (kc :: ks)) v2)) =
      parseObjLoop fuel (skipLoopWSComma tail)
        (insertOrReplace acc (String.mk (kc :: ks)) v) from rfl]
    rw [show String.mk (kc :: ks) = k by rw [← hkd]]
  · rename_i hno
    exact (hno kc ks (serializeValue v ind cm ++ tail) rfl rfl).elim

theorem parseArrLoop_step (fuel : Nat) (pre : List Char) (v : ToonVal) (ind : Nat)
    (cm : Bool) (tail : List Char) (acc : List ToonVal)
    (hpre : ∀ c ∈ pre, isLoopWS c = true)
    (hv : isSafeVal v = true)
    (hval : parseValueAt fuel (serializeValue v ind cm ++ tail) = .ok (v, tail)) :
    parseArrLoop (fuel + 1) (pre ++ (serializeValue v ind cm ++ tail)) acc =
      parseArrLoop fuel (skipLoopWSComma tail) (acc ++ [v]) := by
  obtain ⟨hser_ne, hser_head, _⟩ := serializeValue_shape v ind cm hv
  obtain ⟨sc, st, hs⟩ : ∃ sc st, serializeValue v ind cm = sc :: st := by
    cases hss : serializeValue v ind cm with
    | nil => exact absurd hss hser_ne
    | cons a b => exact ⟨a, b, rfl⟩
  have hscw : isReWS sc = false := hser_head sc (by rw [hs]; rfl)
  rw [hs]
  have hskip : skipLoopWS (pre ++ ((sc :: st) ++ tail)) = sc :: (st ++ tail) := by
    rw [skipLoopWS_ws_append pre _ hpre, List.cons_append]
    exact skipLoopWS_cons_not _ _ (not_reWS_not_loopWS hscw)
  rw [parseArrLoop_cons fuel _ acc sc (st ++ tail) hskip]
  have hval2 : parseValueAt fuel (sc :: (st ++ tail)) = .ok (v, tail) := by
    rw [show sc :: (st ++ tail) = (sc :: st) ++ tail from rfl, ← hs]
    exact hval
  rw [hval2]
  rw [show (do
      let x ← (Except.ok (v, tail) : Except String (ToonVal × List Char))
      match x with
      | (v2, rest2) =>
          if rest2.length < (sc :: (st ++ tail)).length then
            parseArrLoop fuel (skipLoopWSComma rest2) (acc ++ [v2])
          else
            parseArrLoop fuel (skipLoopWSComma (st ++ tail)) acc) =
    (if tail.length < (sc :: (st ++ tail)).length then
      parseArrLoop fuel (skipLoopWSComma tail) (acc ++ [v])
    else
      parseArrLoop fuel (skipLoopWSComma (st ++ tail)) acc) from rfl]
  rw [if_pos (by simp; omega)]


/-! ## Heads, tails and stripping of serialized bodies -/

theorem spaces_all_loopWS (n : Nat) : ∀ c ∈ spaces n, isLoopWS c = true := by
  intro c hc
  simp only [spaces, List.mem_replicate] at hc
  obtain ⟨-, rfl⟩ := hc
  decide

theorem boundary_comma (X : List Char) : BoundaryRest (',' :: X) := by
  constructor
  · intro c hc
    simp only [List.head?_cons, Option.some.injEq] at hc
    subst hc
    decide
  · intro c hc
    rw [List.dropWhile_cons_of_neg (by decide)] at hc
    simp only [List.head?_cons, Option.some.injEq] at hc
    subst hc
    decide

theorem pyStrip_all_ws {l : List Char} (h : ∀ c ∈ l, isStripWS c = true) :
    pyStrip l = [] := by
  unfold pyStrip
  have h1 : l.dropWhile isStripWS = [] :=
    List.dropWhile_eq_nil_iff.mpr (fun c hc => by simp [h c hc])
  rw [h1]
  rfl

theorem objBodyL_head_shape (k0 : String) (v0 : ToonVal) (rest : Obj) (ind : Nat)
    (cm : Bool) (hk : k0 ≠ "_type") (hvnn : v0 ≠ .vnull) :
    ∃ X, objBodyL ((k0, v0) :: rest) ind cm =
      (if cm then [] else spaces ind) ++ (k0.data ++ X) := by
  rw [objBodyL, serializeObjParts_cons_emit k0 v0 rest ind cm hk hvnn]
  obtain ⟨Z, hZ⟩ := intercalate_cons_exists (objSepL cm) _ (serializeObjParts rest ind cm)
  rw [hZ]
  cases cm
  · exact ⟨':' :: serializeValue v0 ind false ++ Z, by simp⟩
  · exact ⟨':' :: serializeValue v0 ind true ++ Z, by simp⟩

theorem skipLoopWS_objBody (k0 : String) (v0 : ToonVal) (rest : Obj) (ind : Nat)
    (cm : Bool) (hk : k0 ≠ "_type") (hvnn : v0 ≠ .vnull) (hw : isWordStr k0 = true) :
    ∃ X, objBodyL ((k0, v0) :: rest) ind cm =
        (if cm then [] else spaces ind) ++ (k0.data ++ X) ∧
      skipLoopWS (objBodyL ((k0, v0) :: rest) ind cm) = k0.data ++ X := by
  obtain ⟨X, hX⟩ := objBodyL_head_shape k0 v0 rest ind cm hk hvnn
  obtain ⟨hkne, hkall⟩ := isWordStr_data hw
  refine ⟨X, hX, ?_⟩
  rw [hX]
  have hpre : ∀ c ∈ (if cm then ([] : List Char) else spaces ind), isLoopWS c = true := by
    cases cm
    · exact spaces_all_loopWS ind
    · simp
  rw [skipLoopWS_ws_append _ _ hpre]
  apply dropWhile_eq_self_of_head
  intro c hc
  cases hkk : k0.data with
  | nil => exact absurd hkk hkne
  | cons kc ks =>
      rw [hkk, List.cons_append, List.head?_cons] at hc
      simp only [Option.some.injEq] at hc
      rw [← hc]
      exact not_reWS_not_loopWS (isWordChar_not_reWS (hkall kc (by simp [hkk])))

theorem boundary_sep_objBody (core : Obj) (ind : Nat) (cm : Bool)
    (hsafe : isSafeObj core = true) (hnt : hasKeyB core "_type" = false) :
    BoundaryRest (objSepL cm ++ objBodyL core ind cm) := by
  constructor
  · intro c hc
    cases cm
    · rw [show objSepL false = ['\n'] from rfl, List.cons_append, List.head?_cons] at hc
      simp only [Option.some.injEq] at hc
      subst hc
      decide
    · rw [show objSepL true = [' '] from rfl, List.cons_append, List.head?_cons] at hc
      simp only [Option.some.injEq] at hc
      subst hc
      decide
  · intro c hc
    have hsep_ws : ∀ x ∈ objSepL cm, isReWS x = true := by
      cases cm <;> decide
    rw [dropWhile_append_of_all _ _ hsep_ws] at hc
    cases core with
    | nil =>
        rw [show objBodyL [] ind cm = [] from rfl] at hc
        simp at hc
    | cons p rest =>
        cases p with
        | mk k0 v0 =>
            simp only [hasKeyB, Bool.or_eq_false_iff, decide_eq_false_iff_not] at hnt
            rw [isSafeObj_cons, if_neg hnt.1] at hsafe
            simp only [Bool.and_eq_true, Bool.not_eq_true'] at hsafe
            obtain ⟨⟨⟨hw, hv⟩, _⟩, _⟩ := hsafe
            have hvnn : v0 ≠ .vnull := (isSafeVal_not_null_float v0 hv).1
            obtain ⟨X, hX⟩ := objBodyL_head_shape k0 v0 rest ind cm hnt.1 hvnn
            rw [hX] at hc
            have hpre_ws : ∀ x ∈ (if cm then ([] : List Char) else spaces ind),
                isReWS x = true := by
              cases cm
              · intro x hx
                exact isLoopWS_reWS (spaces_all_loopWS ind x hx)
              · simp
            rw [dropWhile_append_of_all _ _ hpre_ws] at hc
            obtain ⟨hkne, hkall⟩ := isWordStr_data hw
            cases hkk : k0.data with
            | nil => exact absurd hkk hkne
            | cons kc ks =>
                rw [hkk, List.cons_append, List.dropWhile_cons_of_neg
                  (by simp [isWordChar_not_reWS (hkall kc (by simp [hkk]))])] at hc
                simp only [List.head?_cons, Option.some.injEq] at hc
                rw [← hc]
                exact (isWordChar_specials (hkall kc (by simp [hkk]))).2.2.1

theorem pyStrip_objBody_compact (core : Obj) (ind : Nat)
    (hsafe : isSafeObj core = true) (hnt : hasKeyB core "_type" = false) :
    pyStrip (objBodyL core ind true) = skipLoopWS (objBodyL core ind true) := by
  cases core with
  | nil => rfl
  | cons p rest =>
      cases p with
      | mk k0 v0 =>
          simp only [hasKeyB, Bool.or_eq_false_iff, decide_eq_false_iff_not] at hnt
          have hsafe2 := hsafe
          rw [isSafeObj_cons, if_neg hnt.1] at hsafe2
          simp only [Bool.and_eq_true, Bool.not_eq_true'] at hsafe2
          obtain ⟨⟨⟨hw, hv⟩, _⟩, _⟩ := hsafe2
          have hvnn : v0 ≠ .vnull := (isSafeVal_not_null_float v0 hv).1
          obtain ⟨X, hX, hskip⟩ := skipLoopWS_objBody k0 v0 rest ind true hnt.1 hvnn hw
          rw [hskip, hX]
          rw [show ((if true then ([] : List Char) else spaces ind) ++ (k0.data ++ X)) =
            k0.data ++ X from by simp]
          obtain ⟨hkne, hkall⟩ := isWordStr_data hw
          apply pyStrip_eq_self
          · intro x hx
            cases hkk : k0.data with
            | nil => exact absurd hkk hkne
            | cons kc ks =>
                rw [hkk, List.cons_append, List.head?_cons] at hx
                simp only [Option.some.injEq] at hx
                rw [← hx]
                exact isWordChar_not_reWS (hkall kc (by simp [hkk]))
          · intro x hx
            have hlast := objBodyL_last ((k0, v0) :: rest) ind true hsafe
              (by simp [hasKeyB, hnt.1, hnt.2])
            apply hlast
            rw [hX, show ((if true then ([] : List Char) else spaces ind) ++ (k0.data ++ X)) =
              k0.data ++ X from by simp]
            exact hx

theorem pyStrip_objBody_pretty (core : Obj) (ind indOut : Nat)
    (hsafe : isSafeObj core = true) (hnt : hasKeyB core "_type" = false) :
    pyStrip ('\n' :: (objBodyL core ind false ++ '\n' :: spaces indOut)) =
      skipLoopWS (objBodyL core ind false) := by
  cases core with
  | nil =>
      rw [show objBodyL [] ind false = [] from rfl]
      rw [pyStrip_all_ws (by
        intro c hc
        simp only [List.nil_append, List.mem_cons] at hc
        rcases hc with rfl | rfl | hc
        · decide
        · decide
        · exact isLoopWS_reWS (spaces_all_loopWS indOut c hc))]
      rfl
  | cons p rest =>
      cases p with
      | mk k0 v0 =>
          simp only [hasKeyB, Bool.or_eq_false_iff, decide_eq_false_iff_not] at hnt
          have hsafe2 := hsafe
          rw [isSafeObj_cons, if_neg hnt.1] at hsafe2
          simp only [Bool.and_eq_true, Bool.not_eq_true'] at hsafe2
          obtain ⟨⟨⟨hw, hv⟩, _⟩, _⟩ := hsafe2
          have hvnn : v0 ≠ .vnull := (isSafeVal_not_null_float v0 hv).1
          obtain ⟨X, hX, hskip⟩ := skipLoopWS_objBody k0 v0 rest ind false hnt.1 hvnn hw
          rw [hskip, hX]
          rw [show (if false then ([] : List Char) else spaces ind) = spaces ind
            from rfl]
          obtain ⟨hkne, hkall⟩ := isWordStr_data hw
          have hre : '\n' :: ((spaces ind ++ (k0.data ++ X)) ++ '\n' :: spaces indOut) =
              ('\n' :: spaces ind) ++ (k0.data ++ X) ++ ('\n' :: spaces indOut) := by
            simp
          rw [hre]
          apply pyStrip_sandwich
          · intro x hx
            rcases List.mem_cons.mp hx with rfl | hx2
            · decide
            · exact isLoopWS_reWS (spaces_all_loopWS ind x hx2)
          · intro x hx
            rcases List.mem_cons.mp hx with rfl | hx2
            · decide
            · exact isLoopWS_reWS (spaces_all_loopWS indOut x hx2)
          · intro x hx
            cases hkk : k0.data with
            | nil => exact absurd hkk hkne
            | cons kc ks =>
                rw [hkk, List.cons_append, List.head?_cons] at hx
                simp only [Option.some.injEq] at hx
                rw [← hx]
                exact isWordChar_not_reWS (hkall kc (by simp [hkk]))
          · intro x hx
            have hlast := objBodyL_last ((k0, v0) :: rest) ind false hsafe
              (by simp [hasKeyB, hnt.1, hnt.2])
            apply hlast
            rw [hX, show (if false then ([] : List Char) else spaces ind) = spaces ind
              from rfl]
            rw [List.getLast?_append_of_ne_nil _ (by
              intro hcon
              rw [List.append_eq_nil] at hcon
              exact hkne hcon.1)]
            exact hx
          · intro hcon
            rw [List.append_eq_nil] at hcon
            exact hkne hcon.1



theorem arrBodyL_head_shape (v0 : ToonVal) (rest : List ToonVal) (ind : Nat)
    (cm : Bool) :
    ∃ X, arrBodyL (v0 :: rest) ind cm =
      (if cm then [] else spaces ind) ++ (serializeValue v0 ind cm ++ X) := by
  cases cm
  · rw [show arrBodyL (v0 :: rest) ind false =
      intercalateL [',', '\n'] (serializeArrItemsIndented (v0 :: rest) ind) from rfl]
    rw [serializeArrItemsIndented_cons]
    obtain ⟨Z, hZ⟩ := intercalate_cons_exists [',', '\n'] _
      (serializeArrItemsIndented rest ind)
    rw [hZ]
    exact ⟨Z, by simp⟩
  · rw [show arrBodyL (v0 :: rest) ind true =
      intercalateL [','] (serializeArrItems (v0 :: rest) ind) from rfl]
    rw [serializeArrItems_cons]
    obtain ⟨Z, hZ⟩ := intercalate_cons_exists [','] _ (serializeArrItems rest ind)
    rw [hZ]
    exact ⟨Z, by simp⟩

theorem skipLoopWS_arrBody (v0 : ToonVal) (rest : List ToonVal) (ind : Nat)
    (cm : Bool) (hv : isSafeVal v0 = true) :
    ∃ X, arrBodyL (v0 :: rest) ind cm =
        (if cm then [] else spaces ind) ++ (serializeValue v0 ind cm ++ X) ∧
      skipLoopWS (arrBodyL (v0 :: rest) ind cm) = serializeValue v0 ind cm ++ X := by
  obtain ⟨X, hX⟩ := arrBodyL_head_shape v0 rest ind cm
  obtain ⟨hser_ne, hser_head, _⟩ := serializeValue_shape v0 ind cm hv
  refine ⟨X, hX, ?_⟩
  rw [hX]
  have hpre : ∀ c ∈ (if cm then ([] : List Char) else spaces ind), isLoopWS c = true := by
    cases cm
    · exact spaces_all_loopWS ind
    · simp
  rw [skipLoopWS_ws_append _ _ hpre]
  apply dropWhile_eq_self_of_head
  intro c hc
  cases hs : serializeValue v0 ind cm with
  | nil => exact absurd hs hser_ne
  | cons sc st =>
      rw [hs, List.cons_append, List.head?_cons] at hc
      simp only [Option.some.injEq] at hc
      rw [← hc]
      exact not_reWS_not_loopWS (hser_head sc (by rw [hs]; rfl))

theorem arrBodyL_last (items : List ToonVal) (ind : Nat) (cm : Bool)
    (hsafe : isSafeItems items = true) :
    ∀ c, (arrBodyL items ind cm).getLast? = some c → isReWS c = false := by
  induction items with
  | nil =>
      intro c hc
      cases cm <;> simp [arrBodyL, serializeArrItems, serializeArrItemsIndented,
        intercalateL] at hc
  | cons v rest ih =>
      rw [isSafeItems_cons] at hsafe
      simp only [Bool.and_eq_true] at hsafe
      obtain ⟨hv, hrest⟩ := hsafe
      obtain ⟨hser_ne, _, hser_last⟩ := serializeValue_shape v ind cm hv
      intro c hc
      cases rest with
      | nil =>
          cases cm
          · rw [show arrBodyL [v] ind false =
                spaces ind ++ serializeValue v ind false from by
              rw [show arrBodyL [v] ind false = intercalateL [',', '\n']
                (serializeArrItemsIndented [v] ind) from rfl]
              rw [serializeArrItemsIndented_cons]
              rfl] at hc
            rw [List.getLast?_append_of_ne_nil _ hser_ne] at hc
            exact hser_last c hc
          · rw [show arrBodyL [v] ind true = serializeValue v ind true from by
              rw [show arrBodyL [v] ind true = intercalateL [',']
                (serializeArrItems [v] ind) from rfl]
              rw [serializeArrItems_cons]
              rfl] at hc
            exact hser_last c hc
      | cons v2 rest2 =>
          have hbody_ne : arrBodyL (v2 :: rest2) ind cm ≠ [] := by
            obtain ⟨X2, hX2⟩ := arrBodyL_head_shape v2 rest2 ind cm
            rw [hX2]
            obtain ⟨hser2_ne, _, _⟩ := serializeValue_shape v2 ind cm
              (by
                rw [isSafeItems_cons] at hrest
                simp only [Bool.and_eq_true] at hrest
                exact hrest.1)
            intro hcon
            rw [List.append_eq_nil, List.append_eq_nil] at hcon
            exact hser2_ne hcon.2.1
          cases cm
          · rw [show arrBodyL (v :: v2 :: rest2) ind false =
                (spaces ind ++ serializeValue v ind false) ++ [',', '\n'] ++
                  arrBodyL (v2 :: rest2) ind false from by
              rw [show arrBodyL (v :: v2 :: rest2) ind false = intercalateL [',', '\n']
                (serializeArrItemsIndented (v :: v2 :: rest2) ind) from rfl]
              rw [serializeArrItemsIndented_cons]
              rw [show serializeArrItemsIndented (v2 :: rest2) ind =
                (spaces ind ++ serializeValue v2 ind false)
                  :: serializeArrItemsIndented rest2 ind from
                serializeArrItemsIndented_cons v2 rest2 ind]
              rfl] at hc
            rw [List.append_assoc,
              List.getLast?_append_of_ne_nil _ (by simp [hbody_ne]),
              List.getLast?_append_of_ne_nil _ hbody_ne] at hc
            exact ih hrest c hc
          · rw [show arrBodyL (v :: v2 :: rest2) ind true =
                serializeValue v ind true ++ [','] ++
                  arrBodyL (v2 :: rest2) ind true from by
              rw [show arrBodyL (v :: v2 :: rest2) ind true = intercalateL [',']
                (serializeArrItems (v :: v2 :: rest2) ind) from rfl]
              rw [serializeArrItems_cons]
              rw [show serializeArrItems (v2 :: rest2) ind =
                serializeValue v2 ind true :: serializeArrItems rest2 ind from
                serializeArrItems_cons v2 rest2 ind]
              rfl] at hc
            rw [List.append_assoc,
              List.getLast?_append_of_ne_nil _ (by simp [hbody_ne]),
              List.getLast?_append_of_ne_nil _ hbody_ne] at hc
            exact ih hrest c hc

theorem pyStrip_arrBody_compact (items : List ToonVal) (ind : Nat)
    (hsafe : isSafeItems items = true) :
    pyStrip (arrBodyL items ind true) = skipLoopWS (arrBodyL items ind true) := by
  cases items with
  | nil => rfl
  | cons v rest =>
      rw [isSafeItems_cons] at hsafe
      simp only [Bool.and_eq_true] at hsafe
      obtain ⟨X, hX, hskip⟩ := skipLoopWS_arrBody v rest ind true hsafe.1
      obtain ⟨hser_ne, hser_head, _⟩ := serializeValue_shape v ind true hsafe.1
      rw [hskip, hX]
      rw [show ((if true then ([] : List Char) else spaces ind) ++
        (serializeValue v ind true ++ X)) = serializeValue v ind true ++ X
        from by simp]
      apply pyStrip_eq_self
      · intro x hx
        cases hs : serializeValue v ind true with
        | nil => exact absurd hs hser_ne
        | cons sc st =>
            rw [hs, List.cons_append, List.head?_cons] at hx
            simp only [Option.some.injEq] at hx
            rw [← hx]
            exact hser_head sc (by rw [hs]; rfl)
      · intro x hx
        have hlast := arrBodyL_last (v :: rest) ind true
          (by rw [isSafeItems_cons]; simp [hsafe.1, hsafe.2])
        apply hlast
        rw [hX, show ((if true then ([] : List Char) else spaces ind) ++
          (serializeValue v ind true ++ X)) = serializeValue v ind true ++ X
          from by simp]
        exact hx

theorem pyStrip_arrBody_pretty (items : List ToonVal) (ind indOut : Nat)
    (hsafe : isSafeItems items = true) :
    pyStrip ('\n' :: (arrBodyL items ind false ++ '\n' :: spaces indOut)) =
      skipLoopWS (arrBodyL items ind false) := by
  cases items with
  | nil =>
      rw [show arrBodyL [] ind false = [] from rfl]
      rw [pyStrip_all_ws (by
        intro c hc
        simp only [List.nil_append, List.mem_cons] at hc
        rcases hc with rfl | rfl | hc
        · decide
        · decide
        · exact isLoopWS_reWS (spaces_all_loopWS indOut c hc))]
      rfl
  | cons v rest =>
      rw [isSafeItems_cons] at hsafe
      simp only [Bool.and_eq_true] at hsafe
      obtain ⟨X, hX, hskip⟩ := skipLoopWS_arrBody v rest ind false hsafe.1
      obtain ⟨hser_ne, hser_head, _⟩ := serializeValue_shape v ind false hsafe.1
      rw [hskip, hX]
      rw [show (if false then ([] : List Char) else spaces ind) = spaces ind from rfl]
      have hre : '\n' :: ((spaces ind ++ (serializeValue v ind false ++ X)) ++
          '\n' :: spaces indOut) =
          ('\n' :: spaces ind) ++ (serializeValue v ind false ++ X) ++
            ('\n' :: spaces indOut) := by
        simp
      rw [hre]
      apply pyStrip_sandwich
      · intro x hx
        rcases List.mem_cons.mp hx with rfl | hx2
        · decide
        · exact isLoopWS_reWS (spaces_all_loopWS ind x hx2)
      · intro x hx
        rcases List.mem_cons.mp hx with rfl | hx2
        · decide
        · exact isLoopWS_reWS (spaces_all_loopWS indOut x hx2)
      · intro x hx
        cases hs : serializeValue v ind false with
        | nil => exact absurd hs hser_ne
        | cons sc st =>
            rw [hs, List.cons_append, List.head?_cons] at hx
            simp only [Option.some.injEq] at hx
            rw [← hx]
            exact hser_head sc (by rw [hs]; rfl)
      · intro x hx
        have hlast := arrBodyL_last (v :: rest) ind false
          (by rw [isSafeItems_cons]; simp [hsafe.1, hsafe.2])
        apply hlast
        rw [hX, show (if false then ([] : List Char) else spaces ind) = spaces ind
          from rfl]
        rw [List.getLast?_append_of_ne_nil _ (by
          intro hcon
          rw [List.append_eq_nil] at hcon
          exact hser_ne hcon.1)]
        exact hx
      · intro hcon
        rw [List.append_eq_nil] at hcon
        exact hser_ne hcon.1



theorem digit_tokenChar {c : Char} (h : isDigitC c = true) : isTokenChar c = true := by
  have h1 := digit_not_sign h
  have h2 := digit_not_special h
  have h3 : c ≠ ',' := by
    intro he
    subst he
    exact absurd h (by decide)
  have h4 : isReWS c = false := h1.2.2.2.2.2
  simp [isTokenChar, h4, h3, h2.2.2.2.1, h2.2.2.2.2.2]

theorem serializeValue_head_not_comma (v : ToonVal) (ind : Nat) (cm : Bool)
    (h : isSafeVal v = true) :
    ∀ c, (serializeValue v ind cm).head? = some c → c ≠ ',' := by
  cases v with
  | vnull => exact absurd rfl (isSafeVal_not_null_float _ h).1
  | vfloat lit => exact absurd rfl ((isSafeVal_not_null_float _ h).2 lit)
  | vbool b =>
      cases b
      · intro c hc
        rw [show (serializeValue (.vbool false) ind cm).head? = some 'f' from rfl] at hc
        simp only [Option.some.injEq] at hc
        rw [← hc]
        decide
      · intro c hc
        rw [show (serializeValue (.vbool true) ind cm).head? = some 't' from rfl] at hc
        simp only [Option.some.injEq] at hc
        rw [← hc]
        decide
  | vint n =>
      intro c hc
      rw [show serializeValue (.vint n) ind cm = pyIntToStr n from rfl] at hc
      rcases pyIntToStr_head n c hc with hd | hd
      · intro he
        subst he
        exact absurd hd (by decide)
      · subst hd
        decide
  | vstr s =>
      rw [show isSafeVal (.vstr s) = isSafeStr s from rfl] at h
      intro c hc
      rw [serializeValue_vstr] at hc
      by_cases hq : quoteTriggered s
      · rw [if_pos hq] at hc
        simp only [List.head?_cons, Option.some.injEq] at hc
        rw [← hc]
        decide
      · rw [if_neg hq] at hc
        have hu : safeUnquoted s = true := by
          simp only [isSafeStr, Bool.or_eq_true] at h
          rcases h with h | h
          · exact absurd h (by simp [hq])
          · exact h
        obtain ⟨hall, -, -⟩ := safeUnquoted_facts hu
        exact (hall c (List.mem_of_mem_head? (by simp [hc]))).2.1
  | varr items =>
      intro c hc
      rw [serializeValue_varr] at hc
      by_cases he : items.isEmpty
      · rw [if_pos he] at hc
        rw [show ("[]".data.head?) = some '[' from rfl] at hc
        simp only [Option.some.injEq] at hc
        rw [← hc]
        decide
      · rw [if_neg he] at hc
        by_cases hm : (cm || !(items.any isComplexVal)) = true
        · rw [if_pos hm] at hc
          simp only [List.head?_cons, Option.some.injEq] at hc
          rw [← hc]
          decide
        · rw [if_neg hm] at hc
          simp only [List.head?_cons, Option.some.injEq] at hc
          rw [← hc]
          decide
  | vobj fields =>
      rw [isSafeVal_vobj] at h
      intro c hc
      cases htv : lookupVal fields "_type" with
      | none =>
          rw [serializeValue_vobj_untagged fields ind cm htv] at hc
          cases cm
          · rw [if_neg (by simp)] at hc
            simp only [List.head?_cons, Option.some.injEq] at hc
            rw [← hc]
            decide
          · rw [if_pos (show (true = true) from rfl)] at hc
            simp only [List.head?_cons, Option.some.injEq] at hc
            rw [← hc]
            decide
      | some tv =>
          obtain ⟨t, rfl, hwt⟩ := isSafeObj_lookup_type h tv htv
          rw [serializeValue_vobj_tagged fields ind cm _ htv (pyTruthy_wordStr hwt)] at hc
          cases cm
          · rw [if_neg (by simp)] at hc
            simp only [List.head?_cons, Option.some.injEq] at hc
            rw [← hc]
            decide
          · rw [if_pos (show (true = true) from rfl)] at hc
            simp only [List.head?_cons, Option.some.injEq] at hc
            rw [← hc]
            decide

theorem skipLoopWSComma_comma (X : List Char) :
    skipLoopWSComma (',' :: X) = skipLoopWSComma X :=
  List.dropWhile_cons_of_pos (by decide)



/-! ## Parsing serialized containers, given the inner loop result -/

theorem parseValueAt_arr_inline (fuel : Nat) (items : List ToonVal) (ind : Nat)
    (rest : List Char) (hsafe : isSafeItems items = true)
    (hrec : parseArrLoop fuel (pyStrip (arrBodyL items ind true)) [] = .ok items) :
    parseValueAt (fuel + 1) (('[' :: (arrBodyL items ind true ++ [']'])) ++ rest) =
      .ok (.varr items, rest) := by
  have hskip : skipLoopWS (('[' :: (arrBodyL items ind true ++ [']'])) ++ rest) =
      '[' :: ((arrBodyL items ind true ++ [']']) ++ rest) := by
    rw [List.cons_append]
    exact skipLoopWS_cons_not _ _ (by decide)
  rw [parseValueAt_cons fuel _ '[' _ hskip]
  rw [if_neg (by decide), if_neg (by decide), if_pos rfl]
  rw [show (arrBodyL items ind true ++ [']']) ++ rest =
    arrBodyL items ind true ++ ']' :: rest by simp]
  have hneutral : ScanNeutral (arrBodyL items ind true) := by
    have := scanNeutral_intercalate [','] scanNeutral_sep_comma _
      (scanNeutral_arrItems items ind hsafe)
    simpa [arrBodyL] using this
  rw [findMatchingBracket_neutral hneutral rest]
  show (do
    let items2 ← parseArrLoop fuel (pyStrip (arrBodyL items ind true)) []
    Except.ok (ToonVal.varr items2, rest)) = Except.ok (ToonVal.varr items, rest)
  rw [hrec]
  rfl

theorem parseValueAt_arr_pretty (fuel : Nat) (items : List ToonVal) (ind : Nat)
    (rest : List Char) (hsafe : isSafeItems items = true)
    (hrec : parseArrLoop fuel
      (pyStrip ('\n' :: (arrBodyL items (ind + 2) false ++ '\n' :: spaces ind))) [] =
      .ok items) :
    parseValueAt (fuel + 1) (('[' :: '\n' :: (arrBodyL items (ind + 2) false ++
      '\n' :: (spaces ind ++ [']']))) ++ rest) = .ok (.varr items, rest) := by
  have hskip : skipLoopWS (('[' :: '\n' :: (arrBodyL items (ind + 2) false ++
      '\n' :: (spaces ind ++ [']']))) ++ rest) =
      '[' :: (('\n' :: (arrBodyL items (ind + 2) false ++
        '\n' :: (spaces ind ++ [']']))) ++ rest) := by
    rw [List.cons_append]
    exact skipLoopWS_cons_not _ _ (by decide)
  rw [parseValueAt_cons fuel _ '[' _ hskip]
  rw [if_neg (by decide), if_neg (by decide), if_pos rfl]
  rw [show ('\n' :: (arrBodyL items (ind + 2) false ++
      '\n' :: (spaces ind ++ [']']))) ++ rest =
    ('\n' :: (arrBodyL items (ind + 2) false ++ '\n' :: spaces ind)) ++ ']' :: rest
    by simp]
  have hneutral : ScanNeutral ('\n' :: (arrBodyL items (ind + 2) false ++
      '\n' :: spaces ind)) := by
    have := scanNeutral_append scanNeutral_sep_nl
      (scanNeutral_append
        (scanNeutral_intercalate [',', '\n'] scanNeutral_sep_comma_nl _
          (scanNeutral_arrItemsInd items (ind + 2) hsafe))
        (scanNeutral_append scanNeutral_sep_nl (scanNeutral_spaces ind)))
    simpa [arrBodyL] using this
  rw [findMatchingBracket_neutral hneutral rest]
  show (do
    let items2 ← parseArrLoop fuel
      (pyStrip ('\n' :: (arrBodyL items (ind + 2) false ++ '\n' :: spaces ind))) []
    Except.ok (ToonVal.varr items2, rest)) = Except.ok (ToonVal.varr items, rest)
  rw [hrec]
  rfl

theorem parseValueAt_obj_untagged_compact (fuel : Nat) (fields : Obj) (ind : Nat)
    (rest : List Char) (hsafe : isSafeObj fields = true)
    (hrec : parseObjLoop fuel (pyStrip (objBodyL fields ind true)) [] = .ok fields) :
    parseValueAt (fuel + 1) (('\x7b' :: (objBodyL fields ind true ++ ['\x7d'])) ++ rest) =
      .ok (.vobj fields, rest) := by
  have hskip : skipLoopWS (('\x7b' :: (objBodyL fields ind true ++ ['\x7d'])) ++ rest) =
      '\x7b' :: ((objBodyL fields ind true ++ ['\x7d']) ++ rest) := by
    rw [List.cons_append]
    exact skipLoopWS_cons_not _ _ (by decide)
  rw [parseValueAt_cons fuel _ '\x7b' _ hskip]
  rw [if_neg (by decide), if_pos rfl]
  rw [show (objBodyL fields ind true ++ ['\x7d']) ++ rest =
    objBodyL fields ind true ++ '\x7d' :: rest by simp]
  have hneutral : ScanNeutral (objBodyL fields ind true) := by
    have := scanNeutral_intercalate [' '] scanNeutral_sep_space _
      (scanNeutral_objParts fields ind true hsafe)
    simpa [objBodyL] using this
  rw [findMatchingBrace_neutral hneutral rest]
  show (do
    let obj ← parseObjLoop fuel (pyStrip (objBodyL fields ind true)) []
    Except.ok (ToonVal.vobj obj, rest)) = Except.ok (ToonVal.vobj fields, rest)
  rw [hrec]
  rfl

theorem parseValueAt_obj_untagged_pretty (fuel : Nat) (fields : Obj) (ind indOut : Nat)
    (rest : List Char) (hsafe : isSafeObj fields = true)
    (hrec : parseObjLoop fuel
      (pyStrip ('\n' :: (objBodyL fields ind false ++ '\n' :: spaces indOut))) [] =
      .ok fields) :
    parseValueAt (fuel + 1) (('\x7b' :: '\n' :: (objBodyL fields ind false ++
      '\n' :: (spaces indOut ++ ['\x7d']))) ++ rest) = .ok (.vobj fields, rest) := by
  have hskip : skipLoopWS (('\x7b' :: '\n' :: (objBodyL fields ind false ++
      '\n' :: (spaces indOut ++ ['\x7d']))) ++ rest) =
      '\x7b' :: (('\n' :: (objBodyL fields ind false ++
        '\n' :: (spaces indOut ++ ['\x7d']))) ++ rest) := by
    rw [List.cons_append]
    exact skipLoopWS_cons_not _ _ (by decide)
  rw [parseValueAt_cons fuel _ '\x7b' _ hskip]
  rw [if_neg (by decide), if_pos rfl]
  rw [show ('\n' :: (objBodyL fields ind false ++
      '\n' :: (spaces indOut ++ ['\x7d']))) ++ rest =
    ('\n' :: (objBodyL fields ind false ++ '\n' :: spaces indOut)) ++ '\x7d' :: rest
    by simp]
  have hneutral : ScanNeutral ('\n' :: (objBodyL fields ind false ++
      '\n' :: spaces indOut)) := by
    have := scanNeutral_append scanNeutral_sep_nl
      (scanNeutral_append
        (scanNeutral_intercalate ['\n'] scanNeutral_sep_nl _
          (scanNeutral_objParts fields ind false hsafe))
        (scanNeutral_append scanNeutral_sep_nl (scanNeutral_spaces indOut)))
    simpa [objBodyL] using this
  rw [findMatchingBrace_neutral hneutral rest]
  show (do
    let obj ← parseObjLoop fuel
      (pyStrip ('\n' :: (objBodyL fields ind false ++ '\n' :: spaces indOut))) []
    Except.ok (ToonVal.vobj obj, rest)) = Except.ok (ToonVal.vobj fields, rest)
  rw [hrec]
  rfl



theorem parseValueAt_obj_tagged_compact (fuel : Nat) (core : Obj) (t : String)
    (ind : Nat) (rest : List Char)
    (hwt : isWordStr t = true)
    (hnt : hasKeyB core "_type" = false)
    (hcore : isSafeObj core = true)
    (hrec : parseObjLoop fuel (pyStrip (objBodyL core ind true)) [] = .ok core) :
    parseValueAt (fuel + 1)
      (('@' :: (t.data ++ '\x7b' :: objBodyL core ind true ++ ['\x7d'])) ++ rest) =
      .ok (.vobj (core ++ [("_type", .vstr t)]), rest) := by
  obtain ⟨htne, htall⟩ := isWordStr_data hwt
  have hskip : skipLoopWS (('@' :: (t.data ++ '\x7b' :: objBodyL core ind true ++
      ['\x7d'])) ++ rest) =
      '@' :: ((t.data ++ '\x7b' :: objBodyL core ind true ++ ['\x7d']) ++ rest) := by
    rw [List.cons_append]
    exact skipLoopWS_cons_not _ _ (by decide)
  rw [parseValueAt_cons fuel _ '@' _ hskip, if_pos rfl]
  rw [show (t.data ++ '\x7b' :: objBodyL core ind true ++ ['\x7d']) ++ rest =
    t.data ++ ('\x7b' :: (objBodyL core ind true ++ '\x7d' :: rest)) by simp]
  have hw1 : (t.data ++ ('\x7b' :: (objBodyL core ind true ++ '\x7d' :: rest))).takeWhile
      isWordChar = t.data := by
    apply takeWhile_append_run _ _ htall
    intro c hc
    simp only [List.head?_cons, Option.some.injEq] at hc
    rw [← hc]
    decide
  have hw2 : ((t.data ++ ('\x7b' :: (objBodyL core ind true ++ '\x7d' :: rest))).drop
      ((t.data ++ ('\x7b' :: (objBodyL core ind true ++ '\x7d' :: rest))).takeWhile
        isWordChar).length).dropWhile isReWS =
      '\x7b' :: (objBodyL core ind true ++ '\x7d' :: rest) := by
    rw [hw1, List.drop_left]
    exact dropWhile_eq_self_of_head _ (by
      intro c hc
      simp only [List.head?_cons, Option.some.injEq] at hc
      rw [← hc]
      decide)
  rw [hw2, hw1]
  obtain ⟨tc, ts, htd⟩ : ∃ tc ts, t.data = tc :: ts := by
    cases htk : t.data with
    | nil => exact absurd htk htne
    | cons a b => exact ⟨a, b, rfl⟩
  rw [htd]
  show (match findMatchingBrace (objBodyL core ind true ++ '\x7d' :: rest) with
    | some (inner, rest2) => do
        let obj ← parseObjLoop fuel (pyStrip inner) []
        Except.ok (ToonVal.vobj (insertOrReplace obj "_type"
          (ToonVal.vstr (String.mk (tc :: ts)))), rest2)
    | none => Except.error "Unmatched brace") =
    Except.ok (ToonVal.vobj (core ++ [("_type", ToonVal.vstr t)]), rest)
  have hneutral : ScanNeutral (objBodyL core ind true) := by
    have := scanNeutral_intercalate [' '] scanNeutral_sep_space _
      (scanNeutral_objParts core ind true hcore)
    simpa [objBodyL] using this
  rw [findMatchingBrace_neutral hneutral rest]
  show (do
    let obj ← parseObjLoop fuel (pyStrip (objBodyL core ind true)) []
    Except.ok (ToonVal.vobj (insertOrReplace obj "_type"
      (ToonVal.vstr (String.mk (tc :: ts)))), rest)) =
    Except.ok (ToonVal.vobj (core ++ [("_type", ToonVal.vstr t)]), rest)
  rw [hrec]
  show Except.ok (ToonVal.vobj (insertOrReplace core "_type"
      (ToonVal.vstr (String.mk (tc :: ts)))), rest) =
    Except.ok (ToonVal.vobj (core ++ [("_type", ToonVal.vstr t)]), rest)
  rw [show String.mk (tc :: ts) = t by rw [← htd], insertOrReplace_absent hnt]

theorem parseValueAt_obj_tagged_pretty (fuel : Nat) (core : Obj) (t : String)
    (ind indOut : Nat) (rest : List Char)
    (hwt : isWordStr t = true)
    (hnt : hasKeyB core "_type" = false)
    (hcore : isSafeObj core = true)
    (hrec : parseObjLoop fuel
      (pyStrip ('\n' :: (objBodyL core ind false ++ '\n' :: spaces indOut))) [] =
      .ok core) :
    parseValueAt (fuel + 1)
      (('@' :: (t.data ++ '\x7b' :: '\n' :: objBodyL core ind false ++
        '\n' :: (spaces indOut ++ ['\x7d']))) ++ rest) =
      .ok (.vobj (core ++ [("_type", .vstr t)]), rest) := by
  obtain ⟨htne, htall⟩ := isWordStr_data hwt
  have hskip : skipLoopWS (('@' :: (t.data ++ '\x7b' :: '\n' :: objBodyL core ind false ++
      '\n' :: (spaces indOut ++ ['\x7d']))) ++ rest) =
      '@' :: ((t.data ++ '\x7b' :: '\n' :: objBodyL core ind false ++
        '\n' :: (spaces indOut ++ ['\x7d'])) ++ rest) := by
    rw [List.cons_append]
    exact skipLoopWS_cons_not _ _ (by decide)
  rw [parseValueAt_cons fuel _ '@' _ hskip, if_pos rfl]
  rw [show (t.data ++ '\x7b' :: '\n' :: objBodyL core ind false ++
      '\n' :: (spaces indOut ++ ['\x7d'])) ++ rest =
    t.data ++ ('\x7b' :: (('\n' :: (objBodyL core ind false ++ '\n' :: spaces indOut)) ++
      '\x7d' :: rest)) by simp]
  have hw1 : (t.data ++ ('\x7b' :: (('\n' :: (objBodyL core ind false ++
      '\n' :: spaces indOut)) ++ '\x7d' :: rest))).takeWhile isWordChar = t.data := by
    apply takeWhile_append_run _ _ htall
    intro c hc
    simp only [List.head?_cons, Option.some.injEq] at hc
    rw [← hc]
    decide
  have hw2 : ((t.data ++ ('\x7b' :: (('\n' :: (objBodyL core ind false ++
      '\n' :: spaces indOut)) ++ '\x7d' :: rest))).drop
      ((t.data ++ ('\x7b' :: (('\n' :: (objBodyL core ind false ++
        '\n' :: spaces indOut)) ++ '\x7d' :: rest))).takeWhile
        isWordChar).length).dropWhile isReWS =
      '\x7b' :: (('\n' :: (objBodyL core ind false ++ '\n' :: spaces indOut)) ++
        '\x7d' :: rest) := by
    rw [hw1, List.drop_left]
    exact dropWhile_eq_self_of_head _ (by
      intro c hc
      simp only [List.head?_cons, Option.some.injEq] at hc
      rw [← hc]
      decide)
  rw [hw2, hw1]
  obtain ⟨tc, ts, htd⟩ : ∃ tc ts, t.data = tc :: ts := by
    cases htk : t.data with
    | nil => exact absurd htk htne
    | cons a b => exact ⟨a, b, rfl⟩
  rw [htd]
  show (match findMatchingBrace (('\n' :: (objBodyL core ind false ++
      '\n' :: spaces indOut)) ++ '\x7d' :: rest) with
    | some (inner, rest2) => do
        let obj ← parseObjLoop fuel (pyStrip inner) []
        Except.ok (ToonVal.vobj (insertOrReplace obj "_type"
          (ToonVal.vstr (String.mk (tc :: ts)))), rest2)
    | none => Except.error "Unmatched brace") =
    Except.ok (ToonVal.vobj (core ++ [("_type", ToonVal.vstr t)]), rest)
  have hneutral : ScanNeutral ('\n' :: (objBodyL core ind false ++
      '\n' :: spaces indOut)) := by
    have := scanNeutral_append scanNeutral_sep_nl
      (scanNeutral_append
        (scanNeutral_intercalate ['\n'] scanNeutral_sep_nl _
          (scanNeutral_objParts core ind false hcore))
        (scanNeutral_append scanNeutral_sep_nl (scanNeutral_spaces indOut)))
    simpa [objBodyL] using this
  rw [findMatchingBrace_neutral hneutral rest]
  show (do
    let obj ← parseObjLoop fuel
      (pyStrip ('\n' :: (objBodyL core ind false ++ '\n' :: spaces indOut))) []
    Except.ok (ToonVal.vobj (insertOrReplace obj "_type"
      (ToonVal.vstr (String.mk (tc :: ts)))), rest)) =
    Except.ok (ToonVal.vobj (core ++ [("_type", ToonVal.vstr t)]), rest)
  rw [hrec]
  show Except.ok (ToonVal.vobj (insertOrReplace core "_type"
      (ToonVal.vstr (String.mk (tc :: ts)))), rest) =
    Except.ok (ToonVal.vobj (core ++ [("_type", ToonVal.vstr t)]), rest)
  rw [show String.mk (tc :: ts) = t by rw [← htd], insertOrReplace_absent hnt]



/-! ## Joining lemmas and comma-skipping on serialized bodies -/

theorem intercalateL_singleton (sep x : List Char) : intercalateL sep [x] = x := rfl

theorem intercalateL_cons_cons (sep x y : List Char) (t : List (List Char)) :
    intercalateL sep (x :: y :: t) = x ++ sep ++ intercalateL sep (y :: t) := rfl

theorem skipLoopWSComma_objBody (core : Obj) (ind : Nat) (cm : Bool)
    (hsafe : isSafeObj core = true) (hnt : hasKeyB core "_type" = false)
    (hne : core ≠ []) :
    skipLoopWSComma (objBodyL core ind cm) = skipLoopWS (objBodyL core ind cm) := by
  cases core with
  | nil => exact absurd rfl hne
  | cons p rest =>
      cases p with
      | mk k0 v0 =>
          simp only [hasKeyB, Bool.or_eq_false_iff, decide_eq_false_iff_not] at hnt
          rw [isSafeObj_cons, if_neg hnt.1] at hsafe
          simp only [Bool.and_eq_true, Bool.not_eq_true'] at hsafe
          obtain ⟨⟨⟨hw, hv⟩, -⟩, -⟩ := hsafe
          have hvnn : v0 ≠ .vnull := (isSafeVal_not_null_float v0 hv).1
          obtain ⟨X, hX, hskip⟩ := skipLoopWS_objBody k0 v0 rest ind cm hnt.1 hvnn hw
          apply skipLoopWSComma_eq_skipLoopWS
          intro c hc
          rw [hskip] at hc
          obtain ⟨hkne, hkall⟩ := isWordStr_data hw
          cases hkk : k0.data with
          | nil => exact absurd hkk hkne
          | cons kc ks =>
              rw [hkk, List.cons_append] at hc
              simp only [List.head?_cons, Option.some.injEq] at hc
              rw [← hc]
              intro he
              have hwc := hkall kc (by simp [hkk])
              rw [he] at hwc
              exact absurd hwc (by decide)

theorem skipLoopWSComma_arrBody (items : List ToonVal) (ind : Nat) (cm : Bool)
    (hne : items ≠ []) (hsafe : isSafeItems items = true) :
    skipLoopWSComma (arrBodyL items ind cm) = skipLoopWS (arrBodyL items ind cm) := by
  cases items with
  | nil => exact absurd rfl hne
  | cons v rest =>
      rw [isSafeItems_cons] at hsafe
      simp only [Bool.and_eq_true] at hsafe
      obtain ⟨hv, -⟩ := hsafe
      obtain ⟨X, hX, hskip⟩ := skipLoopWS_arrBody v rest ind cm hv
      obtain ⟨hser_ne, -, -⟩ := serializeValue_shape v ind cm hv
      apply skipLoopWSComma_eq_skipLoopWS
      intro c hc
      rw [hskip] at hc
      cases hs : serializeValue v ind cm with
      | nil => exact absurd hs hser_ne
      | cons sc st =>
          rw [hs, List.cons_append] at hc
          simp only [List.head?_cons, Option.some.injEq] at hc
          rw [← hc]
          exact serializeValue_head_not_comma v ind cm hv sc (by rw [hs]; rfl)



/-! ## The serializer-parser round trip on safe values -/

mutual

theorem parseValSer : ∀ (fuel : Nat) (v : ToonVal) (ind : Nat) (cm : Bool)
    (rest : List Char), isSafeVal v = true → BoundaryRest rest →
    (serializeValue v ind cm).length + 1 ≤ fuel →
    parseValueAt fuel (serializeValue v ind cm ++ rest) = .ok (v, rest)
  | 0, v, ind, cm, rest => by
      intro _ _ hlen
      omega
  | fuel + 1, v, ind, cm, rest => by
      intro hsafe hbr hlen
      cases v with
      | vnull => exact absurd rfl (isSafeVal_not_null_float _ hsafe).1
      | vfloat lit => exact absurd rfl ((isSafeVal_not_null_float _ hsafe).2 lit)
      | vbool b =>
          cases b
          · rw [show serializeValue (.vbool false) ind cm = "false".data from rfl]
            rw [parseValueAt_token fuel "false".data rest (by decide) (by decide)
              (by decide) hbr, pyParseScalar_bfalse]
          · rw [show serializeValue (.vbool true) ind cm = "true".data from rfl]
            rw [parseValueAt_token fuel "true".data rest (by decide) (by decide)
              (by decide) hbr, pyParseScalar_btrue]
      | vint n =>
          rw [show serializeValue (.vint n) ind cm = pyIntToStr n from rfl]
          have htok : ∀ c ∈ pyIntToStr n, isTokenChar c = true := by
            intro c hc
            rcases pyIntToStr_chars n c hc with hd | hd
            · exact digit_tokenChar hd
            · rw [hd]
              decide
          have hspec : ∀ c ∈ pyIntToStr n,
              c ≠ '\x7b' ∧ c ≠ '[' ∧ c ≠ '"' ∧ c ≠ squoteC := by
            intro c hc
            rcases pyIntToStr_chars n c hc with hd | hd
            · have h2 := digit_not_special hd
              exact ⟨h2.2.2.1, h2.2.2.2.2.1, h2.1, h2.2.1⟩
            · rw [hd]
              refine ⟨by decide, by decide, by decide, by decide⟩
          rw [parseValueAt_token fuel (pyIntToStr n) rest (pyIntToStr_ne_nil n)
            htok hspec hbr, pyParseScalar_int n]
      | vstr s =>
          rw [show isSafeVal (.vstr s) = isSafeStr s from rfl] at hsafe
          cases hq : quoteTriggered s
          · simp only [isSafeStr, hq, Bool.false_or] at hsafe
            rw [serializeValue_vstr, if_neg (by simp [hq])]
            have hspec : ∀ c ∈ s.data,
                c ≠ '\x7b' ∧ c ≠ '[' ∧ c ≠ '"' ∧ c ≠ squoteC := by
              intro c hc
              have hqf := (quoteTriggered_false hq).1 c hc
              have huf := ((safeUnquoted_facts hsafe).1 c hc).2.2
              exact ⟨hqf.2.2.2.1, hqf.2.2.2.2.2.1, hqf.2.2.2.2.2.2.2, huf⟩
            rw [parseValueAt_token fuel s.data rest (safeUnquoted_facts hsafe).2.1
              (safe_token_chars hq hsafe) hspec hbr, pyParseScalar_unquoted hq hsafe]
          · rw [serializeValue_vstr, if_pos hq]
            exact parseValueAt_quoted fuel s rest
      | varr items =>
          rw [isSafeVal_varr] at hsafe
          rw [serializeValue_varr] at hlen ⊢
          cases hemp : items.isEmpty
          · rw [if_neg (by simp [hemp])] at hlen ⊢
            by_cases hin : (cm || !(items.any isComplexVal)) = true
            · rw [if_pos hin] at hlen ⊢
              rw [show intercalateL [','] (serializeArrItems items ind) =
                arrBodyL items ind true from rfl] at hlen ⊢
              have hb : (arrBodyL items ind true).length + 2 ≤ fuel := by
                simp only [List.length_cons, List.length_append, List.length_nil]
                  at hlen
                omega
              have hrec : parseArrLoop fuel (pyStrip (arrBodyL items ind true)) [] =
                  .ok items :=
                parseArrSer fuel items ind true [] _ hsafe
                  (by rw [pyStrip_arrBody_compact items ind hsafe]
                      exact skipLoopWS_idem _) hb
              exact parseValueAt_arr_inline fuel items ind rest hsafe hrec
            · rw [if_neg hin] at hlen ⊢
              rw [show intercalateL [',', '\n']
                  (serializeArrItemsIndented items (ind + 2)) =
                arrBodyL items (ind + 2) false from rfl] at hlen ⊢
              have hb : (arrBodyL items (ind + 2) false).length + 2 ≤ fuel := by
                simp only [List.length_cons, List.length_append, List.length_nil]
                  at hlen
                omega
              have hrec : parseArrLoop fuel
                  (pyStrip ('\n' :: (arrBodyL items (ind + 2) false ++
                    '\n' :: spaces ind))) [] = .ok items :=
                parseArrSer fuel items (ind + 2) false [] _ hsafe
                  (by rw [pyStrip_arrBody_pretty items (ind + 2) ind hsafe]
                      exact skipLoopWS_idem _) hb
              exact parseValueAt_arr_pretty fuel items ind rest hsafe hrec
          · have hnil : items = [] := by simpa using hemp
            subst hnil
            rw [if_pos (show ([] : List ToonVal).isEmpty = true from rfl)] at hlen
            rw [if_pos (show (true = true) from rfl)]
            rw [show ("[]".data : List Char) =
              '[' :: (arrBodyL ([] : List ToonVal) ind true ++ [']']) from rfl]
            have hb : (arrBodyL ([] : List ToonVal) ind true).length + 2 ≤ fuel := by
              have h0 : (arrBodyL ([] : List ToonVal) ind true).length = 0 := rfl
              have h2 : ("[]".data : List Char).length = 2 := rfl
              omega
            have hrec : parseArrLoop fuel
                (pyStrip (arrBodyL ([] : List ToonVal) ind true)) [] =
                .ok ([] : List ToonVal) :=
              parseArrSer fuel [] ind true [] _ rfl rfl hb
            exact parseValueAt_arr_inline fuel [] ind rest rfl hrec
      | vobj fields =>
          rw [isSafeVal_vobj] at hsafe
          rcases isSafeObj_decomp fields hsafe with hnt | ⟨core, t, rfl, hwt, hcnt, hcsafe⟩
          · have htv : lookupVal fields "_type" = none := hasKeyB_false_lookup hnt
            rw [serializeValue_vobj_untagged fields ind cm htv] at hlen ⊢
            cases cm
            · rw [if_neg (by simp)] at hlen ⊢
              rw [show intercalateL ['\n'] (serializeObjParts fields (ind + 2) false) =
                objBodyL fields (ind + 2) false from rfl] at hlen ⊢
              have hb : (objBodyL fields (ind + 2) false).length + 1 ≤ fuel := by
                simp only [List.length_cons, List.length_append, List.length_nil]
                  at hlen
                omega
              have hrec : parseObjLoop fuel
                  (pyStrip ('\n' :: (objBodyL fields (ind + 2) false ++
                    '\n' :: spaces ind))) [] = .ok fields :=
                parseObjSer fuel fields (ind + 2) false [] _ hsafe hnt
                  (fun _ _ _ => rfl)
                  (by rw [pyStrip_objBody_pretty fields (ind + 2) ind hsafe hnt]
                      exact skipLoopWS_idem _) hb
              exact parseValueAt_obj_untagged_pretty fuel fields (ind + 2) ind rest
                hsafe hrec
            · rw [if_pos (show (true = true) from rfl)] at hlen ⊢
              rw [show intercalateL [' '] (serializeObjParts fields (ind + 2) true) =
                objBodyL fields (ind + 2) true from rfl] at hlen ⊢
              have hb : (objBodyL fields (ind + 2) true).length + 1 ≤ fuel := by
                simp only [List.length_cons, List.length_append, List.length_nil]
                  at hlen
                omega
              have hrec : parseObjLoop fuel
                  (pyStrip (objBodyL fields (ind + 2) true)) [] = .ok fields :=
                parseObjSer fuel fields (ind + 2) true [] _ hsafe hnt
                  (fun _ _ _ => rfl)
                  (by rw [pyStrip_objBody_compact fields (ind + 2) hsafe hnt]
                      exact skipLoopWS_idem _) hb
              exact parseValueAt_obj_untagged_compact fuel fields (ind + 2) rest
                hsafe hrec
          · have htv : lookupVal (core ++ [("_type", ToonVal.vstr t)]) "_type" =
                some (ToonVal.vstr t) := by
              rw [lookupVal_append_right core _ "_type" hcnt]
              rfl
            rw [serializeValue_vobj_tagged _ ind cm _ htv (pyTruthy_wordStr hwt)]
              at hlen ⊢
            cases cm
            · rw [if_neg (by simp)] at hlen ⊢
              rw [serializeObjParts_append_type core (ToonVal.vstr t) (ind + 2) false]
                at hlen ⊢
              rw [show intercalateL ['\n'] (serializeObjParts core (ind + 2) false) =
                objBodyL core (ind + 2) false from rfl] at hlen ⊢
              rw [show tagString (ToonVal.vstr t) = t.data from rfl] at hlen ⊢
              have hb : (objBodyL core (ind + 2) false).length + 1 ≤ fuel := by
                simp only [List.length_cons, List.length_append, List.length_nil]
                  at hlen
                omega
              have hrec : parseObjLoop fuel
                  (pyStrip ('\n' :: (objBodyL core (ind + 2) false ++
                    '\n' :: spaces ind))) [] = .ok core :=
                parseObjSer fuel core (ind + 2) false [] _ hcsafe hcnt
                  (fun _ _ _ => rfl)
                  (by rw [pyStrip_objBody_pretty core (ind + 2) ind hcsafe hcnt]
                      exact skipLoopWS_idem _) hb
              exact parseValueAt_obj_tagged_pretty fuel core t (ind + 2) ind rest
                hwt hcnt hcsafe hrec
            · rw [if_pos (show (true = true) from rfl)] at hlen ⊢
              rw [serializeObjParts_append_type core (ToonVal.vstr t) (ind + 2) true]
                at hlen ⊢
              rw [show intercalateL [' '] (serializeObjParts core (ind + 2) true) =
                objBodyL core (ind + 2) true from rfl] at hlen ⊢
              rw [show tagString (ToonVal.vstr t) = t.data from rfl] at hlen ⊢
              have hb : (objBodyL core (ind + 2) true).length + 1 ≤ fuel := by
                simp only [List.length_cons, List.length_append, List.length_nil]
                  at hlen
                omega
              have hrec : parseObjLoop fuel
                  (pyStrip (objBodyL core (ind + 2) true)) [] = .ok core :=
                parseObjSer fuel core (ind + 2) true [] _ hcsafe hcnt
                  (fun _ _ _ => rfl)
                  (by rw [pyStrip_objBody_compact core (ind + 2) hcsafe hcnt]
                      exact skipLoopWS_idem _) hb
              exact parseValueAt_obj_tagged_compact fuel core t (ind + 2) rest
                hwt hcnt hcsafe hrec

theorem parseObjSer : ∀ (fuel : Nat) (core : Obj) (ind : Nat) (cm : Bool) (acc : Obj)
    (cs : List Char), isSafeObj core = true → hasKeyB core "_type" = false →
    (∀ k2 v2, (k2, v2) ∈ core → hasKeyB acc k2 = false) →
    skipLoopWS cs = skipLoopWS (objBodyL core ind cm) →
    (objBodyL core ind cm).length + 1 ≤ fuel →
    parseObjLoop fuel cs acc = .ok (acc ++ core)
  | 0, core, ind, cm, acc, cs => by
      intro _ _ _ _ hlen
      omega
  | fuel + 1, core, ind, cm, acc, cs => by
      intro hsafe hnt hdisj hcs hlen
      cases core with
      | nil =>
          rw [parseObjLoop_nil fuel cs acc (by rw [hcs]; rfl)]
          simp
      | cons p rest =>
          obtain ⟨k, v⟩ := p
          simp only [hasKeyB, Bool.or_eq_false_iff, decide_eq_false_iff_not] at hnt
          rw [isSafeObj_cons, if_neg hnt.1] at hsafe
          simp only [Bool.and_eq_true, Bool.not_eq_true'] at hsafe
          obtain ⟨⟨⟨hw, hv⟩, hnk⟩, hrest⟩ := hsafe
          have hvnn : v ≠ .vnull := (isSafeVal_not_null_float v hv).1
          have hpre : ∀ c ∈ (if cm then ([] : List Char) else spaces ind),
              isLoopWS c = true := by
            cases cm
            · exact spaces_all_loopWS ind
            · simp
          rw [parseObjLoop_congr hcs fuel acc]
          cases rest with
          | nil =>
              have hB : objBodyL [(k, v)] ind cm =
                  (if cm then ([] : List Char) else spaces ind) ++
                    (k.data ++ ':' :: (serializeValue v ind cm ++ [])) := by
                rw [objBodyL, serializeObjParts_cons_emit k v [] ind cm hnt.1 hvnn,
                  show serializeObjParts ([] : Obj) ind cm = [] from rfl,
                  intercalateL_singleton]
                cases cm <;> simp
              rw [hB] at hlen ⊢
              simp only [List.length_append, List.length_cons, List.length_nil]
                at hlen
              have hval : parseValueAt fuel (serializeValue v ind cm ++ []) =
                  .ok (v, []) :=
                parseValSer fuel v ind cm [] hv boundaryRest_nil (by omega)
              rw [parseObjLoop_step fuel _ k v ind cm [] acc hpre hw hv hval]
              rw [insertOrReplace_absent (hdisj k v (by simp)) v]
              obtain ⟨f2, rfl⟩ : ∃ f2, fuel = f2 + 1 := ⟨fuel - 1, by omega⟩
              rw [parseObjLoop_nil f2 (skipLoopWSComma []) (acc ++ [(k, v)]) rfl]
          | cons p2 rest2 =>
              obtain ⟨k2, v2⟩ := p2
              have hk2 : k2 ≠ "_type" := hasKeyB_false_mem hnt.2 k2 v2 (by simp)
              have hsafe2 := hrest
              rw [isSafeObj_cons, if_neg hk2] at hsafe2
              simp only [Bool.and_eq_true, Bool.not_eq_true'] at hsafe2
              obtain ⟨⟨⟨hw2, hv2⟩, -⟩, -⟩ := hsafe2
              have hv2nn : v2 ≠ .vnull := (isSafeVal_not_null_float v2 hv2).1
              have hB : objBodyL ((k, v) :: (k2, v2) :: rest2) ind cm =
                  (if cm then ([] : List Char) else spaces ind) ++
                    (k.data ++ ':' :: (serializeValue v ind cm ++
                      (objSepL cm ++ objBodyL ((k2, v2) :: rest2) ind cm))) := by
                rw [objBodyL, objBodyL,
                  serializeObjParts_cons_emit k v _ ind cm hnt.1 hvnn,
                  serializeObjParts_cons_emit k2 v2 rest2 ind cm hk2 hv2nn,
                  intercalateL_cons_cons]
                cases cm <;> simp [objSepL]
              rw [hB] at hlen ⊢
              simp only [List.length_append, List.length_cons, List.length_nil]
                at hlen
              have hval : parseValueAt fuel (serializeValue v ind cm ++
                  (objSepL cm ++ objBodyL ((k2, v2) :: rest2) ind cm)) =
                  .ok (v, objSepL cm ++ objBodyL ((k2, v2) :: rest2) ind cm) :=
                parseValSer fuel v ind cm _ hv
                  (boundary_sep_objBody ((k2, v2) :: rest2) ind cm hrest hnt.2)
                  (by omega)
              rw [parseObjLoop_step fuel _ k v ind cm _ acc hpre hw hv hval]
              rw [insertOrReplace_absent (hdisj k v (by simp)) v]
              rw [skipLoopWSComma_ws_append (objSepL cm) _ (by cases cm <;> decide)]
              rw [skipLoopWSComma_objBody ((k2, v2) :: rest2) ind cm hrest hnt.2
                (by simp)]
              have hdisj2 : ∀ k3 v3, (k3, v3) ∈ (k2, v2) :: rest2 →
                  hasKeyB (acc ++ [(k, v)]) k3 = false := by
                intro k3 v3 hm
                have h1 : hasKeyB acc k3 = false :=
                  hdisj k3 v3 (List.mem_cons_of_mem _ hm)
                have h2 : k3 ≠ k := hasKeyB_false_mem hnk k3 v3 hm
                rw [hasKeyB_append]
                simp [hasKeyB, h1, Ne.symm h2]
              rw [parseObjSer fuel ((k2, v2) :: rest2) ind cm (acc ++ [(k, v)]) _
                hrest hnt.2 hdisj2 (skipLoopWS_idem _) (by omega)]
              simp

theorem parseArrSer : ∀ (fuel : Nat) (items : List ToonVal) (ind : Nat) (cm : Bool)
    (acc : List ToonVal) (cs : List Char), isSafeItems items = true →
    skipLoopWS cs = skipLoopWS (arrBodyL items ind cm) →
    (arrBodyL items ind cm).length + 2 ≤ fuel →
    parseArrLoop fuel cs acc = .ok (acc ++ items)
  | 0, items, ind, cm, acc, cs => by
      intro _ _ hlen
      omega
  | fuel + 1, items, ind, cm, acc, cs => by
      intro hsafe hcs hlen
      cases items with
      | nil =>
          cases cm
          · rw [parseArrLoop_nil fuel cs acc (by rw [hcs]; rfl)]
            simp
          · rw [parseArrLoop_nil fuel cs acc (by rw [hcs]; rfl)]
            simp
      | cons v rest2 =>
          rw [isSafeItems_cons] at hsafe
          simp only [Bool.and_eq_true] at hsafe
          obtain ⟨hv, hrest⟩ := hsafe
          rw [parseArrLoop_congr hcs fuel acc]
          cases rest2 with
          | nil =>
              cases cm
              · have hB : arrBodyL [v] ind false =
                    spaces ind ++ serializeValue v ind false := by
                  rw [show arrBodyL [v] ind false =
                    intercalateL [',', '\n'] (serializeArrItemsIndented [v] ind)
                    from rfl, serializeArrItemsIndented_cons]
                  rfl
                rw [hB] at hlen ⊢
                simp only [List.length_append, List.length_cons, List.length_nil]
                  at hlen
                rw [show spaces ind ++ serializeValue v ind false =
                  spaces ind ++ (serializeValue v ind false ++ []) by simp]
                have hval : parseValueAt fuel (serializeValue v ind false ++ []) =
                    .ok (v, []) :=
                  parseValSer fuel v ind false [] hv boundaryRest_nil (by omega)
                rw [parseArrLoop_step fuel (spaces ind) v ind false [] acc
                  (spaces_all_loopWS ind) hv hval]
                obtain ⟨f2, rfl⟩ : ∃ f2, fuel = f2 + 1 := ⟨fuel - 1, by omega⟩
                rw [parseArrLoop_nil f2 (skipLoopWSComma []) (acc ++ [v]) rfl]
              · have hB : arrBodyL [v] ind true = serializeValue v ind true := by
                  rw [show arrBodyL [v] ind true =
                    intercalateL [','] (serializeArrItems [v] ind) from rfl,
                    serializeArrItems_cons]
                  rfl
                rw [hB] at hlen ⊢
                rw [show serializeValue v ind true =
                  [] ++ (serializeValue v ind true ++ []) by simp]
                have hval : parseValueAt fuel (serializeValue v ind true ++ []) =
                    .ok (v, []) :=
                  parseValSer fuel v ind true [] hv boundaryRest_nil (by omega)
                rw [parseArrLoop_step fuel [] v ind true [] acc (by simp) hv hval]
                obtain ⟨f2, rfl⟩ : ∃ f2, fuel = f2 + 1 := ⟨fuel - 1, by omega⟩
                rw [parseArrLoop_nil f2 (skipLoopWSComma []) (acc ++ [v]) rfl]
          | cons v2 rest3 =>
              cases cm
              · have hB : arrBodyL (v :: v2 :: rest3) ind false =
                    (spaces ind ++ serializeValue v ind false) ++ [',', '\n'] ++
                      arrBodyL (v2 :: rest3) ind false := by
                  rw [show arrBodyL (v :: v2 :: rest3) ind false =
                    intercalateL [',', '\n']
                      (serializeArrItemsIndented (v :: v2 :: rest3) ind) from rfl,
                    serializeArrItemsIndented_cons,
                    show serializeArrItemsIndented (v2 :: rest3) ind =
                      (spaces ind ++ serializeValue v2 ind false)
                        :: serializeArrItemsIndented rest3 ind from
                      serializeArrItemsIndented_cons v2 rest3 ind,
                    intercalateL_cons_cons]
                  rfl
                rw [hB] at hlen ⊢
                simp only [List.length_append, List.length_cons, List.length_nil]
                  at hlen
                rw [show (spaces ind ++ serializeValue v ind false) ++ [',', '\n'] ++
                    arrBodyL (v2 :: rest3) ind false =
                  spaces ind ++ (serializeValue v ind false ++
                    (',' :: '\n' :: arrBodyL (v2 :: rest3) ind false)) by simp]
                have hval : parseValueAt fuel (serializeValue v ind false ++
                    (',' :: '\n' :: arrBodyL (v2 :: rest3) ind false)) =
                    .ok (v, ',' :: '\n' :: arrBodyL (v2 :: rest3) ind false) :=
                  parseValSer fuel v ind false _ hv (boundary_comma _) (by omega)
                rw [parseArrLoop_step fuel (spaces ind) v ind false _ acc
                  (spaces_all_loopWS ind) hv hval]
                rw [skipLoopWSComma_comma]
                rw [show ('\n' :: arrBodyL (v2 :: rest3) ind false) =
                  ['\n'] ++ arrBodyL (v2 :: rest3) ind false from rfl,
                  skipLoopWSComma_ws_append ['\n'] _ (by decide)]
                rw [skipLoopWSComma_arrBody (v2 :: rest3) ind false (by simp) hrest]
                rw [parseArrSer fuel (v2 :: rest3) ind false (acc ++ [v]) _
                  hrest (skipLoopWS_idem _) (by omega)]
                simp
              · have hB : arrBodyL (v :: v2 :: rest3) ind true =
                    serializeValue v ind true ++ [','] ++
                      arrBodyL (v2 :: rest3) ind true := by
                  rw [show arrBodyL (v :: v2 :: rest3) ind true =
                    intercalateL [','] (serializeArrItems (v :: v2 :: rest3) ind)
                    from rfl, serializeArrItems_cons,
                    show serializeArrItems (v2 :: rest3) ind =
                      serializeValue v2 ind true :: serializeArrItems rest3 ind from
                      serializeArrItems_cons v2 rest3 ind,
                    intercalateL_cons_cons]
                  rfl
                rw [hB] at hlen ⊢
                simp only [List.length_append, List.length_cons, List.length_nil]
                  at hlen
                rw [show serializeValue v ind true ++ [','] ++
                    arrBodyL (v2 :: rest3) ind true =
                  [] ++ (serializeValue v ind true ++
                    (',' :: arrBodyL (v2 :: rest3) ind true)) by simp]
                have hval : parseValueAt fuel (serializeValue v ind true ++
                    (',' :: arrBodyL (v2 :: rest3) ind true)) =
                    .ok (v, ',' :: arrBodyL (v2 :: rest3) ind true) :=
                  parseValSer fuel v ind true _ hv (boundary_comma _) (by omega)
                rw [parseArrLoop_step fuel [] v ind true _ acc (by simp) hv hval]
                rw [skipLoopWSComma_comma]
                rw [skipLoopWSComma_arrBody (v2 :: rest3) ind true (by simp) hrest]
                rw [parseArrSer fuel (v2 :: rest3) ind true (acc ++ [v]) _
                  hrest (skipLoopWS_idem _) (by omega)]
                simp

end



/-! ## The top-level dispatch of parse_toon on serialized documents -/

theorem tryTagged_brace (X : List Char) : tryTagged ('\x7b' :: X) = none := rfl

theorem tryTagged_tagged (t : String) (inner : List Char)
    (hwt : isWordStr t = true) (hne : inner ≠ []) :
    tryTagged ('@' :: (t.data ++ '\x7b' :: (inner ++ ['\x7d']))) = some (t, inner) := by
  obtain ⟨htne, htall⟩ := isWordStr_data hwt
  rw [tryTagged.eq_def]
  show (if (t.data ++ '\x7b' :: (inner ++ ['\x7d'])).takeWhile isWordChar = [] then none
    else
      match (((t.data ++ '\x7b' :: (inner ++ ['\x7d'])).drop
          ((t.data ++ '\x7b' :: (inner ++ ['\x7d'])).takeWhile isWordChar).length).dropWhile
            isReWS) with
      | '\x7b' :: body0 =>
          match (body0.reverse.dropWhile isReWS) with
          | '\x7d' :: revContent =>
              if revContent = [] then none
              else some (String.mk ((t.data ++ '\x7b' :: (inner ++ ['\x7d'])).takeWhile
                isWordChar), revContent.reverse)
          | _ => none
      | _ => none) = some (t, inner)
  have hw1 : (t.data ++ '\x7b' :: (inner ++ ['\x7d'])).takeWhile isWordChar = t.data := by
    apply takeWhile_append_run _ _ htall
    intro c hc
    simp only [List.head?_cons, Option.some.injEq] at hc
    rw [← hc]
    decide
  have hw2 : ((t.data ++ '\x7b' :: (inner ++ ['\x7d'])).drop
      ((t.data ++ '\x7b' :: (inner ++ ['\x7d'])).takeWhile isWordChar).length).dropWhile
        isReWS = '\x7b' :: (inner ++ ['\x7d']) := by
    rw [hw1, List.drop_left]
    exact dropWhile_eq_self_of_head _ (by
      intro c hc
      simp only [List.head?_cons, Option.some.injEq] at hc
      rw [← hc]
      decide)
  rw [hw2, hw1, if_neg htne]
  show (match ((inner ++ ['\x7d']).reverse.dropWhile isReWS) with
    | '\x7d' :: revContent =>
        if revContent = [] then none
        else some (String.mk t.data, revContent.reverse)
    | _ => none) = some (t, inner)
  rw [show (inner ++ ['\x7d']).reverse = '\x7d' :: inner.reverse from by simp]
  rw [show ('\x7d' :: inner.reverse).dropWhile isReWS = '\x7d' :: inner.reverse from
    List.dropWhile_cons_of_neg (by decide)]
  show (if inner.reverse = [] then none
    else some (String.mk t.data, inner.reverse.reverse)) = some (t, inner)
  rw [if_neg (by simp [hne]), List.reverse_reverse, string_mk_data]

theorem parse_toon_untagged_run (text : String) (body : List Char)
    (hstrip : pyStrip text.data = '\x7b' :: (body ++ ['\x7d'])) :
    parse_toon text =
      parseObjLoop (('\x7b' :: (body ++ ['\x7d'])).length + 8) (pyStrip body) [] := by
  rw [parse_toon.eq_def, hstrip]
  show (match tryTagged ('\x7b' :: (body ++ ['\x7d'])) with
    | some (w, content) => do
        let obj ← parseObjectContent (('\x7b' :: (body ++ ['\x7d'])).length + 8) content
        Except.ok (insertOrReplace obj "_type" (ToonVal.vstr w))
    | none =>
        if ('\x7b' :: (body ++ ['\x7d'])).head? = some '\x7b' &&
            ('\x7b' :: (body ++ ['\x7d'])).getLast? = some '\x7d' &&
            ('\x7b' :: (body ++ ['\x7d'])).length ≥ 2 then
          parseObjectContent (('\x7b' :: (body ++ ['\x7d'])).length + 8)
            ((('\x7b' :: (body ++ ['\x7d'])).drop 1).dropLast)
        else .ok [("value", pyParseScalar ('\x7b' :: (body ++ ['\x7d'])))]) = _
  rw [tryTagged_brace]
  show (if ('\x7b' :: (body ++ ['\x7d'])).head? = some '\x7b' &&
      ('\x7b' :: (body ++ ['\x7d'])).getLast? = some '\x7d' &&
      ('\x7b' :: (body ++ ['\x7d'])).length ≥ 2 then
    parseObjectContent (('\x7b' :: (body ++ ['\x7d'])).length + 8)
      ((('\x7b' :: (body ++ ['\x7d'])).drop 1).dropLast)
    else .ok [("value", pyParseScalar ('\x7b' :: (body ++ ['\x7d'])))]) =
    parseObjLoop (('\x7b' :: (body ++ ['\x7d'])).length + 8) (pyStrip body) []
  have hgl : ('\x7b' :: (body ++ ['\x7d'])).getLast? = some '\x7d' := by
    rw [show '\x7b' :: (body ++ ['\x7d']) = ('\x7b' :: body) ++ ['\x7d'] by simp,
      List.getLast?_concat]
  rw [if_pos (by
    simp only [Bool.and_eq_true, decide_eq_true_eq]
    refine ⟨⟨rfl, hgl⟩, by simp⟩)]
  rw [show (('\x7b' :: (body ++ ['\x7d'])).drop 1).dropLast = body from by
    rw [show ('\x7b' :: (body ++ ['\x7d'])).drop 1 = body ++ ['\x7d'] from rfl,
      List.dropLast_concat]]
  rw [parseObjectContent]

theorem parse_toon_tagged_run (text : String) (t : String) (inner : List Char)
    (hwt : isWordStr t = true) (hne : inner ≠ [])
    (hstrip : pyStrip text.data = '@' :: (t.data ++ '\x7b' :: (inner ++ ['\x7d']))) :
    parse_toon text = (do
      let obj ← parseObjLoop
        (('@' :: (t.data ++ '\x7b' :: (inner ++ ['\x7d']))).length + 8)
        (pyStrip inner) []
      Except.ok (insertOrReplace obj "_type" (ToonVal.vstr t))) := by
  rw [parse_toon.eq_def, hstrip]
  show (match tryTagged ('@' :: (t.data ++ '\x7b' :: (inner ++ ['\x7d']))) with
    | some (w, content) => do
        let obj ← parseObjectContent
          (('@' :: (t.data ++ '\x7b' :: (inner ++ ['\x7d']))).length + 8) content
        Except.ok (insertOrReplace obj "_type" (ToonVal.vstr w))
    | none =>
        if ('@' :: (t.data ++ '\x7b' :: (inner ++ ['\x7d']))).head? = some '\x7b' &&
            ('@' :: (t.data ++ '\x7b' :: (inner ++ ['\x7d']))).getLast? = some '\x7d' &&
            ('@' :: (t.data ++ '\x7b' :: (inner ++ ['\x7d']))).length ≥ 2 then
          parseObjectContent (('@' :: (t.data ++ '\x7b' :: (inner ++ ['\x7d']))).length + 8)
            ((('@' :: (t.data ++ '\x7b' :: (inner ++ ['\x7d']))).drop 1).dropLast)
        else .ok [("value", pyParseScalar ('@' :: (t.data ++ '\x7b' :: (inner ++ ['\x7d']))))]) = _
  rw [tryTagged_tagged t inner hwt hne]
  show (do
    let obj ← parseObjectContent
      (('@' :: (t.data ++ '\x7b' :: (inner ++ ['\x7d']))).length + 8) inner
    Except.ok (insertOrReplace obj "_type" (ToonVal.vstr t))) = _
  rw [parseObjectContent]



/-! ## serialize_toon versus the recursive serializer -/

theorem serializeObjParts_removeKey_type (data : Obj) (ind : Nat) (cm : Bool) :
    serializeObjParts (removeKey data "_type") ind cm =
      serializeObjParts data ind cm := by
  induction data with
  | nil => rfl
  | cons p t ih =>
      cases p with
      | mk k v =>
          by_cases hk : k = "_type"
          · subst hk
            rw [show removeKey (("_type", v) :: t) "_type" = removeKey t "_type" from by
              rw [removeKey.eq_def]
              simp]
            rw [ih, serializeObjParts_cons, if_pos rfl]
          · rw [show removeKey ((k, v) :: t) "_type" =
              (k, v) :: removeKey t "_type" from by
              rw [removeKey.eq_def]
              simp [hk]]
            rw [serializeObjParts_cons, serializeObjParts_cons, if_neg hk, if_neg hk, ih]

theorem serialize_toon_call_eq (data : Obj) (ind : Nat) (cm : Bool) :
    (serialize_toon_call data ind cm).1 = serializeValue (.vobj data) ind cm := by
  rw [serialize_toon_call.eq_def, serializeValue_vobj]
  cases htv : lookupVal data "_type" with
  | none => rfl
  | some tv =>
      show (if pyTruthy tv = true then
          ((if cm then
              '@' :: (tagString tv ++ '\x7b' :: intercalateL [' ']
                (serializeObjParts (removeKey data "_type") (ind + 2) true) ++ ['\x7d'])
            else
              '@' :: (tagString tv ++ '\x7b' :: '\n' :: intercalateL ['\n']
                (serializeObjParts (removeKey data "_type") (ind + 2) false) ++
                '\n' :: (spaces ind ++ ['\x7d']))), removeKey data "_type")
        else
          ((if cm then
              '\x7b' :: (intercalateL [' ']
                (serializeObjParts (removeKey data "_type") (ind + 2) true) ++ ['\x7d'])
            else
              '\x7b' :: '\n' :: (intercalateL ['\n']
                (serializeObjParts (removeKey data "_type") (ind + 2) false) ++
                '\n' :: (spaces ind ++ ['\x7d']))), removeKey data "_type")).1 =
        (if pyTruthy tv = true then
          (if cm then
            '@' :: (tagString tv ++ '\x7b' :: intercalateL [' ']
              (serializeObjParts data (ind + 2) true) ++ ['\x7d'])
          else
            '@' :: (tagString tv ++ '\x7b' :: '\n' :: intercalateL ['\n']
              (serializeObjParts data (ind + 2) false) ++
              '\n' :: (spaces ind ++ ['\x7d'])))
        else
          (if cm then
            '\x7b' :: (intercalateL [' ']
              (serializeObjParts data (ind + 2) true) ++ ['\x7d'])
          else
            '\x7b' :: '\n' :: (intercalateL ['\n']
              (serializeObjParts data (ind + 2) false) ++
              '\n' :: (spaces ind ++ ['\x7d']))))
      cases htr : pyTruthy tv
      · show (if cm then
            '\x7b' :: (intercalateL [' ']
              (serializeObjParts (removeKey data "_type") (ind + 2) true) ++ ['\x7d'])
          else
            '\x7b' :: '\n' :: (intercalateL ['\n']
              (serializeObjParts (removeKey data "_type") (ind + 2) false) ++
              '\n' :: (spaces ind ++ ['\x7d']))) =
          (if cm then
            '\x7b' :: (intercalateL [' ']
              (serializeObjParts data (ind + 2) true) ++ ['\x7d'])
          else
            '\x7b' :: '\n' :: (intercalateL ['\n']
              (serializeObjParts data (ind + 2) false) ++
              '\n' :: (spaces ind ++ ['\x7d'])))
        rw [serializeObjParts_removeKey_type data (ind + 2) true,
          serializeObjParts_removeKey_type data (ind + 2) false]
      · show (if cm then
            '@' :: (tagString tv ++ '\x7b' :: intercalateL [' ']
              (serializeObjParts (removeKey data "_type") (ind + 2) true) ++ ['\x7d'])
          else
            '@' :: (tagString tv ++ '\x7b' :: '\n' :: intercalateL ['\n']
              (serializeObjParts (removeKey data "_type") (ind + 2) false) ++
              '\n' :: (spaces ind ++ ['\x7d']))) =
          (if cm then
            '@' :: (tagString tv ++ '\x7b' :: intercalateL [' ']
              (serializeObjParts data (ind + 2) true) ++ ['\x7d'])
          else
            '@' :: (tagString tv ++ '\x7b' :: '\n' :: intercalateL ['\n']
              (serializeObjParts data (ind + 2) false) ++
              '\n' :: (spaces ind ++ ['\x7d'])))
        rw [serializeObjParts_removeKey_type data (ind + 2) true,
          serializeObjParts_removeKey_type data (ind + 2) false]



/-- C2, counterexample.  The tree x = [("k", "none")] is parser-producible
(the quoted document yields it) and contains no explicit nulls, yet both
round trips coerce the unquoted serialized token none back to null, so
parse(serialize(x)) differs from x in both modes. -/
theorem c2_counterexample :
    parse_toon "\x7bk:\"none\"\x7d" = .ok [("k", ToonVal.vstr "none")] ∧
    parse_toon (serialize_toon [("k", ToonVal.vstr "none")] true) =
      .ok [("k", ToonVal.vnull)] ∧
    parse_toon (serialize_toon [("k", ToonVal.vstr "none")] false) =
      .ok [("k", ToonVal.vnull)] ∧
    ([("k", ToonVal.vnull)] : Obj) ≠ [("k", ToonVal.vstr "none")] :=
  ⟨rfl, rfl, rfl, by simp⟩

/-- C2, amended.  The round trip parse_toon (serialize_toon x cm) = x holds in
both modes for every safe tree: no nulls or floats, strings either triggering
quoting or surviving unquoted re-coercion, word-shaped distinct keys, any
type tag a word string in the last position, and, when the top level is
tagged, at least one further member. -/
theorem c2_amended (fields : Obj) (cm : Bool) (h : isSafeTop fields = true) :
    parse_toon (serialize_toon fields cm) = .ok fields := by
  simp only [isSafeTop, Bool.and_eq_true] at h
  obtain ⟨hsafe, htop⟩ := h
  have hsafe2 : isSafeVal (.vobj fields) = true := by
    rw [isSafeVal_vobj]
    exact hsafe
  obtain ⟨hne, hhead, hlast⟩ := serializeValue_shape (.vobj fields) 0 cm hsafe2
  have hdata : (serialize_toon fields cm).data =
      serializeValue (.vobj fields) 0 cm := by
    rw [serialize_toon.eq_def, serialize_toon_call_eq]
  have hstrip : pyStrip (serialize_toon fields cm).data =
      serializeValue (.vobj fields) 0 cm := by
    rw [hdata]
    exact pyStrip_eq_self _ hhead hlast
  rcases isSafeObj_decomp fields hsafe with hnt | ⟨core, t, rfl, hwt, hcnt, hcsafe⟩
  · have htv : lookupVal fields "_type" = none := hasKeyB_false_lookup hnt
    cases cm
    · have hsplit : serializeValue (.vobj fields) 0 false =
          '\x7b' :: (('\n' :: (objBodyL fields (0 + 2) false ++ '\n' :: spaces 0)) ++
            ['\x7d']) := by
        rw [serializeValue_vobj_untagged fields 0 false htv, if_neg (by simp),
          show intercalateL ['\n'] (serializeObjParts fields (0 + 2) false) =
            objBodyL fields (0 + 2) false from rfl]
        simp
      rw [parse_toon_untagged_run _ _ (by rw [hstrip, hsplit])]
      rw [pyStrip_objBody_pretty fields (0 + 2) 0 hsafe hnt]
      exact parseObjSer _ fields (0 + 2) false [] _ hsafe hnt (fun _ _ _ => rfl)
        (skipLoopWS_idem _)
        (by simp only [List.length_cons, List.length_append]; omega)
    · have hsplit : serializeValue (.vobj fields) 0 true =
          '\x7b' :: (objBodyL fields (0 + 2) true ++ ['\x7d']) := by
        rw [serializeValue_vobj_untagged fields 0 true htv,
          if_pos (show (true = true) from rfl),
          show intercalateL [' '] (serializeObjParts fields (0 + 2) true) =
            objBodyL fields (0 + 2) true from rfl]
      rw [parse_toon_untagged_run _ _ (by rw [hstrip, hsplit])]
      rw [pyStrip_objBody_compact fields (0 + 2) hsafe hnt]
      exact parseObjSer _ fields (0 + 2) true [] _ hsafe hnt (fun _ _ _ => rfl)
        (skipLoopWS_idem _)
        (by simp only [List.length_cons, List.length_append]; omega)
  · have hcne : core ≠ [] := by
      have hkt : hasKeyB (core ++ [("_type", ToonVal.vstr t)]) "_type" = true := by
        rw [hasKeyB_append]
        simp [hasKeyB]
      rw [hkt] at htop
      rw [removeKey_append, removeKey_absent hcnt,
        show removeKey [("_type", ToonVal.vstr t)] "_type" = [] from rfl] at htop
      simp only [Bool.not_true, Bool.false_or, Bool.not_eq_true',
        List.isEmpty_eq_false, List.append_nil] at htop
      exact htop
    have htv : lookupVal (core ++ [("_type", ToonVal.vstr t)]) "_type" =
        some (ToonVal.vstr t) := by
      rw [lookupVal_append_right core _ "_type" hcnt]
      rfl
    cases cm
    · have hsplit : serializeValue (.vobj (core ++ [("_type", ToonVal.vstr t)]))
          0 false =
          '@' :: (t.data ++ '\x7b' ::
            (('\n' :: (objBodyL core (0 + 2) false ++ '\n' :: spaces 0)) ++
              ['\x7d'])) := by
        rw [serializeValue_vobj_tagged _ 0 false _ htv (pyTruthy_wordStr hwt),
          if_neg (by simp),
          serializeObjParts_append_type core (ToonVal.vstr t) (0 + 2) false,
          show intercalateL ['\n'] (serializeObjParts core (0 + 2) false) =
            objBodyL core (0 + 2) false from rfl,
          show tagString (ToonVal.vstr t) = t.data from rfl]
        simp
      rw [parse_toon_tagged_run _ t
        ('\n' :: (objBodyL core (0 + 2) false ++ '\n' :: spaces 0)) hwt (by simp)
        (by rw [hstrip, hsplit])]
      rw [pyStrip_objBody_pretty core (0 + 2) 0 hcsafe hcnt]
      rw [parseObjSer _ core (0 + 2) false [] _ hcsafe hcnt (fun _ _ _ => rfl)
        (skipLoopWS_idem _)
        (by simp only [List.length_cons, List.length_append]; omega)]
      show Except.ok (insertOrReplace ([] ++ core) "_type" (ToonVal.vstr t)) =
        Except.ok (core ++ [("_type", ToonVal.vstr t)])
      rw [show (([] : Obj) ++ core) = core from List.nil_append core,
        insertOrReplace_absent hcnt]
    · have hinner_ne : objBodyL core (0 + 2) true ≠ [] := by
        cases core with
        | nil => exact absurd rfl hcne
        | cons p r =>
            cases p with
            | mk k0 v0 =>
                have hk0 : k0 ≠ "_type" := hasKeyB_false_mem hcnt k0 v0 (by simp)
                have hcs2 := hcsafe
                rw [isSafeObj_cons, if_neg hk0] at hcs2
                simp only [Bool.and_eq_true, Bool.not_eq_true'] at hcs2
                obtain ⟨⟨⟨hw0, hv0⟩, -⟩, -⟩ := hcs2
                have hv0nn : v0 ≠ .vnull := (isSafeVal_not_null_float v0 hv0).1
                obtain ⟨X, hX⟩ := objBodyL_head_shape k0 v0 r (0 + 2) true hk0 hv0nn
                rw [hX]
                obtain ⟨hk0ne, -⟩ := isWordStr_data hw0
                intro hcon
                simp only [List.append_eq_nil] at hcon
                exact hk0ne hcon.2.1
      have hsplit : serializeValue (.vobj (core ++ [("_type", ToonVal.vstr t)]))
          0 true =
          '@' :: (t.data ++ '\x7b' :: (objBodyL core (0 + 2) true ++ ['\x7d'])) := by
        rw [serializeValue_vobj_tagged _ 0 true _ htv (pyTruthy_wordStr hwt),
          if_pos (show (true = true) from rfl),
          serializeObjParts_append_type core (ToonVal.vstr t) (0 + 2) true,
          show intercalateL [' '] (serializeObjParts core (0 + 2) true) =
            objBodyL core (0 + 2) true from rfl,
          show tagString (ToonVal.vstr t) = t.data from rfl]
        simp
      rw [parse_toon_tagged_run _ t _ hwt hinner_ne (by rw [hstrip, hsplit])]
      rw [pyStrip_objBody_compact core (0 + 2) hcsafe hcnt]
      rw [parseObjSer _ core (0 + 2) true [] _ hcsafe hcnt (fun _ _ _ => rfl)
        (skipLoopWS_idem _)
        (by simp only [List.length_cons, List.length_append]; omega)]
      show Except.ok (insertOrReplace ([] ++ core) "_type" (ToonVal.vstr t)) =
        Except.ok (core ++ [("_type", ToonVal.vstr t)])
      rw [show (([] : Obj) ++ core) = core from List.nil_append core,
        insertOrReplace_absent hcnt]

/-- C2, witness for the amended theorem at a concrete safe document covering
both modes, a nested tagged object, an array and all safe scalar kinds. -/
theorem c2_amended_witness :
    isSafeTop [("a", ToonVal.vint 42),
      ("b", ToonVal.vstr "hi there"),
      ("c", ToonVal.varr [ToonVal.vint 1, ToonVal.vbool true,
        ToonVal.vobj [("x", ToonVal.vint (-3)), ("_type", ToonVal.vstr "Pt")]]),
      ("d", ToonVal.vobj [("e", ToonVal.vstr "w0rd")])] = true ∧
    parse_toon (serialize_toon [("a", ToonVal.vint 42),
      ("b", ToonVal.vstr "hi there"),
      ("c", ToonVal.varr [ToonVal.vint 1, ToonVal.vbool true,
        ToonVal.vobj [("x", ToonVal.vint (-3)), ("_type", ToonVal.vstr "Pt")]]),
      ("d", ToonVal.vobj [("e", ToonVal.vstr "w0rd")])] true) =
      .ok [("a", ToonVal.vint 42),
      ("b", ToonVal.vstr "hi there"),
      ("c", ToonVal.varr [ToonVal.vint 1, ToonVal.vbool true,
        ToonVal.vobj [("x", ToonVal.vint (-3)), ("_type", ToonVal.vstr "Pt")]]),
      ("d", ToonVal.vobj [("e", ToonVal.vstr "w0rd")])] ∧
    parse_toon (serialize_toon [("a", ToonVal.vint 42),
      ("b", ToonVal.vstr "hi there"),
      ("c", ToonVal.varr [ToonVal.vint 1, ToonVal.vbool true,
        ToonVal.vobj [("x", ToonVal.vint (-3)), ("_type", ToonVal.vstr "Pt")]]),
      ("d", ToonVal.vobj [("e", ToonVal.vstr "w0rd")])] false) =
      .ok [("a", ToonVal.vint 42),
      ("b", ToonVal.vstr "hi there"),
      ("c", ToonVal.varr [ToonVal.vint 1, ToonVal.vbool true,
        ToonVal.vobj [("x", ToonVal.vint (-3)), ("_type", ToonVal.vstr "Pt")]]),
      ("d", ToonVal.vobj [("e", ToonVal.vstr "w0rd")])] :=
  ⟨rfl,
   c2_amended [("a", ToonVal.vint 42),
      ("b", ToonVal.vstr "hi there"),
      ("c", ToonVal.varr [ToonVal.vint 1, ToonVal.vbool true,
        ToonVal.vobj [("x", ToonVal.vint (-3)), ("_type", ToonVal.vstr "Pt")]]),
      ("d", ToonVal.vobj [("e", ToonVal.vstr "w0rd")])] true rfl,
   c2_amended [("a", ToonVal.vint 42),
      ("b", ToonVal.vstr "hi there"),
      ("c", ToonVal.varr [ToonVal.vint 1, ToonVal.vbool true,
        ToonVal.vobj [("x", ToonVal.vint (-3)), ("_type", ToonVal.vstr "Pt")]]),
      ("d", ToonVal.vobj [("e", ToonVal.vstr "w0rd")])] false rfl⟩



/-! ## Garbage skipping in the member loop -/

theorem parseObjLoop_skip (fuel : Nat) (c : Char) (X : List Char) (acc : Obj)
    (hws : isLoopWS c = false) (hnw : isWordChar c = false) :
    parseObjLoop (fuel + 1) (c :: X) acc = parseObjLoop fuel X acc := by
  rw [parseObjLoop_cons fuel (c :: X) acc c X (skipLoopWS_cons_not c X hws)]
  rw [show (c :: X).takeWhile isWordChar = [] from
    List.takeWhile_cons_of_neg (by simp [hnw])]

theorem parseObjLoop_junk : ∀ (junk : List Char) (T : List Char) (acc r : Obj),
    (∀ c ∈ junk, isWordChar c = false) →
    (∀ fuel2, T.length + 1 ≤ fuel2 → parseObjLoop fuel2 T acc = .ok r) →
    ∀ fuel, (junk ++ T).length + 1 ≤ fuel → parseObjLoop fuel (junk ++ T) acc = .ok r
  | [], T, acc, r => fun _ hcont fuel hf => hcont fuel (by simpa using hf)
  | c :: junk2, T, acc, r => by
      intro hj hcont fuel hf
      obtain ⟨f, rfl⟩ : ∃ f, fuel = f + 1 := ⟨fuel - 1, by
        simp only [List.length_append, List.length_cons] at hf
        omega⟩
      rw [List.cons_append]
      cases hws : isLoopWS c
      · rw [parseObjLoop_skip f c (junk2 ++ T) acc hws (hj c (by simp))]
        exact parseObjLoop_junk junk2 T acc r (fun d hd => hj d (by simp [hd])) hcont f
          (by simp only [List.length_append, List.length_cons] at hf ⊢; omega)
      · rw [parseObjLoop_congr
          (show skipLoopWS (c :: (junk2 ++ T)) = skipLoopWS (junk2 ++ T) from
            List.dropWhile_cons_of_pos (by simp [hws])) f acc]
        exact parseObjLoop_junk junk2 T acc r (fun d hd => hj d (by simp [hd])) hcont
          (f + 1)
          (by simp only [List.length_append, List.length_cons] at hf ⊢; omega)

/-! ## Structure of pair-garbage-pair bodies -/

theorem betweenBody_nil (gs : List String) : betweenBody [] gs = [] := rfl

theorem betweenBody_single (p : String × ToonVal) (gs : List String) :
    betweenBody [p] gs = renderPair p := by
  cases gs <;> rw [betweenBody.eq_def]

theorem betweenBody_cons_cons (p p2 : String × ToonVal) (ps : Obj) (g : String)
    (gs : List String) :
    betweenBody (p :: p2 :: ps) (g :: gs) =
      renderPair p ++ ' ' :: (g.data ++ ' ' :: betweenBody (p2 :: ps) gs) := by
  rw [betweenBody.eq_def]

theorem betweenBody_cons_gnil (p p2 : String × ToonVal) (ps : Obj) :
    betweenBody (p :: p2 :: ps) [] = renderPair p := by
  rw [betweenBody.eq_def]

theorem betweenBody_cons_ex (p : String × ToonVal) (ps : Obj) (gs : List String) :
    ∃ R, betweenBody (p :: ps) gs = renderPair p ++ R := by
  cases ps with
  | nil => exact ⟨[], by rw [betweenBody_single]; simp⟩
  | cons p2 ps2 =>
      cases gs with
      | nil => exact ⟨[], by rw [betweenBody_cons_gnil]; simp⟩
      | cons g gs2 =>
          exact ⟨' ' :: (g.data ++ ' ' :: betweenBody (p2 :: ps2) gs2),
            betweenBody_cons_cons p p2 ps2 g gs2⟩

theorem renderPair_eq (p : String × ToonVal) :
    renderPair p = p.1.data ++ ':' :: serializeValue p.2 0 true := rfl

theorem betweenBody_head_facts (p : String × ToonVal) (ps : Obj) (gs : List String)
    (hw : isWordStr p.1 = true) :
    ∀ c, (betweenBody (p :: ps) gs).head? = some c → isWordChar c = true := by
  obtain ⟨R, hR⟩ := betweenBody_cons_ex p ps gs
  rw [hR, renderPair_eq]
  obtain ⟨hkne, hkall⟩ := isWordStr_data hw
  intro c hc
  cases hkk : p.1.data with
  | nil => exact absurd hkk hkne
  | cons kc ks =>
      rw [hkk] at hc
      simp only [List.cons_append, List.head?_cons, Option.some.injEq] at hc
      rw [← hc]
      exact hkall kc (by simp [hkk])

theorem betweenBody_ne_nil (p : String × ToonVal) (ps : Obj) (gs : List String) :
    betweenBody (p :: ps) gs ≠ [] := by
  obtain ⟨R, hR⟩ := betweenBody_cons_ex p ps gs
  rw [hR, renderPair_eq]
  simp

theorem betweenBody_last : ∀ (ps : Obj) (gs : List String),
    isSafeObj ps = true → hasKeyB ps "_type" = false →
    ∀ c, (betweenBody ps gs).getLast? = some c → isReWS c = false
  | [], gs => by
      intro _ _ c hc
      rw [betweenBody_nil] at hc
      simp at hc
  | [p], gs => by
      intro hsafe hnt c hc
      obtain ⟨k, v⟩ := p
      simp only [hasKeyB, Bool.or_eq_false_iff, decide_eq_false_iff_not] at hnt
      rw [isSafeObj_cons, if_neg hnt.1] at hsafe
      simp only [Bool.and_eq_true, Bool.not_eq_true'] at hsafe
      obtain ⟨⟨⟨hw, hv⟩, -⟩, -⟩ := hsafe
      rw [betweenBody_single, renderPair_eq] at hc
      obtain ⟨hser_ne, -, hser_last⟩ := serializeValue_shape v 0 true hv
      rw [List.getLast?_append_of_ne_nil _ (by simp), getLast?_cons_ne hser_ne] at hc
      exact hser_last c hc
  | p :: p2 :: ps2, gs => by
      intro hsafe hnt c hc
      obtain ⟨k, v⟩ := p
      rw [show hasKeyB ((k, v) :: p2 :: ps2) "_type" =
        (k = "_type" || hasKeyB (p2 :: ps2) "_type") from rfl] at hnt
      simp only [Bool.or_eq_false_iff, decide_eq_false_iff_not] at hnt
      rw [isSafeObj_cons, if_neg hnt.1] at hsafe
      simp only [Bool.and_eq_true, Bool.not_eq_true'] at hsafe
      obtain ⟨⟨⟨hw, hv⟩, -⟩, hrest⟩ := hsafe
      cases gs with
      | nil =>
          rw [betweenBody_cons_gnil, renderPair_eq] at hc
          obtain ⟨hser_ne, -, hser_last⟩ := serializeValue_shape v 0 true hv
          rw [List.getLast?_append_of_ne_nil _ (by simp),
            getLast?_cons_ne hser_ne] at hc
          exact hser_last c hc
      | cons g gs2 =>
          rw [betweenBody_cons_cons] at hc
          have hB2 : betweenBody (p2 :: ps2) gs2 ≠ [] := betweenBody_ne_nil p2 ps2 gs2
          rw [List.getLast?_append_of_ne_nil _ (by simp),
            show (' ' :: (g.data ++ ' ' :: betweenBody (p2 :: ps2) gs2)).getLast? =
              (g.data ++ ' ' :: betweenBody (p2 :: ps2) gs2).getLast? from
              getLast?_cons_ne (by simp),
            List.getLast?_append_of_ne_nil _ (by simp),
            getLast?_cons_ne hB2] at hc
          exact betweenBody_last (p2 :: ps2) gs2 hrest hnt.2 c hc

theorem betweenBody_tail_no_brace (g : String) (p2 : String × ToonVal) (ps2 : Obj)
    (gs2 : List String)
    (hg : ∀ c ∈ g.data, isWordChar c = false ∧ c ≠ '\x7b')
    (hw2 : isWordStr p2.1 = true) :
    ∀ c, ((g.data ++ ' ' :: betweenBody (p2 :: ps2) gs2).dropWhile isReWS).head? =
      some c → c ≠ '\x7b' := by
  intro c hc
  rcases dropWhile_append_cases isReWS g.data
    (' ' :: betweenBody (p2 :: ps2) gs2) with hcase | ⟨-, hcase⟩
  · rw [hcase] at hc
    cases hgd : g.data.dropWhile isReWS with
    | nil =>
        rw [hgd, List.nil_append] at hc
        simp only [List.head?_cons, Option.some.injEq] at hc
        rw [← hc]
        decide
    | cons d ds =>
        rw [hgd, List.cons_append] at hc
        simp only [List.head?_cons, Option.some.injEq] at hc
        rw [← hc]
        exact (hg d ((List.dropWhile_sublist _).mem (by rw [hgd]; simp))).2
  · rw [hcase, List.dropWhile_cons_of_pos (by decide)] at hc
    have hhead := betweenBody_head_facts p2 ps2 gs2 hw2
    rw [dropWhile_eq_self_of_head _
      (fun d hd => isWordChar_not_reWS (hhead d hd))] at hc
    have hcw := hhead c hc
    intro he
    rw [he] at hcw
    exact absurd hcw (by decide)



theorem length_dropWhile_le (p : Char → Bool) (l : List Char) :
    (l.dropWhile p).length ≤ l.length := by
  induction l with
  | nil => simp
  | cons c t ih =>
      by_cases hc : p c
      · rw [List.dropWhile_cons_of_pos hc]
        simp only [List.length_cons]
        omega
      · rw [List.dropWhile_cons_of_neg hc]

/-! ## The member loop on pair-garbage-pair bodies -/

theorem betweenLoop : ∀ (ps : Obj) (gs : List String) (acc : Obj) (fuel : Nat),
    ps.length = gs.length + 1 →
    (∀ g ∈ gs, ∀ c ∈ g.data, isWordChar c = false ∧ c ≠ '\x7b') →
    isSafeObj ps = true → hasKeyB ps "_type" = false →
    (∀ k2 v2, (k2, v2) ∈ ps → hasKeyB acc k2 = false) →
    (betweenBody ps gs).length + 1 ≤ fuel →
    parseObjLoop fuel (betweenBody ps gs) acc = .ok (acc ++ ps)
  | [], gs, acc, fuel => by
      intro hlen
      simp at hlen
  | [p], gs, acc, fuel => by
      intro hlen hg hsafe hnt hdisj hf
      obtain ⟨k, v⟩ := p
      simp only [hasKeyB, Bool.or_eq_false_iff, decide_eq_false_iff_not] at hnt
      rw [isSafeObj_cons, if_neg hnt.1] at hsafe
      simp only [Bool.and_eq_true, Bool.not_eq_true'] at hsafe
      obtain ⟨⟨⟨hw, hv⟩, -⟩, -⟩ := hsafe
      rw [betweenBody_single] at hf ⊢
      rw [show renderPair (k, v) =
        [] ++ (k.data ++ ':' :: (serializeValue v 0 true ++ [])) from by
        rw [renderPair_eq]
        simp] at hf ⊢
      obtain ⟨f, rfl⟩ : ∃ f, fuel = f + 1 := ⟨fuel - 1, by
        simp only [List.length_append, List.length_cons, List.length_nil] at hf
        omega⟩
      have hval : parseValueAt f (serializeValue v 0 true ++ []) = .ok (v, []) :=
        parseValSer f v 0 true [] hv boundaryRest_nil (by
          simp only [List.length_append, List.length_cons, List.length_nil] at hf
          omega)
      rw [parseObjLoop_step f [] k v 0 true [] acc (by simp) hw hv hval]
      rw [insertOrReplace_absent (hdisj k v (by simp)) v]
      obtain ⟨f2, rfl⟩ : ∃ f2, f = f2 + 1 := ⟨f - 1, by
        simp only [List.length_append, List.length_cons, List.length_nil] at hf
        omega⟩
      rw [parseObjLoop_nil f2 (skipLoopWSComma []) (acc ++ [(k, v)]) rfl]
  | p :: p2 :: ps2, gs, acc, fuel => by
      intro hlen hg hsafe hnt hdisj hf
      obtain ⟨k, v⟩ := p
      obtain ⟨k2, v2⟩ := p2
      obtain ⟨g, gs2, rfl⟩ : ∃ g gs2, gs = g :: gs2 := by
        cases gs with
        | nil => simp at hlen
        | cons a b => exact ⟨a, b, rfl⟩
      rw [show hasKeyB ((k, v) :: (k2, v2) :: ps2) "_type" =
        (k = "_type" || hasKeyB ((k2, v2) :: ps2) "_type") from rfl] at hnt
      simp only [Bool.or_eq_false_iff, decide_eq_false_iff_not] at hnt
      rw [isSafeObj_cons, if_neg hnt.1] at hsafe
      simp only [Bool.and_eq_true, Bool.not_eq_true'] at hsafe
      obtain ⟨⟨⟨hw, hv⟩, hnk⟩, hrest⟩ := hsafe
      have hk2 : k2 ≠ "_type" := hasKeyB_false_mem hnt.2 k2 v2 (by simp)
      have hs2 := hrest
      rw [isSafeObj_cons, if_neg hk2] at hs2
      simp only [Bool.and_eq_true, Bool.not_eq_true'] at hs2
      obtain ⟨⟨⟨hw2, -⟩, -⟩, -⟩ := hs2
      rw [betweenBody_cons_cons] at hf ⊢
      rw [show renderPair (k, v) ++ ' ' :: (g.data ++ ' ' ::
          betweenBody ((k2, v2) :: ps2) gs2) =
        [] ++ (k.data ++ ':' :: (serializeValue v 0 true ++
          (' ' :: (g.data ++ ' ' :: betweenBody ((k2, v2) :: ps2) gs2)))) from by
        rw [renderPair_eq]
        simp] at hf ⊢
      obtain ⟨f, rfl⟩ : ∃ f, fuel = f + 1 := ⟨fuel - 1, by
        simp only [List.length_append, List.length_cons, List.length_nil] at hf
        omega⟩
      have hbr : BoundaryRest (' ' :: (g.data ++ ' ' ::
          betweenBody ((k2, v2) :: ps2) gs2)) := by
        constructor
        · intro c hc
          simp only [List.head?_cons, Option.some.injEq] at hc
          rw [← hc]
          decide
        · intro c hc
          rw [show (' ' :: (g.data ++ ' ' ::
              betweenBody ((k2, v2) :: ps2) gs2)).dropWhile isReWS =
            (g.data ++ ' ' :: betweenBody ((k2, v2) :: ps2) gs2).dropWhile isReWS
            from List.dropWhile_cons_of_pos (by decide)] at hc
          exact betweenBody_tail_no_brace g (k2, v2) ps2 gs2 (hg g (by simp)) hw2 c hc
      have hval := parseValSer f v 0 true
        (' ' :: (g.data ++ ' ' :: betweenBody ((k2, v2) :: ps2) gs2)) hv hbr (by
          simp only [List.length_append, List.length_cons, List.length_nil] at hf
          omega)
      rw [parseObjLoop_step f [] k v 0 true
        (' ' :: (g.data ++ ' ' :: betweenBody ((k2, v2) :: ps2) gs2)) acc
        (by simp) hw hv hval]
      rw [insertOrReplace_absent (hdisj k v (by simp)) v]
      rw [show skipLoopWSComma (' ' :: (g.data ++ ' ' ::
          betweenBody ((k2, v2) :: ps2) gs2)) =
        skipLoopWSComma (g.data ++ ' ' :: betweenBody ((k2, v2) :: ps2) gs2) from
        List.dropWhile_cons_of_pos (by decide)]
      have hdisj2 : ∀ k3 v3, (k3, v3) ∈ (k2, v2) :: ps2 →
          hasKeyB (acc ++ [(k, v)]) k3 = false := by
        intro k3 v3 hm
        have h1 : hasKeyB acc k3 = false := hdisj k3 v3 (List.mem_cons_of_mem _ hm)
        have h2 : k3 ≠ k := hasKeyB_false_mem hnk k3 v3 hm
        rw [hasKeyB_append]
        simp [hasKeyB, h1, Ne.symm h2]
      have hlen2 : ((k2, v2) :: ps2).length = gs2.length + 1 := by simpa using hlen
      have hg2 : ∀ g2 ∈ gs2, ∀ c ∈ g2.data, isWordChar c = false ∧ c ≠ '\x7b' :=
        fun g2 hgm => hg g2 (by simp [hgm])
      have hcont : ∀ fuel2, (betweenBody ((k2, v2) :: ps2) gs2).length + 1 ≤ fuel2 →
          parseObjLoop fuel2 (betweenBody ((k2, v2) :: ps2) gs2) (acc ++ [(k, v)]) =
          .ok ((acc ++ [(k, v)]) ++ (k2, v2) :: ps2) :=
        fun fuel2 hf2 => betweenLoop ((k2, v2) :: ps2) gs2 (acc ++ [(k, v)]) fuel2
          hlen2 hg2 hrest hnt.2 hdisj2 hf2
      rcases dropWhile_append_cases (fun c => isLoopWS c || c = ',') g.data
        (' ' :: betweenBody ((k2, v2) :: ps2) gs2) with hcase | ⟨-, hcase⟩
      · rw [show skipLoopWSComma (g.data ++ ' ' ::
            betweenBody ((k2, v2) :: ps2) gs2) =
          g.data.dropWhile (fun c => isLoopWS c || c = ',') ++
            ' ' :: betweenBody ((k2, v2) :: ps2) gs2 from hcase]
        rw [show g.data.dropWhile (fun c => isLoopWS c || c = ',') ++
            ' ' :: betweenBody ((k2, v2) :: ps2) gs2 =
          (g.data.dropWhile (fun c => isLoopWS c || c = ',') ++ [' ']) ++
            betweenBody ((k2, v2) :: ps2) gs2 from by simp]
        have hjunk : ∀ c ∈ g.data.dropWhile (fun c => isLoopWS c || c = ',') ++ [' '],
            isWordChar c = false := by
          intro c hc
          rcases List.mem_append.mp hc with h | h
          · exact (hg g (by simp) c ((List.dropWhile_sublist _).mem h)).1
          · simp only [List.mem_singleton] at h
            rw [h]
            decide
        have hdw : (g.data.dropWhile (fun c => isLoopWS c || c = ',')).length ≤
            g.data.length := length_dropWhile_le _ _
        rw [parseObjLoop_junk
          (g.data.dropWhile (fun c => isLoopWS c || c = ',') ++ [' '])
          (betweenBody ((k2, v2) :: ps2) gs2) (acc ++ [(k, v)])
          ((acc ++ [(k, v)]) ++ (k2, v2) :: ps2) hjunk hcont f (by
            simp only [List.length_append, List.length_cons, List.length_nil] at hf ⊢
            omega)]
        simp
      · rw [show skipLoopWSComma (g.data ++ ' ' ::
            betweenBody ((k2, v2) :: ps2) gs2) =
          betweenBody ((k2, v2) :: ps2) gs2 from by
          rw [show skipLoopWSComma (g.data ++ ' ' ::
              betweenBody ((k2, v2) :: ps2) gs2) =
            (' ' :: betweenBody ((k2, v2) :: ps2) gs2).dropWhile
              (fun c => isLoopWS c || c = ',') from hcase,
            List.dropWhile_cons_of_pos (by decide)]
          exact dropWhile_eq_self_of_head _ (by
            intro d hd
            have hdw2 := betweenBody_head_facts (k2, v2) ps2 gs2 hw2 d hd
            have h1 : isLoopWS d = false :=
              not_reWS_not_loopWS (isWordChar_not_reWS hdw2)
            simp only [h1, Bool.false_or, decide_eq_false_iff_not]
            intro he
            rw [he] at hdw2
            exact absurd hdw2 (by decide))]
        rw [hcont f (by
          simp only [List.length_append, List.length_cons, List.length_nil] at hf ⊢
          omega)]
        simp



/-- C8, counterexample.  An opening brace as the garbage between two valid
pairs aborts the whole parse: after the unquoted at-word value of the first
pair, the scanner treats the brace as the start of a tagged object and
raises the unmatched-brace error, so the second pair is never parsed;
without that garbage brace the same two pairs parse fine. -/
theorem c8_counterexample :
    parse_toon "\x7ba:@w \x7b b:1\x7d" = .error "Unmatched brace" ∧
    parse_toon "\x7ba:@w b:1\x7d" =
      .ok [("a", ToonVal.vstr "@w"), ("b", ToonVal.vint 1)] :=
  ⟨rfl, rfl⟩

/-- C8, amended.  Garbage between valid key:value pairs of an object body is
skipped one character at a time and every pair is parsed into the result,
provided no garbage character is an opening brace: an opening brace in the
garbage following an unquoted at-word value is taken as the start of a
tagged object and aborts the parse with an unmatched-brace error. -/
theorem c8_amended (p0 : String × ToonVal) (ps : Obj) (gs : List String)
    (hlen : (p0 :: ps).length = gs.length + 1)
    (hg : ∀ g ∈ gs, ∀ c ∈ g.data, isWordChar c = false ∧ c ≠ '\x7b')
    (hsafe : isSafeObj (p0 :: ps) = true)
    (hnt : hasKeyB (p0 :: ps) "_type" = false) :
    parse_toon (String.mk ('\x7b' :: (betweenBody (p0 :: ps) gs ++ ['\x7d']))) =
      .ok (p0 :: ps) := by
  have hk0 : p0.1 ≠ "_type" := hasKeyB_false_mem hnt p0.1 p0.2 (by simp)
  have hs0 := hsafe
  rw [show ((p0 :: ps) : Obj) = ((p0.1, p0.2) :: ps) from rfl] at hs0
  rw [isSafeObj_cons, if_neg hk0] at hs0
  simp only [Bool.and_eq_true, Bool.not_eq_true'] at hs0
  obtain ⟨⟨⟨hw0, -⟩, -⟩, -⟩ := hs0
  have hhead := betweenBody_head_facts p0 ps gs hw0
  have hstrip : pyStrip (String.mk ('\x7b' :: (betweenBody (p0 :: ps) gs ++
      ['\x7d']))).data = '\x7b' :: (betweenBody (p0 :: ps) gs ++ ['\x7d']) := by
    apply pyStrip_eq_self
    · intro x hx
      simp only [List.head?_cons, Option.some.injEq] at hx
      rw [← hx]
      decide
    · intro x hx
      rw [show '\x7b' :: (betweenBody (p0 :: ps) gs ++ ['\x7d']) =
        ('\x7b' :: betweenBody (p0 :: ps) gs) ++ ['\x7d'] by simp,
        List.getLast?_concat] at hx
      simp only [Option.some.injEq] at hx
      rw [← hx]
      decide
  rw [parse_toon_untagged_run _ _ hstrip]
  have hstrip2 : pyStrip (betweenBody (p0 :: ps) gs) = betweenBody (p0 :: ps) gs := by
    apply pyStrip_eq_self
    · intro x hx
      exact isWordChar_not_reWS (hhead x hx)
    · exact betweenBody_last (p0 :: ps) gs hsafe hnt
  rw [hstrip2]
  exact betweenLoop (p0 :: ps) gs [] _ hlen hg hsafe hnt (fun _ _ _ => rfl)
    (by simp only [List.length_cons, List.length_append]; omega)

/-- C8, witness for the amended theorem: two pairs with the garbage segment
#?- between them parse back to exactly the two pairs. -/
theorem c8_amended_witness :
    parse_toon (String.mk ('\x7b' :: (betweenBody
      [("a", ToonVal.vint 1), ("b", ToonVal.vstr "ok")] ["#?-"] ++ ['\x7d']))) =
      .ok [("a", ToonVal.vint 1), ("b", ToonVal.vstr "ok")] :=
  c8_amended ("a", ToonVal.vint 1) [("b", ToonVal.vstr "ok")] ["#?-"]
    rfl (by decide) rfl rfl


end WWT
